import Mathlib

/-!
Verification development for the Lab3-Pathfinder grid / A* core.

The JavaScript source is embedded shallowly:

* `Node` (src/unnamed/part_006, class Node) becomes a Lean structure; the
  JavaScript number fields `g` and `f`, initialised to `Infinity`, become
  `Option Nat` with `none` playing the role of `Infinity` (`jsLt`, `jsAdd`
  mirror the JavaScript `<` and `+` on such values).
* `Grid` (src/js/classes/Grid.js) becomes a structure holding the dimension
  fields (`Option Int`: `none` models the JavaScript `undefined` that a
  malformed payload can put there), the `nodes` array of arrays, and the
  `startNode` / `endNode` references.  Node object references are modelled
  by grid positions `(row, col)`; this identification is faithful whenever
  the references point into the current `nodes` array, which is the case in
  every state the verified theorems speak about.
* Operations that can throw a `TypeError` in JavaScript (indexing
  `this.nodes[row][col]` out of bounds) return `Except Grid Grid`: the
  `error` payload is the grid state at the moment the exception is raised,
  so the `try { ... } catch` in `loadGridData` can be modelled faithfully.
* `AStar.findPath` (src/js/classes/Astar.js) is embedded in its blocking
  form (`animate = false`; the timer delays and DOM updates are no-ops for
  the state).  The unbounded `while` loop becomes fuel-based recursion with
  fuel `rows * cols + 1`, which the proofs show is never exhausted.
-/

/-- Grid positions `(row, col)`. -/
abbrev Pos : Type := Nat × Nat

/-- JavaScript `<` on numbers where `none` stands for `Infinity`. -/
def jsLt : Option Nat → Option Nat → Bool
  | some a, some b => a < b
  | some _, none => true
  | none, _ => false

/-- JavaScript `+` of a possibly-`Infinity` number and a plain number. -/
def jsAdd : Option Nat → Nat → Option Nat
  | some a, w => some (a + w)
  | none, _ => none

/-- One grid cell (class `Node`).  `wallType` is the dynamically attached
`node.wallType` property (absent = `none`).  `parent` holds the position of
the predecessor node (`null` = `none`). -/
structure Node where
  row : Nat
  col : Nat
  isWall : Bool := false
  isStart : Bool := false
  isEnd : Bool := false
  isVisited : Bool := false
  isPath : Bool := false
  weight : Nat := 1
  g : Option Nat := none
  h : Nat := 0
  f : Option Nat := none
  parent : Option Pos := none
  wallType : Option Nat := none
deriving DecidableEq, Inhabited

/-- `Node.reset`: clear the search-scratch fields. -/
def Node.reset (n : Node) : Node :=
  { n with isVisited := false, isPath := false, g := none, h := 0, f := none,
           parent := none }

/-- `Node.calculateHeuristic`: Manhattan distance to the target node. -/
def Node.calculateHeuristic (n e : Node) : Nat :=
  Nat.dist n.col e.col + Nat.dist n.row e.row

/-- `Node.toggleWall`: flip `isWall` unless the node is start or end. -/
def Node.toggleWall (n : Node) : Node :=
  if n.isStart = false ∧ n.isEnd = false then { n with isWall := !n.isWall } else n

/-- `Node.setAsStart`. -/
def Node.setAsStart (n : Node) : Node :=
  { n with isStart := true, isEnd := false, isWall := false }

/-- `Node.setAsEnd`. -/
def Node.setAsEnd (n : Node) : Node :=
  { n with isEnd := true, isStart := false, isWall := false }

/-- Replace the element at an index of a list (identity out of bounds). -/
def listModify (f : Node → Node) : Nat → List Node → List Node
  | _, [] => []
  | 0, x :: xs => f x :: xs
  | n+1, x :: xs => x :: listModify f n xs

/-- Replace the row at an index of a list of rows (identity out of bounds). -/
def rowsModify (f : List Node → List Node) : Nat → List (List Node) → List (List Node)
  | _, [] => []
  | 0, x :: xs => f x :: xs
  | n+1, x :: xs => x :: rowsModify f n xs

/-- Update one cell of the `nodes` array (no-op when the index is invalid,
matching a write through a dangling reference not visible in the array). -/
def setCell (nodes : List (List Node)) (p : Pos) (f : Node → Node) :
    List (List Node) :=
  rowsModify (listModify f p.2) p.1 nodes

/-- Read `nodes[r][c]` (`none` = the access yields `undefined`). -/
def lookup2 (nodes : List (List Node)) (r c : Nat) : Option Node :=
  match nodes[r]? with
  | some rw => rw[c]?
  | none => none

/-- `Node.isValidPosition`: in bounds (second bound from `grid[0].length`) and
not a wall. -/
def isValidPosition (row col : Int) (nodes : List (List Node)) : Bool :=
  decide (0 ≤ row) && decide (row < (nodes.length : Int)) &&
  decide (0 ≤ col) && decide (col < ((nodes.headD []).length : Int)) &&
  (match lookup2 nodes row.toNat col.toNat with
   | some m => !m.isWall
   | none => false)

/-- `Node.getNeighbors`: the valid orthogonal neighbours, in the source order
Up, Right, Down, Left, returned as positions. -/
def Node.getNeighbors (n : Node) (nodes : List (List Node)) : List Pos :=
  let dirs : List (Int × Int) := [(-1, 0), (0, 1), (1, 0), (0, -1)]
  dirs.filterMap (fun d =>
    let newRow : Int := (n.row : Int) + d.1
    let newCol : Int := (n.col : Int) + d.2
    if isValidPosition newRow newCol nodes then some (newRow.toNat, newCol.toNat)
    else none)

/-- The grid (class `Grid`).  The UI-only fields `mouseIsPressed` and
`currentMode` are omitted.  Dimensions are `Option Int` because a
malformed import payload can set them to `undefined` (`none`). -/
structure Grid where
  rows : Option Int
  cols : Option Int
  nodes : List (List Node)
  startNode : Option Pos
  endNode : Option Pos
deriving DecidableEq, Inhabited

/-- Number of loop iterations `for (row = 0; row < this.rows; ...)` performs
for a possibly-`undefined` bound. -/
def natDim : Option Int → Nat
  | some k => k.toNat
  | none => 0

/-- Read a cell of a grid. -/
def Grid.cellAt (g : Grid) (p : Pos) : Option Node :=
  lookup2 g.nodes p.1 p.2

/-- Read a cell with the default node as fallback (object-reference reads of
fields such as `row`/`col` never throw in JavaScript). -/
def cellD (nodes : List (List Node)) (p : Pos) : Node :=
  (lookup2 nodes p.1 p.2).getD default

/-- `Grid.initializeGrid`: fresh `rows × cols` nodes. -/
def Grid.initializeGrid (g : Grid) : Grid :=
  { g with nodes :=
      (List.range (natDim g.rows)).map (fun r =>
        (List.range (natDim g.cols)).map (fun c => { row := r, col := c : Node })) }

/-- `this.nodes[row]` for a JavaScript index that may be `undefined`/negative. -/
def jsIndexRows (nodes : List (List Node)) : Option Int → Option (Nat × List Node)
  | some r => if r < 0 then none else (nodes[r.toNat]?).map (fun rw => (r.toNat, rw))
  | none => none

/-- `rowArray[col]` for a JavaScript index: `some c` iff the access yields a
node (not `undefined`). -/
def jsIndexRow (rw : List Node) : Option Int → Option Nat
  | some c => if c < 0 then none else if c.toNat < rw.length then some c.toNat else none
  | none => none

/-- Clear the `isStart` flag through the `startNode` reference. -/
def clearStartFlag (g : Grid) : Grid :=
  match g.startNode with
  | some p => { g with nodes := setCell g.nodes p (fun n => { n with isStart := false }) }
  | none => g

/-- Clear the `isEnd` flag through the `endNode` reference. -/
def clearEndFlag (g : Grid) : Grid :=
  match g.endNode with
  | some p => { g with nodes := setCell g.nodes p (fun n => { n with isEnd := false }) }
  | none => g

/-- `Grid.setStartNode`.  A `.error` result is a thrown `TypeError`
(`this.nodes[row]` undefined, or `.setAsStart()` on undefined), carrying the
state at the throw point: the previous start flag is already cleared. -/
def Grid.setStartNode (g : Grid) (row col : Option Int) : Except Grid Grid :=
  let g1 := clearStartFlag g
  match jsIndexRows g1.nodes row with
  | none => .error g1
  | some (r, rw) =>
    match jsIndexRow rw col with
    | none => .error { g1 with startNode := none }
    | some c =>
      .ok { g1 with startNode := some (r, c),
                    nodes := setCell g1.nodes (r, c) Node.setAsStart }

/-- `Grid.setEndNode`. -/
def Grid.setEndNode (g : Grid) (row col : Option Int) : Except Grid Grid :=
  let g1 := clearEndFlag g
  match jsIndexRows g1.nodes row with
  | none => .error g1
  | some (r, rw) =>
    match jsIndexRow rw col with
    | none => .error { g1 with endNode := none }
    | some c =>
      .ok { g1 with endNode := some (r, c),
                    nodes := setCell g1.nodes (r, c) Node.setAsEnd }

/-- `Grid.setDefaultStartEnd`: start at `(⌊rows/4⌋, ⌊cols/4⌋)`, end at
`(⌊3·rows/4⌋, ⌊3·cols/4⌋)`. -/
def Grid.setDefaultStartEnd (g : Grid) : Except Grid Grid := do
  let g1 ← g.setStartNode (g.rows.map (fun r => Int.fdiv r 4))
                          (g.cols.map (fun c => Int.fdiv c 4))
  g1.setEndNode (g1.rows.map (fun r => Int.fdiv (3 * r) 4))
                (g1.cols.map (fun c => Int.fdiv (3 * c) 4))

/-- `Grid.resetGrid` (the DOM `render()` is a no-op for the model). -/
def Grid.resetGrid (g : Grid) : Except Grid Grid :=
  g.initializeGrid.setDefaultStartEnd

/-- `Grid.resize`. -/
def Grid.resize (g : Grid) (newRows newCols : Option Int) : Except Grid Grid :=
  Grid.resetGrid { g with rows := newRows, cols := newCols }

/-- The `Grid(rows, cols)` constructor. -/
def Grid.create (rows cols : Int) : Except Grid Grid :=
  Grid.resetGrid
    { rows := some rows, cols := some cols, nodes := [], startNode := none,
      endNode := none }

/-- `Grid.getNode`: bounds-checked lookup against `this.rows` / `this.cols`. -/
def Grid.getNode (g : Grid) (row col : Int) : Option Node :=
  if decide (0 ≤ row) && (match g.rows with | some R => decide (row < R) | none => false) &&
     decide (0 ≤ col) && (match g.cols with | some C => decide (col < C) | none => false) then
    lookup2 g.nodes row.toNat col.toNat
  else
    none

/-- Row-major list of the index pairs the nested `for` loops visit. -/
def cellsIdx (g : Grid) : List Pos :=
  ((List.range (natDim g.rows)).map (fun r =>
    (List.range (natDim g.cols)).map (fun c => (r, c)))).flatten

/-- Apply an update at each index in turn; reading a missing cell throws. -/
def applyCells (f : Node → Node) : List Pos → Grid → Except Grid Grid
  | [], g => .ok g
  | p :: ps, g =>
    match g.cellAt p with
    | none => .error g
    | some _ => applyCells f ps { g with nodes := setCell g.nodes p f }

/-- `Grid.resetPathfinding`: per-cell scratch reset (the inline field writes
agree with `Node.reset`). -/
def Grid.resetPathfinding (g : Grid) : Except Grid Grid :=
  applyCells Node.reset (cellsIdx g) g

/-- The per-cell body of `Grid.clearWalls`. -/
def clearWallFn (n : Node) : Node :=
  if n.isWall then { n with isWall := false, wallType := none } else n

/-- `Grid.clearWalls`. -/
def Grid.clearWalls (g : Grid) : Except Grid Grid :=
  applyCells clearWallFn (cellsIdx g) g

/-- Grid-level wrapper for toggling a wall at a position (the UI calls
`node.toggleWall()` through `handleMouseDown` on the cell object). -/
def Grid.toggleWallAt (g : Grid) (r c : Nat) : Grid :=
  { g with nodes := setCell g.nodes (r, c) Node.toggleWall }

/-- One serialized wall entry (`{row, col, type}`). -/
structure WallData where
  row : Int
  col : Int
  type : Option Nat
deriving DecidableEq

/-- One serialized position (`{row, col}`). -/
structure PosData where
  row : Int
  col : Int
deriving DecidableEq

/-- The serialized grid state; every field may be absent in a payload. -/
structure GridData where
  rows : Option Int
  cols : Option Int
  walls : Option (List WallData)
  startNode : Option PosData
  endNode : Option PosData
deriving DecidableEq

/-- `node.wallType || 1`: the exported wall type. -/
def exportType : Option Nat → Nat
  | some t => if t = 0 then 1 else t
  | none => 1

/-- One cell's contribution to the `getGridData` accumulator. -/
def exportStep (acc : GridData) (n : Node) : GridData :=
  let w : WallData :=
    { row := (n.row : Int), col := (n.col : Int),
      type := some (exportType n.wallType) }
  let acc := if n.isWall then
      { acc with walls := acc.walls.map (fun ws => ws ++ [w]) }
    else acc
  let acc := if n.isStart then
      { acc with startNode := some { row := (n.row : Int), col := (n.col : Int) } }
    else acc
  if n.isEnd then
    { acc with endNode := some { row := (n.row : Int), col := (n.col : Int) } }
  else acc

/-- The body of the `getGridData` scan over all cells. -/
def getGridDataGo (g : Grid) : List Pos → GridData → Option GridData
  | [], acc => some acc
  | p :: ps, acc =>
    match g.cellAt p with
    | none => none
    | some n => getGridDataGo g ps (exportStep acc n)

/-- `Grid.getGridData` (`none` = a ragged `nodes` array made a read throw). -/
def Grid.getGridData (g : Grid) : Option GridData :=
  getGridDataGo g (cellsIdx g)
    { rows := g.rows, cols := g.cols, walls := some [], startNode := none,
      endNode := none }

/-- `type || this.getRandomWallType()`: `rnd` models the random draw. -/
def jsTypeOr (t : Option Nat) (rnd : Nat) : Nat :=
  match t with
  | some t => if t = 0 then rnd else t
  | none => rnd

/-- Does the payload position equal this wall's coordinates
(`gridData.startNode && gridData.startNode.row === row && ...`)? -/
def posMatches (p : Option PosData) (w : WallData) : Bool :=
  match p with
  | some q => decide (q.row = w.row) && decide (q.col = w.col)
  | none => false

/-- One iteration of the wall-restoring `forEach` of `loadGridData`. -/
def restoreStep (d : GridData) (rnd : Nat) (g : Grid) (w : WallData) : Grid :=
  match g.getNode w.row w.col with
  | none => g
  | some _ =>
    if !posMatches d.startNode w && !posMatches d.endNode w then
      let upd : Node → Node :=
        fun n => { n with isWall := true, wallType := some (jsTypeOr w.type rnd) }
      { g with nodes := setCell g.nodes (w.row.toNat, w.col.toNat) upd }
    else g

/-- The wall-restoring `forEach` of `loadGridData`. -/
def restoreWalls (d : GridData) (rnd : Nat) (g : Grid) : Grid :=
  match d.walls with
  | none => g
  | some ws => ws.foldl (restoreStep d rnd) g

/-- The same-dimensions branch: clear walls, drop both role holders, and
re-apply the default placement. -/
def clearedForLoad (g : Grid) : Grid :=
  { (clearEndFlag { (clearStartFlag g) with startNode := none }) with
      endNode := none }

/-- Sequencing of two throwing statements: an error in the first aborts. -/
def exBind (x : Except Grid Grid) (f : Grid → Except Grid Grid) :
    Except Grid Grid :=
  match x with
  | .error gE => .error gE
  | .ok g1 => f g1

/-- First stage of `loadGridData`: resize on a dimension change, otherwise
clear walls / role references and re-apply the default placement. -/
def loadStage1 (g : Grid) (d : GridData) : Except Grid Grid :=
  if d.rows ≠ g.rows ∨ d.cols ≠ g.cols then
    g.resize d.rows d.cols
  else
    match g.clearWalls with
    | .error gE => .error gE
    | .ok gCW => (clearedForLoad gCW).setDefaultStartEnd

/-- The guarded `setStartNode` call of `loadGridData`. -/
def loadSetStart (g2 : Grid) (d : GridData) : Except Grid Grid :=
  match d.startNode with
  | some s => g2.setStartNode (some s.row) (some s.col)
  | none => .ok g2

/-- The guarded `setEndNode` call of `loadGridData`. -/
def loadSetEnd (g3 : Grid) (d : GridData) : Except Grid Grid :=
  match d.endNode with
  | some e => g3.setEndNode (some e.row) (some e.col)
  | none => .ok g3

/-- The `try`-block body of `loadGridData` (sequencing the statements; an
`error` propagates to the `catch`). -/
def loadBody (g : Grid) (d : GridData) (rnd : Nat) : Except Grid Grid :=
  exBind (loadStage1 g d) (fun g1 =>
    exBind (loadSetStart (restoreWalls d rnd g1) d)
      (fun g3 => loadSetEnd g3 d))

/-- `Grid.loadGridData`: the `catch` turns any thrown error into `false`,
keeping whatever mutations already happened. -/
def Grid.loadGridData (g : Grid) (gridData : Option GridData) (rnd : Nat) :
    Bool × Grid :=
  match gridData with
  | none => (false, g)
  | some d =>
    match loadBody g d rnd with
    | .ok g2 => (true, g2)
    | .error g2 => (false, g2)

/-! ## The A* search (class `AStar`, blocking mode) -/

/-- The final result object of a successful `findPath` (`timeTaken`, a wall
clock reading, is not modelled). -/
structure AResult where
  path : List Pos
  visitedNodes : List Pos
  pathLength : Nat
  nodesExplored : Nat
deriving DecidableEq

/-- The mutable search state: the grid's cell array plus the algorithm's
arrays.  Node references are positions. -/
structure AState where
  nodes : List (List Node)
  openSet : List Pos
  closedSet : List Pos
  visitedNodes : List Pos
  nodesExplored : Nat
deriving DecidableEq

/-- `AStar.getLowestFNode`: linear scan keeping the current candidate unless
a strictly better `(f, h)` is found, so ties keep the earliest element. -/
def AStar.getLowestFNode (nodes : List (List Node)) : List Pos → Option Pos
  | [] => none
  | p :: ps =>
    some ((p :: ps).foldl (fun low q =>
      if jsLt (cellD nodes q).f (cellD nodes low).f ||
         ((cellD nodes q).f == (cellD nodes low).f &&
          decide ((cellD nodes q).h < (cellD nodes low).h)) then q else low) p)

/-- `AStar.reconstructPath`: follow `parent` links, building the path
start-first (`unshift`).  The source loop is unbounded; fuel exhaustion
(impossible under the proved invariants) stops after recording the node. -/
def AStar.reconstructPath (nodes : List (List Node)) :
    Nat → Pos → List Pos → List Pos
  | 0, p, acc => p :: acc
  | fuel+1, p, acc =>
    match (cellD nodes p).parent with
    | none => p :: acc
    | some q => AStar.reconstructPath nodes fuel q (p :: acc)

/-- Total number of cells in the array (fuel for path reconstruction). -/
def countCells (nodes : List (List Node)) : Nat :=
  (nodes.map List.length).sum

/-- The neighbour-expansion loop body of `findPath`. -/
def expandNeighbor (cur : Pos) (endCell : Node) (st : AState) (np : Pos) :
    AState :=
  if st.closedSet.contains np || (cellD st.nodes np).isWall then st
  else
    let tentativeG := jsAdd (cellD st.nodes cur).g (cellD st.nodes np).weight
    if jsLt tentativeG (cellD st.nodes np).g then
      let hN := Node.calculateHeuristic (cellD st.nodes np) endCell
      let nodes := setCell st.nodes np (fun n =>
        { n with parent := some cur, g := tentativeG, h := hN,
                 f := jsAdd tentativeG hN })
      let openSet := if st.openSet.contains np then st.openSet
                     else st.openSet ++ [np]
      { st with nodes := nodes, openSet := openSet }
    else st

/-- The result object built when the goal is popped. -/
def mkResult (st : AState) (cur : Pos) : AResult :=
  let path := AStar.reconstructPath st.nodes (countCells st.nodes + 1) cur []
  { path := path, visitedNodes := st.visitedNodes,
    pathLength := path.length, nodesExplored := st.nodesExplored }

/-- One non-goal iteration: move `cur` to the closed set, mark it visited
(unless it is the start or the end), and relax all its neighbours. -/
def popNext (endCell : Node) (st : AState) (cur : Pos) : AState :=
  let st1 := { st with openSet := st.openSet.erase cur,
                       closedSet := st.closedSet ++ [cur] }
  let curCell := cellD st1.nodes cur
  let st2 :=
    if !curCell.isStart && !curCell.isEnd then
      { st1 with
        nodes := setCell st1.nodes cur (fun n => { n with isVisited := true }),
        visitedNodes := st1.visitedNodes ++ [cur],
        nodesExplored := st1.nodesExplored + 1 }
    else st1
  let nbrs := Node.getNeighbors (cellD st2.nodes cur) st2.nodes
  nbrs.foldl (fun s q => expandNeighbor cur endCell s q) st2

/-- The `while (this.openSet.length > 0 && this.isRunning)` loop
(`isRunning` stays `true` in a blocking run). -/
def aloop (pe : Pos) (endCell : Node) : Nat → AState → Option AResult × AState
  | 0, st => (none, st)
  | fuel+1, st =>
    match st.openSet with
    | [] => (none, st)
    | _ :: _ =>
      match AStar.getLowestFNode st.nodes st.openSet with
      | none => (none, st)
      | some cur =>
        if cur = pe then
          (some (mkResult st cur), st)
        else
          aloop pe endCell fuel (popNext endCell st cur)

/-- `AStar.findPath` (blocking).  `.error` would be a rejection propagated
from `resetPathfinding`; under the well-formedness used in the theorems the
result is always `.ok (result, grid after the run)`. -/
def initState (g1 : Grid) (ps pe : Pos) : AState :=
  let endCell := cellD g1.nodes pe
  let h0 := Node.calculateHeuristic (cellD g1.nodes ps) endCell
  let nodes1 := setCell g1.nodes ps (fun n =>
    { n with g := some 0, h := h0, f := some h0 })
  { nodes := nodes1, openSet := [ps], closedSet := [], visitedNodes := [],
    nodesExplored := 0 }

def AStar.findPath (g : Grid) : Except Grid (Option AResult × Grid) :=
  match g.startNode, g.endNode with
  | some ps, some pe =>
    match g.resetPathfinding with
    | .error gE => .error gE
    | .ok g1 =>
      let endCell := cellD g1.nodes pe
      let fuel := natDim g1.rows * natDim g1.cols + 1
      let res := aloop pe endCell fuel (initState g1 ps pe)
      .ok (res.1, { g1 with nodes := res.2.nodes })
  | _, _ => .ok (none, g)

/-! ## An independent breadth-first-search oracle and the walk semantics -/

/-- In-bounds test for the oracle and the walk semantics. -/
def inBoundsB (R C : Nat) (p : Pos) : Bool :=
  decide (p.1 < R) && decide (p.2 < C)

/-- A position that may be stepped on: in bounds and not a wall. -/
def okCell (g : Grid) (R C : Nat) (p : Pos) : Bool :=
  inBoundsB R C p &&
  (match g.cellAt p with
   | some n => !n.isWall
   | none => false)

/-- Orthogonal adjacency of positions. -/
def adjacentB (p q : Pos) : Bool :=
  decide (Nat.dist p.1 q.1 + Nat.dist p.2 q.2 = 1)

/-- Candidate orthogonal neighbours of a position (the oracle's own
adjacency; out-of-range candidates are filtered by `okCell` later). -/
def nbrsPos (p : Pos) : List Pos :=
  (if 0 < p.1 then [(p.1 - 1, p.2)] else []) ++ [(p.1, p.2 + 1), (p.1 + 1, p.2)] ++
  (if 0 < p.2 then [(p.1, p.2 - 1)] else [])

/-- Obstacle-free orthogonal walks: `Walk g R C a b n` holds when there is a
walk of `n` steps from `a` to `b` through non-wall in-bounds cells. -/
inductive Walk (g : Grid) (R C : Nat) : Pos → Pos → Nat → Prop where
  | nil : ∀ p, okCell g R C p = true → Walk g R C p p 0
  | cons : ∀ p q r n, adjacentB p q = true → okCell g R C p = true →
      Walk g R C q r n → Walk g R C p r (n + 1)

/-- `n` is the length of a shortest obstacle-free walk from `a` to `b`. -/
def IsLeastWalk (g : Grid) (R C : Nat) (a b : Pos) (n : Nat) : Prop :=
  Walk g R C a b n ∧ ∀ m, Walk g R C a b m → n ≤ m

/-- The layer step of the oracle's breadth-first search. -/
def bfsAux (g : Grid) (R C : Nat) (pe : Pos) :
    Nat → List Pos → List Pos → Nat → Option Nat
  | 0, _, _, _ => none
  | fuel+1, vis, frontier, d =>
    if frontier.contains pe then some d
    else
      let next := ((frontier.flatMap nbrsPos).filter
        (fun q => okCell g R C q && !vis.contains q)).dedup
      if next.isEmpty then none
      else bfsAux g R C pe fuel (vis ++ next) next (d + 1)

/-- The independent oracle: the breadth-first shortest-path length (in
steps) from the grid's start to its end, `none` when unreachable. -/
def bfsOracle (g : Grid) : Option Nat :=
  match g.startNode, g.endNode with
  | some ps, some pe =>
    let R := natDim g.rows
    let C := natDim g.cols
    if okCell g R C ps then bfsAux g R C pe (R * C + 1) [ps] [ps] 0 else none
  | _, _ => none

/-! ## Well-formedness predicates (decidable, bounded quantifiers) -/

/-- Structural well-formedness: the dimension fields match the `nodes` array
and each cell records its own coordinates. -/
def WFgrid (g : Grid) (R C : Nat) : Prop :=
  g.rows = some (R : Int) ∧ g.cols = some (C : Int) ∧ 1 ≤ R ∧ 1 ≤ C ∧
  g.nodes.length = R ∧ (∀ rw ∈ g.nodes, rw.length = C) ∧
  (∀ r, r < R → ∀ c, c < C →
    (g.cellAt (r, c)).isSome = true ∧
    (cellD g.nodes (r, c)).row = r ∧ (cellD g.nodes (r, c)).col = c)

/-- Every cell has weight 1 (true of every grid the program ever builds:
nothing assigns `weight`). -/
def unitWeights (g : Grid) : Prop :=
  ∀ rw ∈ g.nodes, ∀ n ∈ rw, n.weight = 1

/-- The start/goal invariant claimed by the spec: the references point at
in-bounds cells, exactly one cell has `isStart`, exactly one has `isEnd`,
the two differ, and neither carries a wall. -/
def RolesOk (g : Grid) (R C : Nat) (ps pe : Pos) : Prop :=
  g.startNode = some ps ∧ g.endNode = some pe ∧ ps ≠ pe ∧
  ps.1 < R ∧ ps.2 < C ∧ pe.1 < R ∧ pe.2 < C ∧
  (∀ r, r < R → ∀ c, c < C →
    ((cellD g.nodes (r, c)).isStart = true ↔ (r, c) = ps) ∧
    ((cellD g.nodes (r, c)).isEnd = true ↔ (r, c) = pe)) ∧
  (cellD g.nodes ps).isWall = false ∧ (cellD g.nodes pe).isWall = false

instance (g : Grid) (R C : Nat) : Decidable (WFgrid g R C) := by
  unfold WFgrid; exact inferInstance

instance (g : Grid) : Decidable (unitWeights g) := by
  unfold unitWeights; exact inferInstance

instance (g : Grid) (R C : Nat) (ps pe : Pos) : Decidable (RolesOk g R C ps pe) := by
  unfold RolesOk; exact inferInstance

/-! ## Basic lemmas about the cell array -/

theorem listModify_length (f : Node → Node) (i : Nat) (l : List Node) :
    (listModify f i l).length = l.length := by
  induction l generalizing i with
  | nil => cases i <;> rfl
  | cons x xs ih => cases i with
    | zero => rfl
    | succ n => simpa [listModify] using ih n

theorem rowsModify_length (f : List Node → List Node) (i : Nat)
    (l : List (List Node)) : (rowsModify f i l).length = l.length := by
  induction l generalizing i with
  | nil => cases i <;> rfl
  | cons x xs ih => cases i with
    | zero => rfl
    | succ n => simpa [rowsModify] using ih n

theorem listModify_getElem (f : Node → Node) (i : Nat) (l : List Node) (j : Nat) :
    (listModify f i l)[j]? = if j = i then (l[j]?).map f else l[j]? := by
  induction l generalizing i j with
  | nil => cases i <;> simp [listModify]
  | cons x xs ih =>
    cases i with
    | zero => cases j with
      | zero => simp [listModify]
      | succ m => simp [listModify]
    | succ n => cases j with
      | zero => simp [listModify]
      | succ m =>
        simp only [listModify, List.getElem?_cons_succ, ih n m]
        by_cases h : m = n <;> simp [h]

theorem rowsModify_getElem (f : List Node → List Node) (i : Nat)
    (l : List (List Node)) (j : Nat) :
    (rowsModify f i l)[j]? = if j = i then (l[j]?).map f else l[j]? := by
  induction l generalizing i j with
  | nil => cases i <;> simp [rowsModify]
  | cons x xs ih =>
    cases i with
    | zero => cases j with
      | zero => simp [rowsModify]
      | succ m => simp [rowsModify]
    | succ n => cases j with
      | zero => simp [rowsModify]
      | succ m =>
        simp only [rowsModify, List.getElem?_cons_succ, ih n m]
        by_cases h : m = n <;> simp [h]

theorem lookup2_setCell (nodes : List (List Node)) (p : Pos) (f : Node → Node)
    (q : Pos) :
    lookup2 (setCell nodes p f) q.1 q.2 =
      if q = p then (lookup2 nodes q.1 q.2).map f else lookup2 nodes q.1 q.2 := by
  obtain ⟨q1, q2⟩ := q
  obtain ⟨p1, p2⟩ := p
  unfold lookup2 setCell
  simp only
  rw [rowsModify_getElem]
  by_cases h1 : q1 = p1
  · subst h1
    cases hrow : nodes[q1]? with
    | none => simp [hrow, Prod.ext_iff]
    | some rw =>
      by_cases h2 : q2 = p2
      · simp [hrow, listModify_getElem, h2, Prod.ext_iff]
      · simp [hrow, listModify_getElem, h2, Prod.ext_iff]
  · simp [h1, Prod.ext_iff]

theorem setCell_length (nodes : List (List Node)) (p : Pos) (f : Node → Node) :
    (setCell nodes p f).length = nodes.length := by
  unfold setCell; exact rowsModify_length _ _ _

theorem lookup2_setCell_same (nodes : List (List Node)) (p : Pos)
    (f : Node → Node) :
    lookup2 (setCell nodes p f) p.1 p.2 = (lookup2 nodes p.1 p.2).map f := by
  simpa using lookup2_setCell nodes p f p

theorem lookup2_setCell_other (nodes : List (List Node)) (p : Pos)
    (f : Node → Node) (q : Pos) (h : q ≠ p) :
    lookup2 (setCell nodes p f) q.1 q.2 = lookup2 nodes q.1 q.2 := by
  simpa [h] using lookup2_setCell nodes p f q

theorem cellD_setCell (nodes : List (List Node)) (p : Pos) (f : Node → Node)
    (q : Pos) :
    cellD (setCell nodes p f) q =
      if q = p then
        (match lookup2 nodes q.1 q.2 with
         | some n => f n
         | none => default)
      else cellD nodes q := by
  unfold cellD
  rw [lookup2_setCell]
  by_cases h : q = p
  · subst h
    simp only [if_pos rfl]
    cases hl : lookup2 nodes q.1 q.2 <;> simp [hl]
  · simp [h]

theorem grid_nodes_ext (nodes1 nodes2 : List (List Node))
    (hlen : nodes1.length = nodes2.length)
    (hrow : ∀ r : Nat, (nodes1[r]?).map List.length = (nodes2[r]?).map List.length)
    (hcell : ∀ q : Pos, lookup2 nodes1 q.1 q.2 = lookup2 nodes2 q.1 q.2) :
    nodes1 = nodes2 := by
  apply List.ext_getElem?
  intro r
  cases h1 : nodes1[r]? with
  | none =>
    have : r ≥ nodes1.length := by
      by_contra hc
      push_neg at hc
      simp [List.getElem?_eq_getElem hc] at h1
    rw [List.getElem?_eq_none]
    omega
  | some rw1 =>
    cases h2 : nodes2[r]? with
    | none =>
      have := hrow r
      rw [h1, h2] at this
      simp at this
    | some rw2 =>
      have hlenr : rw1.length = rw2.length := by
        have := hrow r
        rw [h1, h2] at this
        simpa using this
      have : rw1 = rw2 := by
        apply List.ext_getElem?
        intro c
        have := hcell (r, c)
        unfold lookup2 at this
        simpa [h1, h2] using this
      rw [this]

theorem applyCells_ok (f : Node → Node) (idxs : List Pos) (g : Grid)
    (hex : ∀ p ∈ idxs, (lookup2 g.nodes p.1 p.2).isSome = true)
    (hnd : idxs.Nodup) :
    ∃ g2, applyCells f idxs g = .ok g2 ∧
      g2.rows = g.rows ∧ g2.cols = g.cols ∧
      g2.startNode = g.startNode ∧ g2.endNode = g.endNode ∧
      g2.nodes.length = g.nodes.length ∧
      (∀ r : Nat, (g2.nodes[r]?).map List.length = (g.nodes[r]?).map List.length) ∧
      (∀ q : Pos, lookup2 g2.nodes q.1 q.2 =
        if q ∈ idxs then (lookup2 g.nodes q.1 q.2).map f
        else lookup2 g.nodes q.1 q.2) := by
  induction idxs generalizing g with
  | nil =>
    exact ⟨g, rfl, rfl, rfl, rfl, rfl, rfl, fun _ => rfl, fun q => by simp⟩
  | cons p ps ih =>
    have hp := hex p (List.mem_cons_self p ps)
    obtain ⟨n, hn⟩ := Option.isSome_iff_exists.mp hp
    have hcell : g.cellAt p = some n := hn
    have hpn : p ∉ ps := (List.nodup_cons.mp hnd).1
    have hnd2 : ps.Nodup := (List.nodup_cons.mp hnd).2
    set g1 : Grid := { g with nodes := setCell g.nodes p f } with hg1
    have hex2 : ∀ q ∈ ps, (lookup2 g1.nodes q.1 q.2).isSome = true := by
      intro q hq
      have hq2 := hex q (List.mem_cons_of_mem p hq)
      rw [hg1]
      simp only
      rw [lookup2_setCell]
      by_cases h : q = p
      · subst h
        simpa using hq2
      · simpa [h] using hq2
    obtain ⟨g2, hrun, hr, hc, hs, he, hl, hrl, hq⟩ := ih g1 hex2 hnd2
    refine ⟨g2, ?_, hr, hc, hs, he, ?_, ?_, ?_⟩
    · unfold applyCells
      rw [show g.cellAt p = some n from hcell]
      exact hrun
    · rw [hl, hg1]
      simp only
      exact setCell_length g.nodes p f
    · intro r
      rw [hrl r, hg1]
      simp only
      unfold setCell
      rw [rowsModify_getElem]
      by_cases h : r = p.1
      · subst h
        cases hx : g.nodes[p.1]? <;> simp [hx, listModify_length]
      · simp [h]
    · intro q
      rw [hq q, hg1]
      simp only
      rw [lookup2_setCell]
      by_cases h1 : q ∈ ps
      · have hne : q ≠ p := fun h => hpn (h ▸ h1)
        simp [h1, hne, List.mem_cons]
      · by_cases h2 : q = p
        · subst h2
          simp [h1, List.mem_cons]
        · simp [h1, h2, List.mem_cons]

theorem cellsIdx_mem (g : Grid) (p : Pos) :
    p ∈ cellsIdx g ↔ p.1 < natDim g.rows ∧ p.2 < natDim g.cols := by
  unfold cellsIdx
  rw [List.mem_flatten]
  constructor
  · rintro ⟨l, hl, hp⟩
    rw [List.mem_map] at hl
    obtain ⟨r, hr, rfl⟩ := hl
    rw [List.mem_map] at hp
    obtain ⟨c, hc, rfl⟩ := hp
    exact ⟨List.mem_range.mp hr, List.mem_range.mp hc⟩
  · rintro ⟨h1, h2⟩
    refine ⟨(List.range (natDim g.cols)).map (fun c => (p.1, c)), ?_, ?_⟩
    · exact List.mem_map.mpr ⟨p.1, List.mem_range.mpr h1, rfl⟩
    · exact List.mem_map.mpr ⟨p.2, List.mem_range.mpr h2, by simp⟩

theorem cellsIdx_nodup (g : Grid) : (cellsIdx g).Nodup := by
  unfold cellsIdx
  rw [List.nodup_flatten]
  constructor
  · intro l hl
    rw [List.mem_map] at hl
    obtain ⟨r, _, rfl⟩ := hl
    exact List.Nodup.map (fun a b h => congrArg Prod.snd h) (List.nodup_range _)
  · rw [List.pairwise_map]
    apply List.Pairwise.imp_of_mem ?_ (List.nodup_range _)
    intro r1 r2 _ _ hne
    intro x hx1 hx2
    rw [List.mem_map] at hx1 hx2
    obtain ⟨c1, _, rfl⟩ := hx1
    obtain ⟨c2, _, h⟩ := hx2
    exact hne (congrArg Prod.fst h.symm)

/-- Under structural well-formedness every scanned cell exists. -/
theorem WFgrid_cells_exist (g : Grid) (R C : Nat) (hWF : WFgrid g R C) :
    ∀ p ∈ cellsIdx g, (lookup2 g.nodes p.1 p.2).isSome = true := by
  obtain ⟨hr, hc, _, _, hlen, hrows, hcell⟩ := hWF
  intro p hp
  rw [cellsIdx_mem] at hp
  rw [hr] at hp
  rw [hc] at hp
  simp [natDim] at hp
  exact (hcell p.1 hp.1 p.2 hp.2).1

/-- Cells outside the scan range do not exist. -/
theorem WFgrid_cells_none (g : Grid) (R C : Nat) (hWF : WFgrid g R C)
    (q : Pos) (hq : ¬ (q.1 < R ∧ q.2 < C)) :
    lookup2 g.nodes q.1 q.2 = none := by
  obtain ⟨hr, hc, _, _, hlen, hrows, _⟩ := hWF
  unfold lookup2
  cases h1 : g.nodes[q.1]? with
  | none => rfl
  | some rw =>
    obtain ⟨hlt, heq⟩ := List.getElem?_eq_some_iff.mp h1
    have hmem : rw ∈ g.nodes := heq ▸ List.getElem_mem hlt
    have hq1 : q.1 < R := by omega
    have hq2 : ¬ q.2 < C := fun h => hq ⟨hq1, h⟩
    have hrw : rw.length = C := hrows rw hmem
    simp only
    rw [List.getElem?_eq_none]
    omega

theorem setCell_rowlen (nodes : List (List Node)) (p : Pos) (f : Node → Node)
    (r : Nat) :
    ((setCell nodes p f)[r]?).map List.length = (nodes[r]?).map List.length := by
  unfold setCell
  rw [rowsModify_getElem]
  by_cases h : r = p.1
  · subst h
    cases hx : nodes[p.1]? <;> simp [hx, listModify_length]
  · simp [h]

theorem grid_ext (a b : Grid) (h1 : a.rows = b.rows) (h2 : a.cols = b.cols)
    (h3 : a.startNode = b.startNode) (h4 : a.endNode = b.endNode)
    (h5 : a.nodes = b.nodes) : a = b := by
  cases a; cases b; simp_all

theorem cellsIdx_congr (a b : Grid) (h1 : a.rows = b.rows)
    (h2 : a.cols = b.cols) : cellsIdx a = cellsIdx b := by
  unfold cellsIdx
  rw [h1, h2]

/-- A sample grid: `new Grid(3, 3)` (start `(0,0)`, end `(2,2)`). -/
def sampleGrid3 : Grid :=
  match Grid.create 3 3 with
  | .ok g => g
  | .error g => g

/-- The sample grid with five walls sealing off the goal corner. -/
def sampleGrid3Blocked : Grid :=
  ((((sampleGrid3.toggleWallAt 0 1).toggleWallAt 1 0).toggleWallAt 1
      1).toggleWallAt 1 2).toggleWallAt 2 1

/-- The sample grid with a single wall at `(1, 1)`. -/
def sampleGrid3Wall : Grid := sampleGrid3.toggleWallAt 1 1

/-- C8: `resetPathfinding` returns successfully on a well-formed grid,
mapping `Node.reset` over every cell; `Node.reset` clears exactly the
search-scratch fields (`isVisited`, `isPath`, `g`, `h`, `f`, `parent`) and
keeps `isWall`, `isStart`, `isEnd` and `weight`; dimensions and the
start/end references are untouched; and the operation is idempotent: running
it again returns the same grid unchanged. -/
theorem claim_C8_resetPathfinding (g : Grid) (R C : Nat) (hWF : WFgrid g R C) :
    ∃ g2, g.resetPathfinding = .ok g2 ∧
      (∀ q : Pos, lookup2 g2.nodes q.1 q.2 = (lookup2 g.nodes q.1 q.2).map Node.reset) ∧
      (∀ n : Node, (Node.reset n).isVisited = false ∧ (Node.reset n).isPath = false ∧
        (Node.reset n).g = none ∧ (Node.reset n).h = 0 ∧ (Node.reset n).f = none ∧
        (Node.reset n).parent = none ∧ (Node.reset n).isWall = n.isWall ∧
        (Node.reset n).isStart = n.isStart ∧ (Node.reset n).isEnd = n.isEnd ∧
        (Node.reset n).weight = n.weight) ∧
      g2.rows = g.rows ∧ g2.cols = g.cols ∧ g2.startNode = g.startNode ∧
      g2.endNode = g.endNode ∧ g2.resetPathfinding = .ok g2 := by
  obtain ⟨g2, hrun, hr, hc, hs, he, hl, hrl, hq⟩ :=
    applyCells_ok Node.reset (cellsIdx g) g (WFgrid_cells_exist g R C hWF)
      (cellsIdx_nodup g)
  have hrowsR : g.rows = some (R : Int) := hWF.1
  have hcolsC : g.cols = some (C : Int) := hWF.2.1
  have hmem : ∀ q : Pos, q ∈ cellsIdx g ↔ q.1 < R ∧ q.2 < C := by
    intro q
    rw [cellsIdx_mem, hrowsR, hcolsC]
    simp [natDim]
  have huniform : ∀ q : Pos,
      lookup2 g2.nodes q.1 q.2 = (lookup2 g.nodes q.1 q.2).map Node.reset := by
    intro q
    rw [hq q]
    by_cases h : q ∈ cellsIdx g
    · simp [h]
    · have hnone : lookup2 g.nodes q.1 q.2 = none :=
        WFgrid_cells_none g R C hWF q (fun hcon => h ((hmem q).mpr hcon))
      simp [h, hnone]
  refine ⟨g2, hrun, huniform, ?_, hr, hc, hs, he, ?_⟩
  · intro n
    refine ⟨rfl, rfl, rfl, rfl, rfl, rfl, rfl, rfl, rfl, rfl⟩
  · have hcells2 : cellsIdx g2 = cellsIdx g := cellsIdx_congr g2 g hr hc
    have hex2 : ∀ p ∈ cellsIdx g2, (lookup2 g2.nodes p.1 p.2).isSome = true := by
      intro p hp
      rw [hcells2] at hp
      rw [huniform p]
      simpa using WFgrid_cells_exist g R C hWF p hp
    obtain ⟨g3, hrun3, hr3, hc3, hs3, he3, hl3, hrl3, hq3⟩ :=
      applyCells_ok Node.reset (cellsIdx g2) g2 hex2 (cellsIdx_nodup g2)
    have : g3 = g2 := by
      apply grid_ext g3 g2 hr3 hc3 hs3 he3
      apply grid_nodes_ext g3.nodes g2.nodes hl3 hrl3
      intro q
      rw [hq3 q]
      by_cases h : q ∈ cellsIdx g2
      · simp only [h, if_pos]
        rw [huniform q]
        cases lookup2 g.nodes q.1 q.2 <;> rfl
      · simp [h]
    unfold Grid.resetPathfinding
    rw [this] at hrun3
    exact hrun3

/-- Witness for C8 on the concrete 3-by-3 default grid. -/
theorem claim_C8_resetPathfinding_witness :
    WFgrid sampleGrid3 3 3 ∧
      ∃ g2, sampleGrid3.resetPathfinding = .ok g2 ∧
      (∀ q : Pos, lookup2 g2.nodes q.1 q.2 =
        (lookup2 sampleGrid3.nodes q.1 q.2).map Node.reset) ∧
      (∀ n : Node, (Node.reset n).isVisited = false ∧ (Node.reset n).isPath = false ∧
        (Node.reset n).g = none ∧ (Node.reset n).h = 0 ∧ (Node.reset n).f = none ∧
        (Node.reset n).parent = none ∧ (Node.reset n).isWall = n.isWall ∧
        (Node.reset n).isStart = n.isStart ∧ (Node.reset n).isEnd = n.isEnd ∧
        (Node.reset n).weight = n.weight) ∧
      g2.rows = sampleGrid3.rows ∧ g2.cols = sampleGrid3.cols ∧
      g2.startNode = sampleGrid3.startNode ∧
      g2.endNode = sampleGrid3.endNode ∧ g2.resetPathfinding = .ok g2 :=
  ⟨by decide, claim_C8_resetPathfinding sampleGrid3 3 3 (by decide)⟩

/-- C9: `toggleWall` on a start or goal cell leaves the node — and, applied
through the grid, the whole grid — unchanged (a silent no-op, no error
value); on any other cell it flips `isObstacle` (`isWall`) and changes no
other field. -/
theorem claim_C9_toggleWall :
    (∀ n : Node, (n.isStart = true ∨ n.isEnd = true) → n.toggleWall = n) ∧
    (∀ n : Node, n.isStart = false → n.isEnd = false →
      n.toggleWall = { n with isWall := !n.isWall }) ∧
    (∀ (g : Grid) (r c : Nat),
      ((cellD g.nodes (r, c)).isStart = true ∨ (cellD g.nodes (r, c)).isEnd = true) →
      g.toggleWallAt r c = g) := by
  have hflag : ∀ n : Node, (n.isStart = true ∨ n.isEnd = true) → n.toggleWall = n := by
    intro n hn
    unfold Node.toggleWall
    rcases hn with h | h <;> simp [h]
  refine ⟨hflag, ?_, ?_⟩
  · intro n h1 h2
    unfold Node.toggleWall
    simp [h1, h2]
  · intro g r c hflagged
    have hnodes : setCell g.nodes (r, c) Node.toggleWall = g.nodes := ?_
    · unfold Grid.toggleWallAt
      rw [hnodes]
    apply grid_nodes_ext _ _ (setCell_length _ _ _) (setCell_rowlen _ _ _)
    intro q
    rw [lookup2_setCell]
    by_cases h : q = (r, c)
    · subst h
      cases hl : lookup2 g.nodes r c with
      | none => simp [hl]
      | some n =>
        have hcd : cellD g.nodes (r, c) = n := by
          unfold cellD
          show (lookup2 g.nodes r c).getD default = n
          rw [hl]
          rfl
        have : n.toggleWall = n := by
          apply hflag
          rw [← hcd]
          exact hflagged
        simp [this]
    · simp [h]

/-- Witness for C9: toggling the start cell of the sample grid is a no-op. -/
theorem claim_C9_toggleWall_witness :
    sampleGrid3.toggleWallAt 0 0 = sampleGrid3 :=
  claim_C9_toggleWall.2.2 sampleGrid3 0 0 (Or.inl (by decide))

/-! ## C7: the open-set selection order -/

/-- The comparison key of an open-set entry: its `(f, h)` pair. -/
def nodeKey (nodes : List (List Node)) (p : Pos) : Option Nat × Nat :=
  ((cellD nodes p).f, (cellD nodes p).h)

/-- The replace condition of `getLowestFNode`:
`node.f < lowest.f || (node.f === lowest.f && node.h < lowest.h)`. -/
def keyLt (x y : Option Nat × Nat) : Bool :=
  jsLt x.1 y.1 || (x.1 == y.1 && decide (x.2 < y.2))

theorem jsLt_irrefl (a : Option Nat) : jsLt a a = false := by
  cases a <;> simp [jsLt]

theorem jsLt_trans {a b c : Option Nat} (h1 : jsLt a b = true)
    (h2 : jsLt b c = true) : jsLt a c = true := by
  cases a <;> cases b <;> cases c <;> simp_all [jsLt] <;> omega

theorem jsLt_eq_of_nlt {a b : Option Nat} (h1 : jsLt a b = false)
    (h2 : jsLt b a = false) : a = b := by
  cases a <;> cases b <;> simp_all [jsLt] <;> omega

theorem keyLt_irrefl (x : Option Nat × Nat) : keyLt x x = false := by
  simp [keyLt, jsLt_irrefl]

theorem keyLt_trans {x y z : Option Nat × Nat} (h1 : keyLt x y = true)
    (h2 : keyLt y z = true) : keyLt x z = true := by
  unfold keyLt at h1 h2 ⊢
  rcases Bool.or_eq_true_iff.mp h1 with ha | ha <;>
    rcases Bool.or_eq_true_iff.mp h2 with hb | hb
  · exact Bool.or_eq_true_iff.mpr (Or.inl (jsLt_trans ha hb))
  · obtain ⟨he, _⟩ := Bool.and_eq_true_iff.mp hb
    have : y.1 = z.1 := by simpa using he
    exact Bool.or_eq_true_iff.mpr (Or.inl (this ▸ ha))
  · obtain ⟨he, _⟩ := Bool.and_eq_true_iff.mp ha
    have : x.1 = y.1 := by simpa using he
    exact Bool.or_eq_true_iff.mpr (Or.inl (this ▸ hb))
  · obtain ⟨he1, hh1⟩ := Bool.and_eq_true_iff.mp ha
    obtain ⟨he2, hh2⟩ := Bool.and_eq_true_iff.mp hb
    have e1 : x.1 = y.1 := by simpa using he1
    have e2 : y.1 = z.1 := by simpa using he2
    apply Bool.or_eq_true_iff.mpr
    right
    apply Bool.and_eq_true_iff.mpr
    refine ⟨by simp [e1, e2], ?_⟩
    have n1 : x.2 < y.2 := of_decide_eq_true hh1
    have n2 : y.2 < z.2 := of_decide_eq_true hh2
    exact decide_eq_true (Nat.lt_trans n1 n2)

theorem keyLt_eq_of_nlt {x y : Option Nat × Nat} (h1 : keyLt x y = false)
    (h2 : keyLt y x = false) : x = y := by
  unfold keyLt at h1 h2
  rw [Bool.or_eq_false_iff] at h1 h2
  obtain ⟨hf1, hr1⟩ := h1
  obtain ⟨hf2, hr2⟩ := h2
  have hf : x.1 = y.1 := jsLt_eq_of_nlt hf1 hf2
  rw [Bool.and_eq_false_iff] at hr1 hr2
  have hh : x.2 = y.2 := by
    rcases hr1 with h | h
    · simp [hf] at h
    · rcases hr2 with h2 | h2
      · simp [hf] at h2
      · have a1 : ¬ x.2 < y.2 := of_decide_eq_false h
        have a2 : ¬ y.2 < x.2 := of_decide_eq_false h2
        omega
  exact Prod.ext hf hh

theorem keyLt_asymm {x y : Option Nat × Nat} (h : keyLt x y = true) :
    keyLt y x = false := by
  by_contra hc
  have hyx : keyLt y x = true := by
    cases hk : keyLt y x
    · exact absurd hk hc
    · rfl
  have := keyLt_trans h hyx
  rw [keyLt_irrefl] at this
  exact Bool.noConfusion this

theorem keyLt_of_lt_of_nlt {x y z : Option Nat × Nat} (h1 : keyLt x y = true)
    (h2 : keyLt z y = false) : keyLt x z = true := by
  cases hk : keyLt x z
  · exfalso
    cases hk2 : keyLt z x
    · have := keyLt_eq_of_nlt hk hk2
      subst this
      rw [h1] at h2
      exact Bool.noConfusion h2
    · have := keyLt_trans hk2 h1
      rw [this] at h2
      exact Bool.noConfusion h2
  · rfl

theorem keyLt_of_nlt_of_lt {x y z : Option Nat × Nat} (h1 : keyLt y x = false)
    (h2 : keyLt y z = true) : keyLt x z = true := by
  cases hk : keyLt x z
  · exfalso
    cases hk2 : keyLt z x
    · have := keyLt_eq_of_nlt hk hk2
      subst this
      rw [h2] at h1
      exact Bool.noConfusion h1
    · have := keyLt_trans h2 hk2
      rw [this] at h1
      exact Bool.noConfusion h1
  · rfl

/-- Reference recursion equivalent to the `getLowestFNode` scan. -/
def pickMin (key : Pos → Option Nat × Nat) : Pos → List Pos → Pos
  | a, [] => a
  | a, x :: xs => if keyLt (key x) (key a) then pickMin key x xs else pickMin key a xs

theorem foldl_eq_pickMin (key : Pos → Option Nat × Nat) (l : List Pos) (a : Pos) :
    l.foldl (fun low q => if keyLt (key q) (key low) then q else low) a =
      pickMin key a l := by
  induction l generalizing a with
  | nil => rfl
  | cons x xs ih =>
    unfold pickMin
    rw [List.foldl_cons]
    by_cases h : keyLt (key x) (key a) = true
    · rw [if_pos h, if_pos h, ih]
    · rw [if_neg h, if_neg h, ih]

theorem pickMin_cons (key : Pos → Option Nat × Nat) (a x : Pos) (xs : List Pos) :
    pickMin key a (x :: xs) =
      if keyLt (key x) (key a) then pickMin key x xs else pickMin key a xs := rfl

theorem pickMin_spec (key : Pos → Option Nat × Nat) (a : Pos) (l : List Pos) :
    ∃ i, ∃ hi : i < (a :: l).length, pickMin key a l = (a :: l).get ⟨i, hi⟩ ∧
      (∀ j, ∀ hj : j < (a :: l).length,
        keyLt (key ((a :: l).get ⟨j, hj⟩)) (key (pickMin key a l)) = false) ∧
      (∀ j, ∀ hj : j < (a :: l).length, j < i →
        keyLt (key (pickMin key a l)) (key ((a :: l).get ⟨j, hj⟩)) = true) := by
  induction l generalizing a with
  | nil =>
    refine ⟨0, by simp, rfl, ?_, ?_⟩
    · intro j hj
      have hj0 : j = 0 := by simpa using hj
      subst hj0
      simpa [pickMin] using keyLt_irrefl (key a)
    · intro j hj hji
      omega
  | cons x xs ih =>
    by_cases h : keyLt (key x) (key a) = true
    · obtain ⟨i, hi, heq, hmin, hearly⟩ := ih x
      have hres : pickMin key a (x :: xs) = pickMin key x xs := by
        rw [pickMin_cons, if_pos h]
      have hrx : keyLt (key x) (key (pickMin key x xs)) = false := by
        simpa using hmin 0 (by simp)
      refine ⟨i + 1, by simpa using hi, ?_, ?_, ?_⟩
      · rw [hres, heq]
        rfl
      · intro j hj
        rw [hres]
        cases j with
        | zero =>
          show keyLt (key a) (key (pickMin key x xs)) = false
          cases hk : keyLt (key a) (key (pickMin key x xs))
          · rfl
          · exfalso
            have := keyLt_trans h hk
            rw [this] at hrx
            exact Bool.noConfusion hrx
        | succ m =>
          have := hmin m (by simpa using hj)
          simpa using this
      · intro j hj hji
        rw [hres]
        cases j with
        | zero =>
          show keyLt (key (pickMin key x xs)) (key a) = true
          exact keyLt_of_nlt_of_lt hrx h
        | succ m =>
          have := hearly m (by simpa using hj) (by omega)
          simpa using this
    · obtain ⟨i, hi, heq, hmin, hearly⟩ := ih a
      have hb : keyLt (key x) (key a) = false := by
        cases hk : keyLt (key x) (key a)
        · rfl
        · exact absurd hk h
      have hres : pickMin key a (x :: xs) = pickMin key a xs := by
        rw [pickMin_cons, if_neg h]
      have hrla : keyLt (key a) (key (pickMin key a xs)) = false := by
        simpa using hmin 0 (by simp)
      have hxr : keyLt (key x) (key (pickMin key a xs)) = false := by
        cases hk : keyLt (key x) (key (pickMin key a xs))
        · rfl
        · exfalso
          have ha2 : keyLt (key x) (key a) = true := keyLt_of_lt_of_nlt hk hrla
          rw [ha2] at hb
          exact Bool.noConfusion hb
      cases i with
      | zero =>
        have heqa : pickMin key a xs = a := heq
        refine ⟨0, by simp, ?_, ?_, ?_⟩
        · rw [hres]
          exact heqa
        · intro j hj
          rw [hres]
          match j, hj with
          | 0, _ => simpa using hrla
          | 1, _ => simpa using hxr
          | Nat.succ (Nat.succ m), hjm =>
            have := hmin (m + 1) (by simpa using hjm)
            simpa using this
        · intro j hj hji
          omega
      | succ m =>
        refine ⟨m + 2, by simpa using hi, ?_, ?_, ?_⟩
        · rw [hres, heq]
          rfl
        · intro j hj
          rw [hres]
          match j, hj with
          | 0, _ => simpa using hrla
          | 1, _ => simpa using hxr
          | Nat.succ (Nat.succ k), hjk =>
            have := hmin (k + 1) (by simpa using hjk)
            simpa using this
        · intro j hj hji
          rw [hres]
          match j, hji with
          | 0, _ =>
            have := hearly 0 (by simp) (by omega)
            simpa using this
          | 1, _ =>
            have h0 : keyLt (key (pickMin key a xs)) (key a) = true := by
              have := hearly 0 (by simp) (by omega)
              simpa using this
            show keyLt (key (pickMin key a xs)) (key x) = true
            exact keyLt_of_lt_of_nlt h0 hb
          | Nat.succ (Nat.succ k), hjk =>
            have := hearly (k + 1) (by simpa using hj) (by omega)
            simpa using this

theorem getLowestFNode_eq_pickMin (nodes : List (List Node)) (p : Pos)
    (ps : List Pos) :
    AStar.getLowestFNode nodes (p :: ps) = some (pickMin (nodeKey nodes) p ps) := by
  show some ((p :: ps).foldl
    (fun low q => if keyLt (nodeKey nodes q) (nodeKey nodes low) then q else low) p) =
    some (pickMin (nodeKey nodes) p ps)
  rw [List.foldl_cons, keyLt_irrefl, if_neg (by simp), foldl_eq_pickMin]

/-- C7: at every extraction `getLowestFNode` returns the open-set entry with
the least `(f, h)` key in the code's order (`f` first, then `h`), and among
entries with an equal key the one at the earliest list index; since the open
set only ever grows by appending (`openSet.push`) — shown for the expansion
step — and `removeFromArray` deletes in place, the list index order is the
insertion order, so the extraction is deterministic. -/
theorem claim_C7_getLowestFNode :
    (∀ (nodes : List (List Node)) (p : Pos) (ps : List Pos),
      ∃ u i, ∃ hi : i < (p :: ps).length,
        AStar.getLowestFNode nodes (p :: ps) = some u ∧
        (p :: ps).get ⟨i, hi⟩ = u ∧
        (∀ j, ∀ hj : j < (p :: ps).length,
          keyLt (nodeKey nodes ((p :: ps).get ⟨j, hj⟩)) (nodeKey nodes u) = false) ∧
        (∀ j, ∀ hj : j < (p :: ps).length, j < i →
          keyLt (nodeKey nodes u) (nodeKey nodes ((p :: ps).get ⟨j, hj⟩)) = true)) ∧
    (∀ (cur : Pos) (endCell : Node) (st : AState) (np : Pos),
      (expandNeighbor cur endCell st np).openSet = st.openSet ∨
      (expandNeighbor cur endCell st np).openSet = st.openSet ++ [np]) := by
  constructor
  · intro nodes p ps
    obtain ⟨i, hi, heq, hmin, hearly⟩ := pickMin_spec (nodeKey nodes) p ps
    refine ⟨pickMin (nodeKey nodes) p ps, i, hi,
      getLowestFNode_eq_pickMin nodes p ps, heq.symm, hmin, hearly⟩
  · intro cur endCell st np
    unfold expandNeighbor
    by_cases h1 : (st.closedSet.contains np || (cellD st.nodes np).isWall) = true
    · rw [if_pos h1]
      exact Or.inl rfl
    · rw [if_neg h1]
      by_cases h2 : jsLt (jsAdd (cellD st.nodes cur).g (cellD st.nodes np).weight)
          (cellD st.nodes np).g = true
      · rw [if_pos h2]
        by_cases h3 : st.openSet.contains np = true
        · left
          simp only [if_pos h3]
        · right
          simp only [if_neg h3]
      · rw [if_neg h2]
        exact Or.inl rfl

/-- Witness for C7 at a concrete open set with an `(f, h)` tie. -/
theorem claim_C7_getLowestFNode_witness :
    ∃ u i, ∃ hi : i < [(0, 0), (1, 1), (2, 2)].length,
      AStar.getLowestFNode sampleGrid3.nodes [(0, 0), (1, 1), (2, 2)] = some u ∧
      ([(0, 0), (1, 1), (2, 2)] : List Pos).get ⟨i, hi⟩ = u ∧
      (∀ j, ∀ hj : j < [(0, 0), (1, 1), (2, 2)].length,
        keyLt (nodeKey sampleGrid3.nodes
          (([(0, 0), (1, 1), (2, 2)] : List Pos).get ⟨j, hj⟩))
          (nodeKey sampleGrid3.nodes u) = false) ∧
      (∀ j, ∀ hj : j < [(0, 0), (1, 1), (2, 2)].length, j < i →
        keyLt (nodeKey sampleGrid3.nodes u)
          (nodeKey sampleGrid3.nodes
            (([(0, 0), (1, 1), (2, 2)] : List Pos).get ⟨j, hj⟩)) = true) :=
  claim_C7_getLowestFNode.1 sampleGrid3.nodes (0, 0) [(1, 1), (2, 2)]

/-! ## Shape lemmas and the `setStartNode` / `setEndNode` normal forms -/

/-- The `nodes` array is rectangular `R × C`. -/
def shape (nodes : List (List Node)) (R C : Nat) : Prop :=
  nodes.length = R ∧ ∀ rw ∈ nodes, rw.length = C

theorem shape_of_rowlen (nodes1 nodes2 : List (List Node)) (R C : Nat)
    (hs : shape nodes1 R C) (hlen : nodes2.length = nodes1.length)
    (hrl : ∀ r : Nat, (nodes2[r]?).map List.length = (nodes1[r]?).map List.length) :
    shape nodes2 R C := by
  obtain ⟨h1, h2⟩ := hs
  refine ⟨by omega, ?_⟩
  intro rw hrw
  obtain ⟨r, hr, hget⟩ := List.getElem_of_mem hrw
  have := hrl r
  rw [List.getElem?_eq_getElem hr, hget] at this
  cases hx : nodes1[r]? with
  | none =>
    rw [hx] at this
    simp at this
  | some rw1 =>
    rw [hx] at this
    have hm1 : rw1 ∈ nodes1 := by
      obtain ⟨hlt, heq⟩ := List.getElem?_eq_some_iff.mp hx
      exact heq ▸ List.getElem_mem hlt
    have h3 : rw.length = rw1.length := by simpa using this
    rw [h3]
    exact h2 rw1 hm1

theorem shape_setCell (nodes : List (List Node)) (R C : Nat) (p : Pos)
    (f : Node → Node) (hs : shape nodes R C) : shape (setCell nodes p f) R C :=
  shape_of_rowlen nodes (setCell nodes p f) R C hs (setCell_length nodes p f)
    (setCell_rowlen nodes p f)

theorem lookup2_isSome_of_shape (nodes : List (List Node)) (R C : Nat)
    (hs : shape nodes R C) (r c : Nat) :
    (lookup2 nodes r c).isSome = true ↔ r < R ∧ c < C := by
  obtain ⟨h1, h2⟩ := hs
  unfold lookup2
  cases hx : nodes[r]? with
  | none =>
    have hge : ¬ r < nodes.length := by
      intro hlt
      rw [List.getElem?_eq_getElem hlt] at hx
      exact Option.noConfusion hx
    constructor
    · intro h
      exact absurd h (by simp)
    · intro ⟨ha, _⟩
      omega
  | some rw =>
    obtain ⟨hlt, heq⟩ := List.getElem?_eq_some_iff.mp hx
    have hm : rw ∈ nodes := heq ▸ List.getElem_mem hlt
    have hrl : rw.length = C := h2 rw hm
    show (rw[c]?).isSome = true ↔ r < R ∧ c < C
    constructor
    · intro h
      obtain ⟨v, hv⟩ := Option.isSome_iff_exists.mp h
      obtain ⟨hclt, _⟩ := List.getElem?_eq_some_iff.mp hv
      omega
    · intro ⟨_, hc⟩
      rw [List.getElem?_eq_getElem (by omega)]
      rfl

theorem WFgrid_shape (g : Grid) (R C : Nat) (hWF : WFgrid g R C) :
    shape g.nodes R C :=
  ⟨hWF.2.2.2.2.1, hWF.2.2.2.2.2.1⟩

theorem clearStartFlag_fields (g : Grid) :
    (clearStartFlag g).rows = g.rows ∧ (clearStartFlag g).cols = g.cols ∧
    (clearStartFlag g).startNode = g.startNode ∧
    (clearStartFlag g).endNode = g.endNode := by
  unfold clearStartFlag
  cases hc : g.startNode <;> simp [hc]

theorem clearEndFlag_fields (g : Grid) :
    (clearEndFlag g).rows = g.rows ∧ (clearEndFlag g).cols = g.cols ∧
    (clearEndFlag g).startNode = g.startNode ∧
    (clearEndFlag g).endNode = g.endNode := by
  unfold clearEndFlag
  cases hc : g.endNode <;> simp [hc]

theorem clearStartFlag_shape (g : Grid) (R C : Nat) (hs : shape g.nodes R C) :
    shape (clearStartFlag g).nodes R C := by
  unfold clearStartFlag
  cases g.startNode with
  | none => exact hs
  | some p => exact shape_setCell _ R C p _ hs

theorem clearEndFlag_shape (g : Grid) (R C : Nat) (hs : shape g.nodes R C) :
    shape (clearEndFlag g).nodes R C := by
  unfold clearEndFlag
  cases g.endNode with
  | none => exact hs
  | some p => exact shape_setCell _ R C p _ hs

theorem jsIndexRows_spec (nodes : List (List Node)) (R C : Nat)
    (hs : shape nodes R C) (ri : Int) :
    (0 ≤ ri ∧ ri < (R : Int) →
      ∃ rw, jsIndexRows nodes (some ri) = some (ri.toNat, rw) ∧
        nodes[ri.toNat]? = some rw ∧ rw.length = C) ∧
    (¬ (0 ≤ ri ∧ ri < (R : Int)) → jsIndexRows nodes (some ri) = none) := by
  obtain ⟨h1, h2⟩ := hs
  constructor
  · intro ⟨ha, hb⟩
    have hlt : ri.toNat < nodes.length := by omega
    have hget : nodes[ri.toNat]? = some (nodes[ri.toNat]) :=
      List.getElem?_eq_getElem hlt
    refine ⟨nodes[ri.toNat], ?_, hget, h2 _ (List.getElem_mem hlt)⟩
    simp only [jsIndexRows]
    rw [if_neg (by omega), hget]
    rfl
  · intro hbad
    simp only [jsIndexRows]
    by_cases hneg : ri < 0
    · rw [if_pos hneg]
    · rw [if_neg hneg]
      have : ¬ ri.toNat < nodes.length := by omega
      rw [List.getElem?_eq_none (by omega)]
      rfl

theorem jsIndexRow_spec (rw : List Node) (C : Nat) (hlen : rw.length = C)
    (ci : Int) :
    (0 ≤ ci ∧ ci < (C : Int) → jsIndexRow rw (some ci) = some ci.toNat) ∧
    (¬ (0 ≤ ci ∧ ci < (C : Int)) → jsIndexRow rw (some ci) = none) := by
  constructor
  · intro ⟨ha, hb⟩
    simp only [jsIndexRow]
    rw [if_neg (by omega), if_pos (by omega)]
  · intro hbad
    simp only [jsIndexRow]
    by_cases hneg : ci < 0
    · rw [if_pos hneg]
    · rw [if_neg hneg, if_neg (by omega)]

/-- The grid produced by a successful `setStartNode` targeting `p`. -/
def startUpdated (g : Grid) (p : Pos) : Grid :=
  { clearStartFlag g with
      startNode := some p,
      nodes := setCell (clearStartFlag g).nodes p Node.setAsStart }

/-- The grid produced by a successful `setEndNode` targeting `p`. -/
def endUpdated (g : Grid) (p : Pos) : Grid :=
  { clearEndFlag g with
      endNode := some p,
      nodes := setCell (clearEndFlag g).nodes p Node.setAsEnd }

theorem setStartNode_ok (g : Grid) (R C : Nat) (hsh : shape g.nodes R C)
    (ri ci : Int) (h0r : 0 ≤ ri) (hrR : ri < (R : Int)) (h0c : 0 ≤ ci)
    (hcC : ci < (C : Int)) :
    g.setStartNode (some ri) (some ci) = .ok (startUpdated g (ri.toNat, ci.toNat)) := by
  have hsh1 : shape (clearStartFlag g).nodes R C := clearStartFlag_shape g R C hsh
  obtain ⟨rw, hidx, hget, hrw⟩ := (jsIndexRows_spec _ R C hsh1 ri).1 ⟨h0r, hrR⟩
  have hcol : jsIndexRow rw (some ci) = some ci.toNat :=
    (jsIndexRow_spec rw C hrw ci).1 ⟨h0c, hcC⟩
  simp only [Grid.setStartNode, hidx, hcol, startUpdated]

theorem setStartNode_err (g : Grid) (R C : Nat) (hsh : shape g.nodes R C)
    (ri ci : Int)
    (hbad : ¬ (0 ≤ ri ∧ ri < (R : Int) ∧ 0 ≤ ci ∧ ci < (C : Int))) :
    ∃ gE, g.setStartNode (some ri) (some ci) = .error gE ∧
      gE.nodes = (clearStartFlag g).nodes ∧ gE.rows = g.rows ∧
      gE.cols = g.cols ∧ gE.endNode = g.endNode := by
  have hsh1 : shape (clearStartFlag g).nodes R C := clearStartFlag_shape g R C hsh
  obtain ⟨hf1, hf2, hf3, hf4⟩ := clearStartFlag_fields g
  by_cases hrow : 0 ≤ ri ∧ ri < (R : Int)
  · obtain ⟨rw, hidx, hget, hrw⟩ := (jsIndexRows_spec _ R C hsh1 ri).1 hrow
    have hcbad : ¬ (0 ≤ ci ∧ ci < (C : Int)) := by
      intro hc
      exact hbad ⟨hrow.1, hrow.2, hc.1, hc.2⟩
    have hcol : jsIndexRow rw (some ci) = none :=
      (jsIndexRow_spec rw C hrw ci).2 hcbad
    refine ⟨{ clearStartFlag g with startNode := none }, ?_, rfl, hf1, hf2, hf4⟩
    simp only [Grid.setStartNode, hidx, hcol]
  · have hidx : jsIndexRows (clearStartFlag g).nodes (some ri) = none :=
      (jsIndexRows_spec _ R C hsh1 ri).2 hrow
    refine ⟨clearStartFlag g, ?_, rfl, hf1, hf2, hf4⟩
    simp only [Grid.setStartNode, hidx]

theorem setEndNode_ok (g : Grid) (R C : Nat) (hsh : shape g.nodes R C)
    (ri ci : Int) (h0r : 0 ≤ ri) (hrR : ri < (R : Int)) (h0c : 0 ≤ ci)
    (hcC : ci < (C : Int)) :
    g.setEndNode (some ri) (some ci) = .ok (endUpdated g (ri.toNat, ci.toNat)) := by
  have hsh1 : shape (clearEndFlag g).nodes R C := clearEndFlag_shape g R C hsh
  obtain ⟨rw, hidx, hget, hrw⟩ := (jsIndexRows_spec _ R C hsh1 ri).1 ⟨h0r, hrR⟩
  have hcol : jsIndexRow rw (some ci) = some ci.toNat :=
    (jsIndexRow_spec rw C hrw ci).1 ⟨h0c, hcC⟩
  simp only [Grid.setEndNode, hidx, hcol, endUpdated]

theorem setEndNode_err (g : Grid) (R C : Nat) (hsh : shape g.nodes R C)
    (ri ci : Int)
    (hbad : ¬ (0 ≤ ri ∧ ri < (R : Int) ∧ 0 ≤ ci ∧ ci < (C : Int))) :
    ∃ gE, g.setEndNode (some ri) (some ci) = .error gE ∧
      gE.nodes = (clearEndFlag g).nodes ∧ gE.rows = g.rows ∧
      gE.cols = g.cols ∧ gE.startNode = g.startNode := by
  have hsh1 : shape (clearEndFlag g).nodes R C := clearEndFlag_shape g R C hsh
  obtain ⟨hf1, hf2, hf3, hf4⟩ := clearEndFlag_fields g
  by_cases hrow : 0 ≤ ri ∧ ri < (R : Int)
  · obtain ⟨rw, hidx, hget, hrw⟩ := (jsIndexRows_spec _ R C hsh1 ri).1 hrow
    have hcbad : ¬ (0 ≤ ci ∧ ci < (C : Int)) := by
      intro hc
      exact hbad ⟨hrow.1, hrow.2, hc.1, hc.2⟩
    have hcol : jsIndexRow rw (some ci) = none :=
      (jsIndexRow_spec rw C hrw ci).2 hcbad
    refine ⟨{ clearEndFlag g with endNode := none }, ?_, rfl, hf1, hf2, hf3⟩
    simp only [Grid.setEndNode, hidx, hcol]
  · have hidx : jsIndexRows (clearEndFlag g).nodes (some ri) = none :=
      (jsIndexRows_spec _ R C hsh1 ri).2 hrow
    refine ⟨clearEndFlag g, ?_, rfl, hf1, hf2, hf3⟩
    simp only [Grid.setEndNode, hidx]

/-- Did the call return normally (`Except.ok`)? -/
def exOk : Except Grid Grid → Bool
  | .ok _ => true
  | .error _ => false

/-- The grid carried by the call result, whether returned or thrown. -/
def exGrid : Except Grid Grid → Grid
  | .ok g => g
  | .error g => g

/-- C5 counterexample: on the default 3-by-3 grid, `setStartNode` aimed at
the goal cell `(2, 2)` is not rejected: it succeeds and converts the goal
cell into the start (its `isEnd` flag is lost), mutating the grid; and
`setStartNode` aimed at the out-of-bounds cell `(5, 5)` does not leave the
grid unchanged either: it throws after already clearing the old start flag. -/
theorem claim_C5_counterexample :
    (sampleGrid3.endNode = some (2, 2) ∧
      (cellD sampleGrid3.nodes (2, 2)).isEnd = true) ∧
    exOk (sampleGrid3.setStartNode (some 2) (some 2)) = true ∧
    exGrid (sampleGrid3.setStartNode (some 2) (some 2)) ≠ sampleGrid3 ∧
    (cellD (exGrid (sampleGrid3.setStartNode (some 2) (some 2))).nodes (2, 2)).isStart
      = true ∧
    (cellD (exGrid (sampleGrid3.setStartNode (some 2) (some 2))).nodes (2, 2)).isEnd
      = false ∧
    exOk (sampleGrid3.setStartNode (some 5) (some 5)) = false ∧
    exGrid (sampleGrid3.setStartNode (some 5) (some 5)) ≠ sampleGrid3 := by
  decide

/-- C5 (amended): `setStartNode` performs no opposite-role or bounds
rejection.  For an in-bounds target it always succeeds: the target cell
becomes the start (`isStart := true`, clearing `isEnd` and `isWall` on it),
the previous holder's flag is cleared, and every other cell is untouched —
even when the target is the goal cell.  For an out-of-bounds target it
throws a `TypeError` after already clearing the previous holder's flag, so
the grid is not left unchanged. -/
theorem claim_C5_setStartNode (g : Grid) (R C : Nat) (hWF : WFgrid g R C)
    (ps : Pos) (hst : g.startNode = some ps) (hpsb : ps.1 < R ∧ ps.2 < C)
    (r c : Nat) :
    (r < R ∧ c < C →
      g.setStartNode (some (r : Int)) (some (c : Int)) =
        .ok (startUpdated g (r, c)) ∧
      (startUpdated g (r, c)).startNode = some (r, c) ∧
      (cellD (startUpdated g (r, c)).nodes (r, c)).isStart = true ∧
      (cellD (startUpdated g (r, c)).nodes (r, c)).isEnd = false ∧
      (cellD (startUpdated g (r, c)).nodes (r, c)).isWall = false ∧
      (ps ≠ (r, c) → (cellD (startUpdated g (r, c)).nodes ps).isStart = false) ∧
      (∀ q : Pos, q ≠ ps → q ≠ (r, c) →
        lookup2 (startUpdated g (r, c)).nodes q.1 q.2 = lookup2 g.nodes q.1 q.2) ∧
      (startUpdated g (r, c)).endNode = g.endNode) ∧
    (¬ (r < R ∧ c < C) →
      ∃ gE, g.setStartNode (some (r : Int)) (some (c : Int)) = .error gE ∧
        (cellD gE.nodes ps).isStart = false) := by
  have hsh : shape g.nodes R C := WFgrid_shape g R C hWF
  have hsh1 : shape (clearStartFlag g).nodes R C := clearStartFlag_shape g R C hsh
  have hclear : ∀ q : Pos, lookup2 (clearStartFlag g).nodes q.1 q.2 =
      if q = ps then (lookup2 g.nodes q.1 q.2).map
        (fun n => { n with isStart := false }) else lookup2 g.nodes q.1 q.2 := by
    intro q
    unfold clearStartFlag
    rw [hst]
    exact lookup2_setCell g.nodes ps _ q
  have hpsStart : (cellD (clearStartFlag g).nodes ps).isStart = false := by
    unfold cellD
    rw [hclear ps, if_pos rfl]
    have : (lookup2 g.nodes ps.1 ps.2).isSome = true :=
      (lookup2_isSome_of_shape g.nodes R C hsh ps.1 ps.2).mpr hpsb
    obtain ⟨n, hn⟩ := Option.isSome_iff_exists.mp this
    rw [hn]
    rfl
  constructor
  · intro ⟨hr, hc⟩
    have hok := setStartNode_ok g R C hsh r c (by omega)
      (by exact_mod_cast Nat.cast_lt.mpr hr) (by omega)
      (by exact_mod_cast Nat.cast_lt.mpr hc)
    rw [Int.toNat_natCast, Int.toNat_natCast] at hok
    have hcellSome : (lookup2 (clearStartFlag g).nodes r c).isSome = true :=
      (lookup2_isSome_of_shape _ R C hsh1 r c).mpr ⟨hr, hc⟩
    obtain ⟨n, hn⟩ := Option.isSome_iff_exists.mp hcellSome
    have htarget : ∀ fld : Node → Bool,
        fld { n with isStart := true, isEnd := false, isWall := false } =
          fld (cellD (startUpdated g (r, c)).nodes (r, c)) := by
      intro fld
      unfold startUpdated cellD
      simp only
      rw [lookup2_setCell_same]
      rw [show lookup2 (clearStartFlag g).nodes r c = some n from hn]
      rfl
    refine ⟨hok, rfl, ?_, ?_, ?_, ?_, ?_, (clearStartFlag_fields g).2.2.2⟩
    · rw [← htarget (fun m => m.isStart)]
    · rw [← htarget (fun m => m.isEnd)]
    · rw [← htarget (fun m => m.isWall)]
    · intro hne
      unfold startUpdated cellD
      simp only
      rw [lookup2_setCell_other _ _ _ ps hne]
      rw [show ((lookup2 (clearStartFlag g).nodes ps.1 ps.2).getD default).isStart
            = false from hpsStart]
    · intro q hq1 hq2
      unfold startUpdated
      simp only
      rw [lookup2_setCell_other _ _ _ q hq2, hclear q, if_neg hq1]
  · intro hbad
    obtain ⟨gE, herr, hnodes, _, _, _⟩ := setStartNode_err g R C hsh r c (by
      intro ⟨_, h1, _, h2⟩
      exact hbad ⟨by exact_mod_cast h1, by exact_mod_cast h2⟩)
    refine ⟨gE, herr, ?_⟩
    unfold cellD
    rw [hnodes]
    exact hpsStart

/-- Witness for C5 on the concrete grid: moving the start to `(1, 1)`. -/
theorem claim_C5_setStartNode_witness :
    sampleGrid3.setStartNode (some (1 : Int)) (some (1 : Int)) =
      .ok (startUpdated sampleGrid3 (1, 1)) :=
  ((claim_C5_setStartNode sampleGrid3 3 3 (by decide) (0, 0) (by decide)
    (by decide) 1 1).1 (by decide)).1

/-- C4 counterexample: the default 3-by-3 grid satisfies the start/goal
invariant, but after the grid operation `setStartNode(2, 2)` (targeting the
goal cell) no cell of the resulting grid has `isEnd = true`: the
"exactly one goal" part of the invariant is destroyed. -/
theorem claim_C4_counterexample :
    RolesOk sampleGrid3 3 3 (0, 0) (2, 2) ∧
    (∀ r, r < 3 → ∀ c, c < 3 →
      (cellD (exGrid (sampleGrid3.setStartNode (some 2) (some 2))).nodes
        (r, c)).isEnd = false) := by
  decide

/-! ## Fresh grids, `resetGrid`, `resize` and the constructor -/

theorem setCell_id (nodes : List (List Node)) (p : Pos) (f : Node → Node)
    (h : ∀ n, lookup2 nodes p.1 p.2 = some n → f n = n) :
    setCell nodes p f = nodes := by
  apply grid_nodes_ext _ _ (setCell_length _ _ _) (setCell_rowlen _ _ _)
  intro q
  rw [lookup2_setCell]
  by_cases hq : q = p
  · subst hq
    cases hl : lookup2 nodes q.1 q.2 with
    | none => simp [hl]
    | some n => simp [hl, h n hl]
  · simp [hq]

theorem clearStartFlag_id (g : Grid)
    (h : ∀ p n, g.startNode = some p → lookup2 g.nodes p.1 p.2 = some n →
      n.isStart = false) :
    clearStartFlag g = g := by
  unfold clearStartFlag
  cases hs : g.startNode with
  | none => simp [hs]
  | some p =>
    simp only [hs]
    have hid : setCell g.nodes p (fun n => { n with isStart := false }) = g.nodes := by
      apply setCell_id
      intro n hn
      have := h p n hs hn
      cases n
      simp_all
    rw [hid, ← hs]

theorem clearEndFlag_id (g : Grid)
    (h : ∀ p n, g.endNode = some p → lookup2 g.nodes p.1 p.2 = some n →
      n.isEnd = false) :
    clearEndFlag g = g := by
  unfold clearEndFlag
  cases hs : g.endNode with
  | none => simp [hs]
  | some p =>
    simp only [hs]
    have hid : setCell g.nodes p (fun n => { n with isEnd := false }) = g.nodes := by
      apply setCell_id
      intro n hn
      have := h p n hs hn
      cases n
      simp_all
    rw [hid, ← hs]

/-- The node array `initializeGrid` builds. -/
def freshNodes (R C : Nat) : List (List Node) :=
  (List.range R).map (fun r => (List.range C).map (fun c => { row := r, col := c }))

theorem initializeGrid_eq (g : Grid) :
    g.initializeGrid = { g with nodes := freshNodes (natDim g.rows) (natDim g.cols) } :=
  rfl

theorem freshNodes_lookup (R C : Nat) (r c : Nat) :
    lookup2 (freshNodes R C) r c =
      if r < R ∧ c < C then some { row := r, col := c } else none := by
  unfold freshNodes lookup2
  by_cases hr : r < R
  · have hgr : ((List.range R).map (fun r =>
        (List.range C).map (fun c => ({ row := r, col := c } : Node))))[r]? =
        some ((List.range C).map (fun c => ({ row := r, col := c } : Node))) := by
      rw [List.getElem?_map, List.getElem?_range hr]
      rfl
    simp only [hgr]
    by_cases hc : c < C
    · have hgc : ((List.range C).map
          (fun c => ({ row := r, col := c } : Node)))[c]? =
          some { row := r, col := c } := by
        rw [List.getElem?_map, List.getElem?_range hc]
        rfl
      simp only [hgc]
      rw [if_pos ⟨hr, hc⟩]
    · have hgc : ((List.range C).map
          (fun c => ({ row := r, col := c } : Node)))[c]? = none := by
        rw [List.getElem?_eq_none]
        simpa using hc
      simp only [hgc]
      rw [if_neg (fun hcon => hc hcon.2)]
  · have hgr : ((List.range R).map (fun r =>
        (List.range C).map (fun c => ({ row := r, col := c } : Node))))[r]? =
        none := by
      rw [List.getElem?_eq_none]
      simpa using hr
    simp only [hgr]
    rw [if_neg (fun hcon => hr hcon.1)]

theorem freshNodes_shape (R C : Nat) : shape (freshNodes R C) R C := by
  constructor
  · simp [freshNodes]
  · intro rw hrw
    unfold freshNodes at hrw
    rw [List.mem_map] at hrw
    obtain ⟨r, _, rfl⟩ := hrw
    simp

/-- The cell of a freshly reset grid after the default start/end placement. -/
def defCell (R C : Nat) (r c : Nat) : Node :=
  let base : Node := { row := r, col := c }
  let b1 := if (r, c) = (R / 4, C / 4) then Node.setAsStart base else base
  if (r, c) = (3 * R / 4, 3 * C / 4) then Node.setAsEnd b1 else b1

/-- The grid as rebuilt by `resetGrid` (fresh cells, default placement). -/
def defaultGrid (rows cols : Option Int) (R C : Nat) : Grid :=
  { rows := rows, cols := cols,
    startNode := some (R / 4, C / 4), endNode := some (3 * R / 4, 3 * C / 4),
    nodes := setCell (setCell (freshNodes R C) (R / 4, C / 4) Node.setAsStart)
      (3 * R / 4, 3 * C / 4) Node.setAsEnd }

theorem defaultGrid_lookup (rows cols : Option Int) (R C : Nat) (r c : Nat) :
    lookup2 (defaultGrid rows cols R C).nodes r c =
      if r < R ∧ c < C then some (defCell R C r c) else none := by
  show lookup2 (setCell (setCell (freshNodes R C) (R / 4, C / 4) Node.setAsStart)
      (3 * R / 4, 3 * C / 4) Node.setAsEnd) r c = _
  have h1 := lookup2_setCell (setCell (freshNodes R C) (R / 4, C / 4) Node.setAsStart)
    (3 * R / 4, 3 * C / 4) Node.setAsEnd (r, c)
  have h2 := lookup2_setCell (freshNodes R C) (R / 4, C / 4) Node.setAsStart (r, c)
  simp only at h1 h2
  rw [h1, h2, freshNodes_lookup]
  unfold defCell
  simp only
  by_cases hb : r < R ∧ c < C
  · simp only [if_pos hb]
    by_cases he : (r, c) = (3 * R / 4, 3 * C / 4) <;>
      by_cases hs : (r, c) = (R / 4, C / 4)
    · simp only [if_pos he, if_pos hs]
      rfl
    · simp only [if_pos he, if_neg hs]
      rfl
    · simp only [if_neg he, if_pos hs]
      rfl
    · simp only [if_neg he, if_neg hs]
  · simp only [if_neg hb]
    by_cases he : (r, c) = (3 * R / 4, 3 * C / 4) <;>
      by_cases hs : (r, c) = (R / 4, C / 4)
    · simp only [if_pos he, if_pos hs]
      rfl
    · simp only [if_pos he, if_neg hs]
      rfl
    · simp only [if_neg he, if_pos hs]
      rfl
    · simp only [if_neg he, if_neg hs]

theorem fdiv_natCast (a : Nat) :
    Int.fdiv (a : Int) (4 : Int) = ((a / 4 : Nat) : Int) :=
  (Int.ofNat_fdiv a 4).symm

theorem defaultGrid_shape (rows cols : Option Int) (R C : Nat) :
    shape (defaultGrid rows cols R C).nodes R C :=
  shape_setCell _ R C _ _ (shape_setCell _ R C _ _ (freshNodes_shape R C))

theorem resetGrid_ok (g : Grid) (R C : Nat) (hr : g.rows = some (R : Int))
    (hc : g.cols = some (C : Int)) (hR : 1 ≤ R) (hC : 1 ≤ C) :
    g.resetGrid = .ok (defaultGrid g.rows g.cols R C) := by
  have hRq : R / 4 < R := Nat.div_lt_self (by omega) (by omega)
  have hCq : C / 4 < C := Nat.div_lt_self (by omega) (by omega)
  have hR3 : 3 * R / 4 < R := by omega
  have hC3 : 3 * C / 4 < C := by omega
  have hnatR : natDim g.rows = R := by rw [hr]; simp [natDim]
  have hnatC : natDim g.cols = C := by rw [hc]; simp [natDim]
  have hgI : g.initializeGrid = { g with nodes := freshNodes R C } := by
    rw [initializeGrid_eq, hnatR, hnatC]
  set gI : Grid := { g with nodes := freshNodes R C } with hgIdef
  have hshI : shape gI.nodes R C := freshNodes_shape R C
  have hclearI : clearStartFlag gI = gI := by
    apply clearStartFlag_id
    intro p n _ hn
    rw [show lookup2 gI.nodes p.1 p.2 = lookup2 (freshNodes R C) p.1 p.2 from rfl,
      freshNodes_lookup] at hn
    by_cases hb : p.1 < R ∧ p.2 < C
    · rw [if_pos hb] at hn
      cases hn
      rfl
    · rw [if_neg hb] at hn
      exact Option.noConfusion hn
  have hrowmap : gI.rows.map (fun r => Int.fdiv r 4) = some ((R / 4 : Nat) : Int) := by
    show g.rows.map (fun r => Int.fdiv r 4) = _
    rw [hr]
    show some (Int.fdiv (R : Int) 4) = some ((R / 4 : Nat) : Int)
    exact congrArg some (fdiv_natCast _)
  have hcolmap : gI.cols.map (fun c => Int.fdiv c 4) = some ((C / 4 : Nat) : Int) := by
    show g.cols.map (fun c => Int.fdiv c 4) = _
    rw [hc]
    show some (Int.fdiv (C : Int) 4) = some ((C / 4 : Nat) : Int)
    exact congrArg some (fdiv_natCast _)
  have hstart := setStartNode_ok gI R C hshI ((R / 4 : Nat) : Int) ((C / 4 : Nat) : Int)
    (by positivity) (by exact_mod_cast hRq) (by positivity) (by exact_mod_cast hCq)
  rw [Int.toNat_natCast, Int.toNat_natCast] at hstart
  unfold startUpdated at hstart
  rw [hclearI] at hstart
  set gS : Grid := { gI with
    startNode := some (R / 4, C / 4),
    nodes := setCell gI.nodes (R / 4, C / 4) Node.setAsStart } with hgSdef
  have hstart2 : gI.setStartNode (gI.rows.map (fun r => Int.fdiv r 4))
      (gI.cols.map (fun c => Int.fdiv c 4)) = .ok gS := by
    rw [hrowmap, hcolmap, hstart]
  have hshS : shape gS.nodes R C := shape_setCell _ R C _ _ hshI
  have hclearS : clearEndFlag gS = gS := by
    apply clearEndFlag_id
    intro p n _ hn
    rw [show lookup2 gS.nodes p.1 p.2 =
        lookup2 (setCell (freshNodes R C) (R / 4, C / 4) Node.setAsStart) p.1 p.2
        from rfl, lookup2_setCell, freshNodes_lookup] at hn
    by_cases hps : p = (R / 4, C / 4)
    · rw [if_pos hps] at hn
      by_cases hb : p.1 < R ∧ p.2 < C
      · rw [if_pos hb] at hn
        cases hn
        rfl
      · rw [if_neg hb] at hn
        exact Option.noConfusion hn
    · rw [if_neg hps] at hn
      by_cases hb : p.1 < R ∧ p.2 < C
      · rw [if_pos hb] at hn
        cases hn
        rfl
      · rw [if_neg hb] at hn
        exact Option.noConfusion hn
  have hrowmap3 : gS.rows.map (fun r => Int.fdiv (3 * r) 4) =
      some ((3 * R / 4 : Nat) : Int) := by
    show g.rows.map (fun r => Int.fdiv (3 * r) 4) = _
    rw [hr]
    show some (Int.fdiv (3 * (R : Int)) 4) = some ((3 * R / 4 : Nat) : Int)
    rw [show (3 : Int) * (R : Int) = ((3 * R : Nat) : Int) by push_cast; ring]
    exact congrArg some (fdiv_natCast _)
  have hcolmap3 : gS.cols.map (fun c => Int.fdiv (3 * c) 4) =
      some ((3 * C / 4 : Nat) : Int) := by
    show g.cols.map (fun c => Int.fdiv (3 * c) 4) = _
    rw [hc]
    show some (Int.fdiv (3 * (C : Int)) 4) = some ((3 * C / 4 : Nat) : Int)
    rw [show (3 : Int) * (C : Int) = ((3 * C : Nat) : Int) by push_cast; ring]
    exact congrArg some (fdiv_natCast _)
  have hend := setEndNode_ok gS R C hshS ((3 * R / 4 : Nat) : Int)
    ((3 * C / 4 : Nat) : Int) (by positivity) (by exact_mod_cast hR3)
    (by positivity) (by exact_mod_cast hC3)
  rw [Int.toNat_natCast, Int.toNat_natCast] at hend
  unfold endUpdated at hend
  rw [hclearS] at hend
  unfold Grid.resetGrid
  rw [hgI]
  unfold Grid.setDefaultStartEnd
  rw [hstart2]
  show gS.setEndNode (gS.rows.map (fun r => Int.fdiv (3 * r) 4))
    (gS.cols.map (fun c => Int.fdiv (3 * c) 4)) = .ok (defaultGrid g.rows g.cols R C)
  rw [hrowmap3, hcolmap3, hend]
  rfl

theorem resize_ok (g : Grid) (R C : Nat) (hR : 1 ≤ R) (hC : 1 ≤ C) :
    g.resize (some (R : Int)) (some (C : Int)) =
      .ok (defaultGrid (some (R : Int)) (some (C : Int)) R C) := by
  unfold Grid.resize
  exact resetGrid_ok _ R C rfl rfl hR hC

theorem create_ok (R C : Nat) (hR : 1 ≤ R) (hC : 1 ≤ C) :
    Grid.create (R : Int) (C : Int) =
      .ok (defaultGrid (some (R : Int)) (some (C : Int)) R C) := by
  unfold Grid.create
  exact resetGrid_ok _ R C rfl rfl hR hC

theorem defCell_pos (R C r c : Nat) :
    (defCell R C r c).row = r ∧ (defCell R C r c).col = c := by
  unfold defCell
  simp only
  split <;> split <;> exact ⟨rfl, rfl⟩

theorem defaultGrid_WF (R C : Nat) (hR : 1 ≤ R) (hC : 1 ≤ C) :
    WFgrid (defaultGrid (some (R : Int)) (some (C : Int)) R C) R C := by
  refine ⟨rfl, rfl, hR, hC, (defaultGrid_shape _ _ R C).1,
    (defaultGrid_shape _ _ R C).2, ?_⟩
  intro r hr c hc
  have hl := defaultGrid_lookup (some (R : Int)) (some (C : Int)) R C r c
  rw [if_pos ⟨hr, hc⟩] at hl
  refine ⟨?_, ?_, ?_⟩
  · show (Grid.cellAt _ (r, c)).isSome = true
    unfold Grid.cellAt
    rw [hl]
    rfl
  · unfold cellD
    rw [hl]
    exact (defCell_pos R C r c).1
  · unfold cellD
    rw [hl]
    exact (defCell_pos R C r c).2

theorem defaultPos_ne (R C : Nat) (hR : 1 ≤ R) (hC : 1 ≤ C)
    (hne : ¬ (R = 1 ∧ C = 1)) :
    ((R / 4 : Nat), (C / 4 : Nat)) ≠ ((3 * R / 4 : Nat), (3 * C / 4 : Nat)) := by
  intro hcon
  rw [Prod.ext_iff] at hcon
  obtain ⟨h1, h2⟩ := hcon
  simp only at h1 h2
  omega

theorem defCell_flags (R C r c : Nat)
    (hne : ((R / 4 : Nat), (C / 4 : Nat)) ≠ ((3 * R / 4 : Nat), (3 * C / 4 : Nat))) :
    ((defCell R C r c).isStart = true ↔ (r, c) = ((R / 4 : Nat), (C / 4 : Nat))) ∧
    ((defCell R C r c).isEnd = true ↔ (r, c) = ((3 * R / 4 : Nat), (3 * C / 4 : Nat))) ∧
    (defCell R C r c).isWall = false := by
  unfold defCell
  simp only
  by_cases he : (r, c) = ((3 * R / 4 : Nat), (3 * C / 4 : Nat))
  · rw [if_pos he]
    by_cases hs : (r, c) = ((R / 4 : Nat), (C / 4 : Nat))
    · exact absurd (hs.symm.trans he) hne
    · rw [if_neg hs]
      refine ⟨?_, ?_, rfl⟩
      · simp [Node.setAsEnd, hs]
      · simp [Node.setAsEnd, he]
  · rw [if_neg he]
    by_cases hs : (r, c) = ((R / 4 : Nat), (C / 4 : Nat))
    · rw [if_pos hs]
      refine ⟨?_, ?_, rfl⟩
      · simp [Node.setAsStart, hs]
      · simp [Node.setAsStart, he]
    · rw [if_neg hs]
      refine ⟨?_, ?_, rfl⟩
      · simp [hs]
      · simp [he]

theorem defaultGrid_roles (rows cols : Option Int) (R C : Nat) (hR : 1 ≤ R)
    (hC : 1 ≤ C) (hne : ¬ (R = 1 ∧ C = 1)) :
    RolesOk (defaultGrid rows cols R C) R C (R / 4, C / 4)
      (3 * R / 4, 3 * C / 4) := by
  have hpsne := defaultPos_ne R C hR hC hne
  have hRq : R / 4 < R := Nat.div_lt_self (by omega) (by omega)
  have hCq : C / 4 < C := Nat.div_lt_self (by omega) (by omega)
  have hR3 : 3 * R / 4 < R := by omega
  have hC3 : 3 * C / 4 < C := by omega
  refine ⟨rfl, rfl, hpsne, hRq, hCq, hR3, hC3, ?_, ?_, ?_⟩
  · intro r hr c hc
    have hl := defaultGrid_lookup rows cols R C r c
    rw [if_pos ⟨hr, hc⟩] at hl
    unfold cellD
    rw [hl]
    obtain ⟨f1, f2, _⟩ := defCell_flags R C r c hpsne
    exact ⟨f1, f2⟩
  · have hl := defaultGrid_lookup rows cols R C (R / 4) (C / 4)
    rw [if_pos ⟨hRq, hCq⟩] at hl
    unfold cellD
    rw [hl]
    exact (defCell_flags R C (R / 4) (C / 4) hpsne).2.2
  · have hl := defaultGrid_lookup rows cols R C (3 * R / 4) (3 * C / 4)
    rw [if_pos ⟨hR3, hC3⟩] at hl
    unfold cellD
    rw [hl]
    exact (defCell_flags R C (3 * R / 4) (3 * C / 4) hpsne).2.2

/-! ## The `loadGridData` success path -/

/-- What both branches of the first phase of `loadGridData` establish:
dimensions set, default placement, no walls, role flags at most at the
default positions. -/
def Phase1Ok (gA : Grid) (R2 C2 : Nat) : Prop :=
  gA.rows = some (R2 : Int) ∧ gA.cols = some (C2 : Int) ∧
  gA.startNode = some (R2 / 4, C2 / 4) ∧
  gA.endNode = some (3 * R2 / 4, 3 * C2 / 4) ∧
  shape gA.nodes R2 C2 ∧
  (∀ q : Pos, ∀ n, lookup2 gA.nodes q.1 q.2 = some n →
    n.isWall = false ∧ (n.isStart = true → q = (R2 / 4, C2 / 4)) ∧
    (n.isEnd = true → q = (3 * R2 / 4, 3 * C2 / 4)))

theorem defCell_weak (R C r c : Nat) :
    (defCell R C r c).isWall = false ∧
    ((defCell R C r c).isStart = true → (r, c) = ((R / 4 : Nat), (C / 4 : Nat))) ∧
    ((defCell R C r c).isEnd = true → (r, c) = ((3 * R / 4 : Nat), (3 * C / 4 : Nat))) := by
  unfold defCell
  simp only
  by_cases he : (r, c) = ((3 * R / 4 : Nat), (3 * C / 4 : Nat)) <;>
    by_cases hs : (r, c) = ((R / 4 : Nat), (C / 4 : Nat))
  · rw [if_pos he, if_pos hs]
    exact ⟨rfl, fun _ => hs, fun _ => he⟩
  · rw [if_pos he, if_neg hs]
    exact ⟨rfl, fun hcon => absurd hcon (by simp [Node.setAsEnd]), fun _ => he⟩
  · rw [if_neg he, if_pos hs]
    exact ⟨rfl, fun _ => hs, fun hcon => absurd hcon (by simp [Node.setAsStart])⟩
  · rw [if_neg he, if_neg hs]
    exact ⟨rfl, fun hcon => absurd hcon (by simp), fun hcon => absurd hcon (by simp)⟩

theorem defaultGrid_phase1 (rows cols : Option Int) (R2 C2 : Nat) :
    rows = some (R2 : Int) → cols = some (C2 : Int) →
    Phase1Ok (defaultGrid rows cols R2 C2) R2 C2 := by
  intro h1 h2
  refine ⟨h1, h2, rfl, rfl, defaultGrid_shape rows cols R2 C2, ?_⟩
  intro q n hn
  rw [defaultGrid_lookup] at hn
  by_cases hb : q.1 < R2 ∧ q.2 < C2
  · rw [if_pos hb] at hn
    cases hn
    have := defCell_weak R2 C2 q.1 q.2
    exact ⟨this.1, fun h => this.2.1 h, fun h => this.2.2 h⟩
  · rw [if_neg hb] at hn
    exact Option.noConfusion hn

theorem applyCells_uniform (f : Node → Node) (g : Grid) (R C : Nat)
    (hWF : WFgrid g R C) :
    ∃ g2, applyCells f (cellsIdx g) g = .ok g2 ∧ g2.rows = g.rows ∧
      g2.cols = g.cols ∧ g2.startNode = g.startNode ∧ g2.endNode = g.endNode ∧
      shape g2.nodes R C ∧
      (∀ q : Pos, lookup2 g2.nodes q.1 q.2 = (lookup2 g.nodes q.1 q.2).map f) := by
  obtain ⟨g2, hrun, hr, hc, hs, he, hl, hrl, hq⟩ :=
    applyCells_ok f (cellsIdx g) g (WFgrid_cells_exist g R C hWF) (cellsIdx_nodup g)
  have hrowsR : g.rows = some (R : Int) := hWF.1
  have hcolsC : g.cols = some (C : Int) := hWF.2.1
  have hmem : ∀ q : Pos, q ∈ cellsIdx g ↔ q.1 < R ∧ q.2 < C := by
    intro q
    rw [cellsIdx_mem, hrowsR, hcolsC]
    simp [natDim]
  refine ⟨g2, hrun, hr, hc, hs, he,
    shape_of_rowlen g.nodes g2.nodes R C (WFgrid_shape g R C hWF) hl hrl, ?_⟩
  intro q
  rw [hq q]
  by_cases h : q ∈ cellsIdx g
  · simp [h]
  · have hnone : lookup2 g.nodes q.1 q.2 = none :=
      WFgrid_cells_none g R C hWF q (fun hcon => h ((hmem q).mpr hcon))
    simp [h, hnone]

theorem setDefaultStartEnd_phase1 (g : Grid) (R C : Nat)
    (hr : g.rows = some (R : Int)) (hc : g.cols = some (C : Int))
    (hR : 1 ≤ R) (hC : 1 ≤ C) (hsh : shape g.nodes R C)
    (hclean : ∀ q : Pos, ∀ n, lookup2 g.nodes q.1 q.2 = some n →
      n.isWall = false ∧ n.isStart = false ∧ n.isEnd = false) :
    ∃ gD, g.setDefaultStartEnd = .ok gD ∧ Phase1Ok gD R C ∧
      gD.rows = g.rows ∧ gD.cols = g.cols := by
  have hRq : R / 4 < R := Nat.div_lt_self (by omega) (by omega)
  have hCq : C / 4 < C := Nat.div_lt_self (by omega) (by omega)
  have hR3 : 3 * R / 4 < R := by omega
  have hC3 : 3 * C / 4 < C := by omega
  have hclearI : clearStartFlag g = g := by
    apply clearStartFlag_id
    intro p n _ hn
    exact (hclean p n hn).2.1
  have hrowmap : g.rows.map (fun r => Int.fdiv r 4) = some ((R / 4 : Nat) : Int) := by
    rw [hr]
    exact congrArg some (fdiv_natCast _)
  have hcolmap : g.cols.map (fun c => Int.fdiv c 4) = some ((C / 4 : Nat) : Int) := by
    rw [hc]
    exact congrArg some (fdiv_natCast _)
  have hstart := setStartNode_ok g R C hsh ((R / 4 : Nat) : Int) ((C / 4 : Nat) : Int)
    (by positivity) (by exact_mod_cast hRq) (by positivity) (by exact_mod_cast hCq)
  rw [Int.toNat_natCast, Int.toNat_natCast] at hstart
  unfold startUpdated at hstart
  rw [hclearI] at hstart
  set gS : Grid := { g with
    startNode := some (R / 4, C / 4),
    nodes := setCell g.nodes (R / 4, C / 4) Node.setAsStart } with hgSdef
  have hshS : shape gS.nodes R C := shape_setCell _ R C _ _ hsh
  have hlookS : ∀ q : Pos, lookup2 gS.nodes q.1 q.2 =
      if q = (R / 4, C / 4) then
        (lookup2 g.nodes q.1 q.2).map Node.setAsStart
      else lookup2 g.nodes q.1 q.2 := by
    intro q
    exact lookup2_setCell g.nodes (R / 4, C / 4) Node.setAsStart q
  have hclearS : clearEndFlag gS = gS := by
    apply clearEndFlag_id
    intro p n _ hn
    rw [hlookS p] at hn
    by_cases hps : p = (R / 4, C / 4)
    · rw [if_pos hps] at hn
      cases hl : lookup2 g.nodes p.1 p.2 with
      | none =>
        rw [hl] at hn
        exact Option.noConfusion hn
      | some m =>
        rw [hl] at hn
        cases hn
        rfl
    · rw [if_neg hps] at hn
      exact (hclean p n hn).2.2
  have hrowmap3 : gS.rows.map (fun r => Int.fdiv (3 * r) 4) =
      some ((3 * R / 4 : Nat) : Int) := by
    show g.rows.map (fun r => Int.fdiv (3 * r) 4) = _
    rw [hr]
    show some (Int.fdiv (3 * (R : Int)) 4) = some ((3 * R / 4 : Nat) : Int)
    rw [show (3 : Int) * (R : Int) = ((3 * R : Nat) : Int) by push_cast; ring]
    exact congrArg some (fdiv_natCast _)
  have hcolmap3 : gS.cols.map (fun c => Int.fdiv (3 * c) 4) =
      some ((3 * C / 4 : Nat) : Int) := by
    show g.cols.map (fun c => Int.fdiv (3 * c) 4) = _
    rw [hc]
    show some (Int.fdiv (3 * (C : Int)) 4) = some ((3 * C / 4 : Nat) : Int)
    rw [show (3 : Int) * (C : Int) = ((3 * C : Nat) : Int) by push_cast; ring]
    exact congrArg some (fdiv_natCast _)
  have hend := setEndNode_ok gS R C hshS ((3 * R / 4 : Nat) : Int)
    ((3 * C / 4 : Nat) : Int) (by positivity) (by exact_mod_cast hR3)
    (by positivity) (by exact_mod_cast hC3)
  rw [Int.toNat_natCast, Int.toNat_natCast] at hend
  unfold endUpdated at hend
  rw [hclearS] at hend
  set gD : Grid := { gS with
    endNode := some (3 * R / 4, 3 * C / 4),
    nodes := setCell gS.nodes (3 * R / 4, 3 * C / 4) Node.setAsEnd } with hgDdef
  have hrun : g.setDefaultStartEnd = .ok gD := by
    unfold Grid.setDefaultStartEnd
    rw [hrowmap, hcolmap, hstart]
    show gS.setEndNode (gS.rows.map (fun r => Int.fdiv (3 * r) 4))
      (gS.cols.map (fun c => Int.fdiv (3 * c) 4)) = .ok gD
    rw [hrowmap3, hcolmap3, hend]
  refine ⟨gD, hrun, ⟨hr, hc, rfl, rfl, shape_setCell _ R C _ _ hshS, ?_⟩, rfl, rfl⟩
  intro q n hn
  have hlookD : lookup2 gD.nodes q.1 q.2 =
      if q = (3 * R / 4, 3 * C / 4) then
        (lookup2 gS.nodes q.1 q.2).map Node.setAsEnd
      else lookup2 gS.nodes q.1 q.2 :=
    lookup2_setCell gS.nodes (3 * R / 4, 3 * C / 4) Node.setAsEnd q
  rw [hlookD] at hn
  by_cases hpe : q = (3 * R / 4, 3 * C / 4)
  · rw [if_pos hpe] at hn
    cases hl : lookup2 gS.nodes q.1 q.2 with
    | none =>
      rw [hl] at hn
      exact Option.noConfusion hn
    | some m =>
      rw [hl] at hn
      cases hn
      exact ⟨rfl, fun hcon => absurd hcon (by simp [Node.setAsEnd]), fun _ => hpe⟩
  · rw [if_neg hpe] at hn
    rw [hlookS q] at hn
    by_cases hps : q = (R / 4, C / 4)
    · rw [if_pos hps] at hn
      cases hl : lookup2 g.nodes q.1 q.2 with
      | none =>
        rw [hl] at hn
        exact Option.noConfusion hn
      | some m =>
        rw [hl] at hn
        cases hn
        exact ⟨rfl, fun _ => hps, fun hcon => absurd hcon (by simp [Node.setAsStart])⟩
    · rw [if_neg hps] at hn
      obtain ⟨w1, w2, w3⟩ := hclean q n hn
      exact ⟨w1, fun hcon => absurd hcon (by simp [w2]),
        fun hcon => absurd hcon (by simp [w3])⟩


theorem getNode_eq (g : Grid) (R2 C2 : Nat) (hr : g.rows = some (R2 : Int))
    (hc : g.cols = some (C2 : Int)) (ri ci : Int) :
    g.getNode ri ci =
      if 0 ≤ ri ∧ ri < (R2 : Int) ∧ 0 ≤ ci ∧ ci < (C2 : Int) then
        lookup2 g.nodes ri.toNat ci.toNat
      else none := by
  unfold Grid.getNode
  rw [hr, hc]
  by_cases h : 0 ≤ ri ∧ ri < (R2 : Int) ∧ 0 ≤ ci ∧ ci < (C2 : Int)
  · rw [if_pos h]
    have hb : (decide (0 ≤ ri) && decide (ri < (R2 : Int)) && decide (0 ≤ ci) &&
        decide (ci < (C2 : Int))) = true := by
      simp [h.1, h.2.1, h.2.2.1, h.2.2.2]
    simp only [hb, if_true]
  · rw [if_neg h]
    have hb : (decide (0 ≤ ri) && decide (ri < (R2 : Int)) && decide (0 ≤ ci) &&
        decide (ci < (C2 : Int))) = false := by
      rw [Bool.and_eq_false_iff, Bool.and_eq_false_iff, Bool.and_eq_false_iff]
      by_cases h1 : 0 ≤ ri
      · by_cases h2 : ri < (R2 : Int)
        · by_cases h3 : 0 ≤ ci
          · have h4 : ¬ ci < (C2 : Int) := fun hcon => h ⟨h1, h2, h3, hcon⟩
            exact Or.inr (by simpa using h4)
          · exact Or.inl (Or.inr (by simpa using h3))
        · exact Or.inl (Or.inl (Or.inr (by simpa using h2)))
      · exact Or.inl (Or.inl (Or.inl (by simpa using h1)))
    simp only [hb]
    simp

/-- A wall entry is applied at position `q` when its coordinates name `q`
and it is not skipped for coinciding with the payload's start or end. -/
def wallHits (d : GridData) (w : WallData) (q : Pos) : Prop :=
  w.row = (q.1 : Int) ∧ w.col = (q.2 : Int) ∧
  posMatches d.startNode w = false ∧ posMatches d.endNode w = false

theorem restoreStep_spec (d : GridData) (rnd : Nat) (w : WallData) (g : Grid)
    (R2 C2 : Nat) (hr : g.rows = some (R2 : Int)) (hc : g.cols = some (C2 : Int))
    (hsh : shape g.nodes R2 C2) :
    (restoreStep d rnd g w).rows = g.rows ∧
    (restoreStep d rnd g w).cols = g.cols ∧
    (restoreStep d rnd g w).startNode = g.startNode ∧
    (restoreStep d rnd g w).endNode = g.endNode ∧
    shape (restoreStep d rnd g w).nodes R2 C2 ∧
    (∀ q : Pos, ∀ n, lookup2 g.nodes q.1 q.2 = some n →
      ∃ n', lookup2 (restoreStep d rnd g w).nodes q.1 q.2 = some n' ∧
        n'.isStart = n.isStart ∧ n'.isEnd = n.isEnd ∧
        (n'.isWall = true ↔ (n.isWall = true ∨ wallHits d w q))) := by
  unfold restoreStep
  by_cases hb : 0 ≤ w.row ∧ w.row < (R2 : Int) ∧ 0 ≤ w.col ∧ w.col < (C2 : Int)
  · have hsome : (lookup2 g.nodes w.row.toNat w.col.toNat).isSome = true := by
      rw [lookup2_isSome_of_shape g.nodes R2 C2 hsh]
      omega
    obtain ⟨m, hm⟩ := Option.isSome_iff_exists.mp hsome
    have hget : g.getNode w.row w.col = some m := by
      rw [getNode_eq g R2 C2 hr hc, if_pos hb, hm]
    rw [hget]
    by_cases hskip : (!posMatches d.startNode w && !posMatches d.endNode w) = true
    · rw [if_pos hskip]
      obtain ⟨hs1, hs2⟩ := Bool.and_eq_true_iff.mp hskip
      have hms : posMatches d.startNode w = false := by simpa using hs1
      have hme : posMatches d.endNode w = false := by simpa using hs2
      refine ⟨rfl, rfl, rfl, rfl, shape_setCell _ R2 C2 _ _ hsh, ?_⟩
      intro q n hn
      have hl := lookup2_setCell g.nodes (w.row.toNat, w.col.toNat)
        (fun n => { n with isWall := true, wallType := some (jsTypeOr w.type rnd) }) q
      by_cases hq : q = (w.row.toNat, w.col.toNat)
      · refine ⟨{ n with isWall := true, wallType := some (jsTypeOr w.type rnd) },
          ?_, rfl, rfl, ?_⟩
        · show lookup2 (setCell g.nodes (w.row.toNat, w.col.toNat) _) q.1 q.2 = _
          rw [hl, if_pos hq, hn]
          rfl
        · constructor
          · intro _
            refine Or.inr ⟨?_, ?_, hms, hme⟩
            · rw [hq]
              simp only
              omega
            · rw [hq]
              simp only
              omega
          · intro _
            rfl
      · refine ⟨n, ?_, rfl, rfl, ?_⟩
        · show lookup2 (setCell g.nodes (w.row.toNat, w.col.toNat) _) q.1 q.2 = _
          rw [hl, if_neg hq, hn]
        · constructor
          · exact fun h => Or.inl h
          · intro h
            rcases h with h | ⟨e1, e2, _, _⟩
            · exact h
            · exfalso
              apply hq
              rw [Prod.ext_iff]
              exact ⟨by simp only; omega, by simp only; omega⟩
    · rw [if_neg hskip]
      refine ⟨rfl, rfl, rfl, rfl, hsh, ?_⟩
      intro q n hn
      refine ⟨n, hn, rfl, rfl, ?_⟩
      constructor
      · exact fun h => Or.inl h
      · intro h
        rcases h with h | ⟨_, _, hm1, hm2⟩
        · exact h
        · exfalso
          apply hskip
          rw [hm1, hm2]
          rfl
  · have hget : g.getNode w.row w.col = none := by
      rw [getNode_eq g R2 C2 hr hc, if_neg hb]
    rw [hget]
    refine ⟨rfl, rfl, rfl, rfl, hsh, ?_⟩
    intro q n hn
    have hqb : q.1 < R2 ∧ q.2 < C2 := by
      rw [← lookup2_isSome_of_shape g.nodes R2 C2 hsh]
      rw [hn]
      rfl
    refine ⟨n, hn, rfl, rfl, ?_⟩
    constructor
    · exact fun h => Or.inl h
    · intro h
      rcases h with h | ⟨e1, e2, _, _⟩
      · exact h
      · exfalso
        apply hb
        refine ⟨by omega, by omega, by omega, by omega⟩

theorem restoreWallsGo_spec (d : GridData) (rnd : Nat) (ws : List WallData) :
    ∀ (g : Grid) (R2 C2 : Nat), g.rows = some (R2 : Int) →
    g.cols = some (C2 : Int) → shape g.nodes R2 C2 →
    (ws.foldl (restoreStep d rnd) g).rows = g.rows ∧
    (ws.foldl (restoreStep d rnd) g).cols = g.cols ∧
    (ws.foldl (restoreStep d rnd) g).startNode = g.startNode ∧
    (ws.foldl (restoreStep d rnd) g).endNode = g.endNode ∧
    shape (ws.foldl (restoreStep d rnd) g).nodes R2 C2 ∧
    (∀ q : Pos, ∀ n, lookup2 g.nodes q.1 q.2 = some n →
      ∃ n', lookup2 (ws.foldl (restoreStep d rnd) g).nodes q.1 q.2 = some n' ∧
        n'.isStart = n.isStart ∧ n'.isEnd = n.isEnd ∧
        (n'.isWall = true ↔ (n.isWall = true ∨ ∃ w ∈ ws, wallHits d w q))) := by
  induction ws with
  | nil =>
    intro g R2 C2 hr hc hsh
    refine ⟨rfl, rfl, rfl, rfl, hsh, ?_⟩
    intro q n hn
    exact ⟨n, hn, rfl, rfl, by simp⟩
  | cons w rest ih =>
    intro g R2 C2 hr hc hsh
    rw [List.foldl_cons]
    obtain ⟨h1, h2, h3, h4, hsh1, hcell1⟩ := restoreStep_spec d rnd w g R2 C2 hr hc hsh
    obtain ⟨k1, k2, k3, k4, ksh, kcell⟩ := ih (restoreStep d rnd g w) R2 C2
      (h1.trans hr) (h2.trans hc) hsh1
    refine ⟨k1.trans h1, k2.trans h2, k3.trans h3, k4.trans h4, ksh, ?_⟩
    intro q n hn
    obtain ⟨n1, hn1, s1, e1, w1⟩ := hcell1 q n hn
    obtain ⟨n', hn', s', e', w'⟩ := kcell q n1 hn1
    refine ⟨n', hn', s'.trans s1, e'.trans e1, ?_⟩
    rw [w', w1]
    constructor
    · intro h
      rcases h with (h | h) | ⟨w2, hw2, hhit⟩
      · exact Or.inl h
      · exact Or.inr ⟨w, List.mem_cons_self w rest, h⟩
      · exact Or.inr ⟨w2, List.mem_cons_of_mem w hw2, hhit⟩
    · intro h
      rcases h with h | ⟨w2, hw2, hhit⟩
      · exact Or.inl (Or.inl h)
      · rcases List.mem_cons.mp hw2 with rfl | hw2r
        · exact Or.inl (Or.inr hhit)
        · exact Or.inr ⟨w2, hw2r, hhit⟩

theorem clearStartFlag_lookup (g : Grid) (p : Pos) (hs : g.startNode = some p)
    (q : Pos) :
    lookup2 (clearStartFlag g).nodes q.1 q.2 =
      if q = p then (lookup2 g.nodes q.1 q.2).map (fun n => { n with isStart := false })
      else lookup2 g.nodes q.1 q.2 := by
  unfold clearStartFlag
  rw [hs]
  exact lookup2_setCell g.nodes p _ q

theorem clearEndFlag_lookup (g : Grid) (p : Pos) (hs : g.endNode = some p)
    (q : Pos) :
    lookup2 (clearEndFlag g).nodes q.1 q.2 =
      if q = p then (lookup2 g.nodes q.1 q.2).map (fun n => { n with isEnd := false })
      else lookup2 g.nodes q.1 q.2 := by
  unfold clearEndFlag
  rw [hs]
  exact lookup2_setCell g.nodes p _ q

theorem finalize_roles (gW : Grid) (R2 C2 : Nat) (s e : Pos) (W : Pos → Prop)
    (hr : gW.rows = some (R2 : Int)) (hc : gW.cols = some (C2 : Int))
    (hsh : shape gW.nodes R2 C2)
    (hsb : s.1 < R2 ∧ s.2 < C2) (heb : e.1 < R2 ∧ e.2 < C2) (hne : s ≠ e)
    (pd ped : Pos) (hsref : gW.startNode = some pd) (heref : gW.endNode = some ped)
    (hcells : ∀ q : Pos, ∀ n, lookup2 gW.nodes q.1 q.2 = some n →
      (n.isStart = true → q = pd) ∧ (n.isEnd = true → q = ped) ∧
      (n.isWall = true ↔ W q)) :
    ∃ g4, gW.setStartNode (some (s.1 : Int)) (some (s.2 : Int)) =
        .ok (startUpdated gW s) ∧
      (startUpdated gW s).setEndNode (some (e.1 : Int)) (some (e.2 : Int)) =
        .ok g4 ∧
      g4.rows = gW.rows ∧ g4.cols = gW.cols ∧ g4.startNode = some s ∧
      g4.endNode = some e ∧ shape g4.nodes R2 C2 ∧
      (∀ q : Pos, ∀ n, lookup2 g4.nodes q.1 q.2 = some n →
        (n.isStart = true ↔ q = s) ∧ (n.isEnd = true ↔ q = e) ∧
        (n.isWall = true ↔ (W q ∧ q ≠ s ∧ q ≠ e))) := by
  have hstart := setStartNode_ok gW R2 C2 hsh (s.1 : Int) (s.2 : Int)
    (by positivity) (by exact_mod_cast hsb.1) (by positivity)
    (by exact_mod_cast hsb.2)
  rw [Int.toNat_natCast, Int.toNat_natCast] at hstart
  have hsPair : ((s.1 : Nat), (s.2 : Nat)) = s := rfl
  rw [hsPair] at hstart
  set g3 : Grid := startUpdated gW s with hg3
  have hg3r : g3.rows = gW.rows := (clearStartFlag_fields gW).1
  have hg3c : g3.cols = gW.cols := (clearStartFlag_fields gW).2.1
  have hg3s : g3.startNode = some s := rfl
  have hg3e : g3.endNode = gW.endNode := (clearStartFlag_fields gW).2.2.2
  have hsh3 : shape g3.nodes R2 C2 :=
    shape_setCell _ R2 C2 _ _ (clearStartFlag_shape gW R2 C2 hsh)
  have hlook3 : ∀ q : Pos, lookup2 g3.nodes q.1 q.2 =
      if q = s then
        ((if q = pd then
            (lookup2 gW.nodes q.1 q.2).map (fun n => { n with isStart := false })
          else lookup2 gW.nodes q.1 q.2)).map Node.setAsStart
      else
        (if q = pd then
            (lookup2 gW.nodes q.1 q.2).map (fun n => { n with isStart := false })
          else lookup2 gW.nodes q.1 q.2) := by
    intro q
    show lookup2 (setCell (clearStartFlag gW).nodes s Node.setAsStart) q.1 q.2 = _
    rw [lookup2_setCell _ s Node.setAsStart q, clearStartFlag_lookup gW pd hsref q]
  have hcells3 : ∀ q : Pos, ∀ n, lookup2 g3.nodes q.1 q.2 = some n →
      (n.isStart = true ↔ q = s) ∧ (n.isEnd = true → q = ped ∧ q ≠ s) ∧
      (n.isWall = true ↔ (W q ∧ q ≠ s)) := by
    intro q n hn
    rw [hlook3 q] at hn
    by_cases hqs : q = s
    · rw [if_pos hqs] at hn
      by_cases hqd : q = pd
      · rw [if_pos hqd] at hn
        cases hl : lookup2 gW.nodes q.1 q.2 with
        | none =>
          rw [hl] at hn
          exact Option.noConfusion hn
        | some m =>
          rw [hl] at hn
          cases hn
          refine ⟨by simp [Node.setAsStart, hqs], ?_, ?_⟩
          · intro hcon
            exact absurd hcon (by simp [Node.setAsStart])
          · constructor
            · intro hcon
              exact absurd hcon (by simp [Node.setAsStart])
            · intro ⟨_, hq2⟩
              exact absurd hqs hq2
      · rw [if_neg hqd] at hn
        cases hl : lookup2 gW.nodes q.1 q.2 with
        | none =>
          rw [hl] at hn
          exact Option.noConfusion hn
        | some m =>
          rw [hl] at hn
          cases hn
          refine ⟨by simp [Node.setAsStart, hqs], ?_, ?_⟩
          · intro hcon
            exact absurd hcon (by simp [Node.setAsStart])
          · constructor
            · intro hcon
              exact absurd hcon (by simp [Node.setAsStart])
            · intro ⟨_, hq2⟩
              exact absurd hqs hq2
    · rw [if_neg hqs] at hn
      by_cases hqd : q = pd
      · rw [if_pos hqd] at hn
        cases hl : lookup2 gW.nodes q.1 q.2 with
        | none =>
          rw [hl] at hn
          exact Option.noConfusion hn
        | some m =>
          rw [hl] at hn
          cases hn
          obtain ⟨f1, f2, f3⟩ := hcells q m hl
          refine ⟨by simp [hqs], ?_, ?_⟩
          · intro hcon
            have : m.isEnd = true := hcon
            exact ⟨f2 this, hqs⟩
          · show (m.isWall = true ↔ _)
            rw [f3]
            constructor
            · exact fun h => ⟨h, hqs⟩
            · exact fun h => h.1
      · rw [if_neg hqd] at hn
        obtain ⟨f1, f2, f3⟩ := hcells q n hn
        refine ⟨?_, ?_, ?_⟩
        · constructor
          · intro hcon
            exact absurd (f1 hcon) hqd
          · intro hcon
            exact absurd hcon hqs
        · exact fun hcon => ⟨f2 hcon, hqs⟩
        · rw [f3]
          constructor
          · exact fun h => ⟨h, hqs⟩
          · exact fun h => h.1
  have hend := setEndNode_ok g3 R2 C2 hsh3 (e.1 : Int) (e.2 : Int)
    (by positivity) (by exact_mod_cast heb.1) (by positivity)
    (by exact_mod_cast heb.2)
  rw [Int.toNat_natCast, Int.toNat_natCast] at hend
  have hePair : ((e.1 : Nat), (e.2 : Nat)) = e := rfl
  rw [hePair] at hend
  set g4 : Grid := endUpdated g3 e with hg4
  have hg4r : g4.rows = gW.rows := (clearEndFlag_fields g3).1.trans hg3r
  have hg4c : g4.cols = gW.cols := (clearEndFlag_fields g3).2.1.trans hg3c
  have hg4s : g4.startNode = some s := (clearEndFlag_fields g3).2.2.1.trans hg3s
  have hg4e : g4.endNode = some e := rfl
  have hsh4 : shape g4.nodes R2 C2 :=
    shape_setCell _ R2 C2 _ _ (clearEndFlag_shape g3 R2 C2 hsh3)
  have hped3 : g3.endNode = some ped := hg3e.trans heref
  have hlook4 : ∀ q : Pos, lookup2 g4.nodes q.1 q.2 =
      if q = e then
        ((if q = ped then
            (lookup2 g3.nodes q.1 q.2).map (fun n => { n with isEnd := false })
          else lookup2 g3.nodes q.1 q.2)).map Node.setAsEnd
      else
        (if q = ped then
            (lookup2 g3.nodes q.1 q.2).map (fun n => { n with isEnd := false })
          else lookup2 g3.nodes q.1 q.2) := by
    intro q
    show lookup2 (setCell (clearEndFlag g3).nodes e Node.setAsEnd) q.1 q.2 = _
    rw [lookup2_setCell _ e Node.setAsEnd q, clearEndFlag_lookup g3 ped hped3 q]
  refine ⟨g4, hstart, hend, hg4r, hg4c, hg4s, hg4e, hsh4, ?_⟩
  intro q n hn
  rw [hlook4 q] at hn
  by_cases hqe : q = e
  · rw [if_pos hqe] at hn
    have hfin : ∃ m, n = Node.setAsEnd m := by
      by_cases hqd : q = ped
      · rw [if_pos hqd] at hn
        cases hl : lookup2 g3.nodes q.1 q.2 with
        | none =>
          rw [hl] at hn
          exact Option.noConfusion hn
        | some m =>
          rw [hl] at hn
          exact ⟨_, (Option.some.inj hn).symm⟩
      · rw [if_neg hqd] at hn
        cases hl : lookup2 g3.nodes q.1 q.2 with
        | none =>
          rw [hl] at hn
          exact Option.noConfusion hn
        | some m =>
          rw [hl] at hn
          exact ⟨_, (Option.some.inj hn).symm⟩
    obtain ⟨m, rfl⟩ := hfin
    refine ⟨?_, ?_, ?_⟩
    · constructor
      · intro hcon
        exact absurd hcon (by simp [Node.setAsEnd])
      · intro hcon
        exact absurd (hcon.symm.trans hqe) hne
    · exact ⟨fun _ => hqe, fun _ => by simp [Node.setAsEnd]⟩
    · constructor
      · intro hcon
        exact absurd hcon (by simp [Node.setAsEnd])
      · intro ⟨_, _, hq3⟩
        exact absurd hqe hq3
  · rw [if_neg hqe] at hn
    by_cases hqd : q = ped
    · rw [if_pos hqd] at hn
      cases hl : lookup2 g3.nodes q.1 q.2 with
      | none =>
        rw [hl] at hn
        exact Option.noConfusion hn
      | some m =>
        rw [hl] at hn
        cases hn
        obtain ⟨f1, f2, f3⟩ := hcells3 q m hl
        refine ⟨?_, ?_, ?_⟩
        · show (m.isStart = true ↔ q = s)
          exact f1
        · constructor
          · intro hcon
            exact absurd hcon (by simp)
          · intro hcon
            exact absurd hcon hqe
        · show (m.isWall = true ↔ _)
          rw [f3]
          constructor
          · exact fun h => ⟨h.1, h.2, hqe⟩
          · exact fun h => ⟨h.1, h.2.1⟩
    · rw [if_neg hqd] at hn
      obtain ⟨f1, f2, f3⟩ := hcells3 q n hn
      refine ⟨f1, ?_, ?_⟩
      · constructor
        · intro hcon
          exact absurd (f2 hcon).1 hqd
        · intro hcon
          exact absurd hcon hqe
      · rw [f3]
        constructor
        · exact fun h => ⟨h.1, h.2, hqe⟩
        · exact fun h => ⟨h.1, h.2.1⟩

theorem exBind_ok (a : Grid) (f : Grid → Except Grid Grid) :
    exBind (.ok a) f = f a := rfl

theorem clearWallFn_flags (n : Node) :
    (clearWallFn n).isWall = false ∧ (clearWallFn n).isStart = n.isStart ∧
    (clearWallFn n).isEnd = n.isEnd := by
  unfold clearWallFn
  cases hw : n.isWall <;> simp [hw]

theorem lookup2_bounds_of_shape (nodes : List (List Node)) (R C : Nat)
    (hs : shape nodes R C) (q : Pos) (n : Node)
    (hn : lookup2 nodes q.1 q.2 = some n) : q.1 < R ∧ q.2 < C := by
  refine (lookup2_isSome_of_shape nodes R C hs q.1 q.2).mp ?_
  rw [hn]
  rfl

theorem RolesOk_lookup (g : Grid) (R C : Nat) (ps pe : Pos)
    (hWF : WFgrid g R C) (hroles : RolesOk g R C ps pe) :
    ∀ q : Pos, ∀ n, lookup2 g.nodes q.1 q.2 = some n →
      (n.isStart = true ↔ q = ps) ∧ (n.isEnd = true ↔ q = pe) := by
  intro q n hn
  obtain ⟨hb1, hb2⟩ :=
    lookup2_bounds_of_shape g.nodes R C (WFgrid_shape g R C hWF) q n hn
  have hcd : cellD g.nodes (q.1, q.2) = n := by
    unfold cellD
    rw [hn]
    rfl
  obtain ⟨_, _, _, _, _, _, _, hflags, _, _⟩ := hroles
  have := hflags q.1 hb1 q.2 hb2
  rw [hcd] at this
  exact this

theorem sameDims_phase1 (g : Grid) (R C : Nat) (ps pe : Pos)
    (hWF : WFgrid g R C) (hroles : RolesOk g R C ps pe) :
    ∃ g1 gD, g.clearWalls = .ok g1 ∧
      (clearedForLoad g1).setDefaultStartEnd = .ok gD ∧ Phase1Ok gD R C := by
  obtain ⟨g1, hrun, hr1, hc1, hs1, he1, hsh1, hl1⟩ :=
    applyCells_uniform clearWallFn g R C hWF
  have hg1s : g1.startNode = some ps := hs1.trans hroles.1
  have hg1e : g1.endNode = some pe := he1.trans hroles.2.1
  set gS : Grid := { clearStartFlag g1 with startNode := none } with hgSdef
  have hgSnodes : gS.nodes = (clearStartFlag g1).nodes := rfl
  have hgSend : gS.endNode = some pe := by
    show (clearStartFlag g1).endNode = some pe
    exact ((clearStartFlag_fields g1).2.2.2).trans hg1e
  have hgCnodes : (clearedForLoad g1).nodes = (clearEndFlag gS).nodes := rfl
  have hgCrows : (clearedForLoad g1).rows = g.rows := by
    show (clearEndFlag gS).rows = g.rows
    rw [(clearEndFlag_fields gS).1]
    show (clearStartFlag g1).rows = g.rows
    rw [(clearStartFlag_fields g1).1]
    exact hr1
  have hgCcols : (clearedForLoad g1).cols = g.cols := by
    show (clearEndFlag gS).cols = g.cols
    rw [(clearEndFlag_fields gS).2.1]
    show (clearStartFlag g1).cols = g.cols
    rw [(clearStartFlag_fields g1).2.1]
    exact hc1
  have hshS : shape gS.nodes R C := by
    rw [hgSnodes]
    exact clearStartFlag_shape g1 R C hsh1
  have hshC : shape (clearedForLoad g1).nodes R C := by
    rw [hgCnodes]
    exact clearEndFlag_shape gS R C hshS
  have hclean : ∀ q : Pos, ∀ n,
      lookup2 (clearedForLoad g1).nodes q.1 q.2 = some n →
      n.isWall = false ∧ n.isStart = false ∧ n.isEnd = false := by
    intro q n hn
    rw [hgCnodes, clearEndFlag_lookup gS pe hgSend q] at hn
    rw [hgSnodes, clearStartFlag_lookup g1 ps hg1s q] at hn
    rw [hl1 q] at hn
    cases hl : lookup2 g.nodes q.1 q.2 with
    | none =>
      rw [hl] at hn
      by_cases h1 : q = pe <;> by_cases h2 : q = ps <;>
        simp [h1, h2] at hn
    | some m =>
      rw [hl] at hn
      have hm := RolesOk_lookup g R C ps pe hWF hroles q m hl
      have hcw := clearWallFn_flags m
      by_cases h1 : q = pe <;> by_cases h2 : q = ps
      · exact absurd (h2.symm.trans h1) hroles.2.2.1
      · rw [if_pos h1, if_neg h2] at hn
        simp only [Option.map_some'] at hn
        cases hn
        refine ⟨hcw.1, ?_, rfl⟩
        show (clearWallFn m).isStart = false
        rw [hcw.2.1]
        cases hms : m.isStart with
        | false => rfl
        | true => exact absurd (hm.1.mp hms) h2
      · rw [if_neg h1, if_pos h2] at hn
        simp only [Option.map_some'] at hn
        cases hn
        refine ⟨hcw.1, rfl, ?_⟩
        show (clearWallFn m).isEnd = false
        rw [hcw.2.2]
        cases hme : m.isEnd with
        | false => rfl
        | true => exact absurd (hm.2.mp hme) h1
      · rw [if_neg h1, if_neg h2] at hn
        simp only [Option.map_some'] at hn
        cases hn
        refine ⟨hcw.1, ?_, ?_⟩
        · rw [hcw.2.1]
          cases hms : m.isStart with
          | false => rfl
          | true => exact absurd (hm.1.mp hms) h2
        · rw [hcw.2.2]
          cases hme : m.isEnd with
          | false => rfl
          | true => exact absurd (hm.2.mp hme) h1
  obtain ⟨gD, hsd, hp1, _, _⟩ :=
    setDefaultStartEnd_phase1 (clearedForLoad g1) R C
      (hgCrows.trans hWF.1) (hgCcols.trans hWF.2.1)
      hWF.2.2.1 hWF.2.2.2.1 hshC hclean
  exact ⟨g1, gD, hrun, hsd, hp1⟩

/-- A payload that names in-bounds, distinct start/end positions and carries
all four fields with positive dimensions. -/
def GoodPayload (d : GridData) (R2 C2 : Nat) (s e : Pos)
    (ws : List WallData) : Prop :=
  d.rows = some (R2 : Int) ∧ d.cols = some (C2 : Int) ∧ 1 ≤ R2 ∧ 1 ≤ C2 ∧
  d.startNode = some { row := (s.1 : Int), col := (s.2 : Int) } ∧
  d.endNode = some { row := (e.1 : Int), col := (e.2 : Int) } ∧
  s.1 < R2 ∧ s.2 < C2 ∧ e.1 < R2 ∧ e.2 < C2 ∧ s ≠ e ∧ d.walls = some ws

theorem loadGridData_good (g : Grid) (R C : Nat) (ps pe : Pos)
    (hWF : WFgrid g R C) (hroles : RolesOk g R C ps pe)
    (d : GridData) (R2 C2 : Nat) (s e : Pos) (ws : List WallData)
    (hgood : GoodPayload d R2 C2 s e ws) (rnd : Nat) :
    ∃ g4, g.loadGridData (some d) rnd = (true, g4) ∧
      g4.rows = some (R2 : Int) ∧ g4.cols = some (C2 : Int) ∧
      g4.startNode = some s ∧ g4.endNode = some e ∧ shape g4.nodes R2 C2 ∧
      (∀ q : Pos, ∀ n, lookup2 g4.nodes q.1 q.2 = some n →
        (n.isStart = true ↔ q = s) ∧ (n.isEnd = true ↔ q = e) ∧
        (n.isWall = true ↔
          ((∃ w ∈ ws, wallHits d w q) ∧ q ≠ s ∧ q ≠ e))) := by
  obtain ⟨hdr, hdc, hR2, hC2, hds, hde, hsb1, hsb2, heb1, heb2, hsne, hdw⟩ :=
    hgood
  have hphase1 : ∃ gA, loadStage1 g d = .ok gA ∧ Phase1Ok gA R2 C2 := by
    unfold loadStage1
    by_cases hdim : d.rows ≠ g.rows ∨ d.cols ≠ g.cols
    · rw [if_pos hdim, hdr, hdc]
      exact ⟨defaultGrid (some (R2 : Int)) (some (C2 : Int)) R2 C2,
        resize_ok g R2 C2 hR2 hC2, defaultGrid_phase1 _ _ R2 C2 rfl rfl⟩
    · rw [if_neg hdim]
      push_neg at hdim
      have hReq : R2 = R := by
        have h1 : (some (R2 : Int) : Option Int) = some (R : Int) := by
          rw [← hdr, hdim.1, hWF.1]
        exact Nat.cast_injective (Option.some.inj h1)
      have hCeq : C2 = C := by
        have h1 : (some (C2 : Int) : Option Int) = some (C : Int) := by
          rw [← hdc, hdim.2, hWF.2.1]
        exact Nat.cast_injective (Option.some.inj h1)
      subst hReq
      subst hCeq
      obtain ⟨g1, gD, hcw, hsd, hp1⟩ := sameDims_phase1 g R2 C2 ps pe hWF hroles
      refine ⟨gD, ?_, hp1⟩
      rw [hcw]
      exact hsd
  obtain ⟨gA, hbr, hp1⟩ := hphase1
  obtain ⟨hAr, hAc, hAs, hAe, hAsh, hAcell⟩ := hp1
  obtain ⟨hWr, hWc, hWs, hWe, hWsh, hWcell⟩ :=
    restoreWallsGo_spec d rnd ws gA R2 C2 hAr hAc hAsh
  set gW : Grid := ws.foldl (restoreStep d rnd) gA with hgW
  have hrwEq : restoreWalls d rnd gA = gW := by
    unfold restoreWalls
    rw [hdw]
  have hWcells : ∀ q : Pos, ∀ n, lookup2 gW.nodes q.1 q.2 = some n →
      (n.isStart = true → q = ((R2 / 4 : Nat), (C2 / 4 : Nat))) ∧
      (n.isEnd = true → q = ((3 * R2 / 4 : Nat), (3 * C2 / 4 : Nat))) ∧
      (n.isWall = true ↔ ∃ w ∈ ws, wallHits d w q) := by
    intro q n hn
    obtain ⟨hb1, hb2⟩ := lookup2_bounds_of_shape gW.nodes R2 C2 hWsh q n hn
    have hA : (lookup2 gA.nodes q.1 q.2).isSome = true :=
      (lookup2_isSome_of_shape gA.nodes R2 C2 hAsh q.1 q.2).mpr ⟨hb1, hb2⟩
    obtain ⟨m, hm⟩ := Option.isSome_iff_exists.mp hA
    obtain ⟨n', hn', hs', he', hw'⟩ := hWcell q m hm
    rw [hn] at hn'
    cases Option.some.inj hn'
    obtain ⟨ha1, ha2, ha3⟩ := hAcell q m hm
    refine ⟨?_, ?_, ?_⟩
    · intro h
      exact ha2 (hs'.symm.trans h)
    · intro h
      exact ha3 (he'.symm.trans h)
    · rw [hw']
      constructor
      · intro h
        rcases h with h | h
        · exact absurd h (by rw [ha1]; exact Bool.noConfusion)
        · exact h
      · exact fun h => Or.inr h
  obtain ⟨g4, hsetS, hsetE, h4r, h4c, h4s, h4e, h4sh, h4cells⟩ :=
    finalize_roles gW R2 C2 s e (fun q => ∃ w ∈ ws, wallHits d w q)
      (hWr.trans hAr) (hWc.trans hAc) hWsh ⟨hsb1, hsb2⟩ ⟨heb1, heb2⟩ hsne
      ((R2 / 4 : Nat), (C2 / 4 : Nat)) ((3 * R2 / 4 : Nat), (3 * C2 / 4 : Nat))
      (hWs.trans hAs) (hWe.trans hAe) hWcells
  have hload : loadBody g d rnd = .ok g4 := by
    unfold loadBody
    rw [hbr]
    simp only [exBind_ok]
    rw [hrwEq]
    have hstart1 : loadSetStart gW d = .ok (startUpdated gW s) := by
      unfold loadSetStart
      rw [hds]
      exact hsetS
    rw [hstart1]
    simp only [exBind_ok]
    unfold loadSetEnd
    rw [hde]
    exact hsetE
  refine ⟨g4, ?_, h4r.trans (hWr.trans hAr), h4c.trans (hWc.trans hAc),
    h4s, h4e, h4sh, h4cells⟩
  show (match loadBody g d rnd with
        | .ok g2 => (true, g2)
        | .error g2 => (false, g2)) = (true, g4)
  rw [hload]

/-- The wall list `getGridData` accumulates over `idxs`. -/
def wallEntries (g : Grid) (idxs : List Pos) : List WallData :=
  idxs.filterMap (fun p =>
    match lookup2 g.nodes p.1 p.2 with
    | none => none
    | some n =>
      if n.isWall then
        some { row := (n.row : Int), col := (n.col : Int),
               type := some (exportType n.wallType) }
      else none)

theorem exportStep_spec (acc : GridData) (n : Node) :
    (exportStep acc n).rows = acc.rows ∧ (exportStep acc n).cols = acc.cols ∧
    (exportStep acc n).startNode =
      (if n.isStart then some { row := (n.row : Int), col := (n.col : Int) }
       else acc.startNode) ∧
    (exportStep acc n).endNode =
      (if n.isEnd then some { row := (n.row : Int), col := (n.col : Int) }
       else acc.endNode) ∧
    (exportStep acc n).walls = acc.walls.map (fun ws0 => ws0 ++
      (if n.isWall then
        [{ row := (n.row : Int), col := (n.col : Int),
           type := some (exportType n.wallType) }]
       else [])) := by
  by_cases h1 : n.isWall <;> by_cases h2 : n.isStart <;>
    by_cases h3 : n.isEnd <;>
    simp [exportStep, h1, h2, h3] <;> cases acc.walls <;> simp


theorem getGridDataGo_spec (g : Grid) (ps pe : Pos)
    (hflag : ∀ q : Pos, ∀ n, lookup2 g.nodes q.1 q.2 = some n →
      (n.isStart = true ↔ q = ps) ∧ (n.isEnd = true ↔ q = pe) ∧
      n.row = q.1 ∧ n.col = q.2) :
    ∀ (idxs : List Pos) (acc : GridData),
    (∀ p ∈ idxs, (lookup2 g.nodes p.1 p.2).isSome = true) →
    ∃ dd, getGridDataGo g idxs acc = some dd ∧
      dd.rows = acc.rows ∧ dd.cols = acc.cols ∧
      dd.startNode = (if ps ∈ idxs then
          some { row := (ps.1 : Int), col := (ps.2 : Int) }
        else acc.startNode) ∧
      dd.endNode = (if pe ∈ idxs then
          some { row := (pe.1 : Int), col := (pe.2 : Int) }
        else acc.endNode) ∧
      dd.walls = acc.walls.map (fun ws0 => ws0 ++ wallEntries g idxs) := by
  intro idxs
  induction idxs with
  | nil =>
    intro acc _
    refine ⟨acc, rfl, rfl, rfl, by simp, by simp, ?_⟩
    unfold wallEntries
    cases acc.walls <;> simp
  | cons p rest ih =>
    intro acc hpres
    obtain ⟨n, hn⟩ := Option.isSome_iff_exists.mp
      (hpres p (List.mem_cons_self p rest))
    obtain ⟨hfs, hfe, hrow, hcol⟩ := hflag p n hn
    obtain ⟨dd, hdd, e1, e2, e3, e4, e5⟩ :=
      ih (exportStep acc n) (fun q hq => hpres q (List.mem_cons_of_mem p hq))
    obtain ⟨s1, s2, s3, s4, s5⟩ := exportStep_spec acc n
    have hc : g.cellAt p = some n := hn
    have hstep : getGridDataGo g (p :: rest) acc =
        getGridDataGo g rest (exportStep acc n) := by
      show (match g.cellAt p with
            | none => none
            | some n0 => getGridDataGo g rest (exportStep acc n0)) = _
      rw [hc]
    have hwe : wallEntries g (p :: rest) =
        (if n.isWall then
          [{ row := (n.row : Int), col := (n.col : Int),
             type := some (exportType n.wallType) }]
         else []) ++ wallEntries g rest := by
      by_cases hw : n.isWall <;>
        simp [wallEntries, List.filterMap_cons, hn, hw]
    refine ⟨dd, hstep.trans hdd, e1.trans s1, e2.trans s2, ?_, ?_, ?_⟩
    · rw [e3, s3]
      by_cases hmem : ps ∈ rest
      · rw [if_pos hmem, if_pos (List.mem_cons_of_mem p hmem)]
      · rw [if_neg hmem]
        by_cases hst : n.isStart = true
        · have hpps : p = ps := hfs.mp hst
          rw [if_pos hst,
            if_pos (by rw [← hpps]; exact List.mem_cons_self p rest)]
          rw [hrow, hcol, hpps]
        · have hppsne : p ≠ ps := fun h => hst (hfs.mpr h)
          rw [if_neg hst, if_neg (by
            intro hmem2
            rcases List.mem_cons.mp hmem2 with h | h
            · exact hppsne h.symm
            · exact hmem h)]
    · rw [e4, s4]
      by_cases hmem : pe ∈ rest
      · rw [if_pos hmem, if_pos (List.mem_cons_of_mem p hmem)]
      · rw [if_neg hmem]
        by_cases hst : n.isEnd = true
        · have hpps : p = pe := hfe.mp hst
          rw [if_pos hst,
            if_pos (by rw [← hpps]; exact List.mem_cons_self p rest)]
          rw [hrow, hcol, hpps]
        · have hppsne : p ≠ pe := fun h => hst (hfe.mpr h)
          rw [if_neg hst, if_neg (by
            intro hmem2
            rcases List.mem_cons.mp hmem2 with h | h
            · exact hppsne h.symm
            · exact hmem h)]
    · rw [e5, s5, hwe]
      cases acc.walls with
      | none => rfl
      | some ws0 => simp [List.append_assoc]

theorem getGridData_spec (g : Grid) (R C : Nat) (ps pe : Pos)
    (hWF : WFgrid g R C) (hroles : RolesOk g R C ps pe) :
    ∃ dd, g.getGridData = some dd ∧ dd.rows = g.rows ∧ dd.cols = g.cols ∧
      dd.walls = some (wallEntries g (cellsIdx g)) ∧
      dd.startNode = some { row := (ps.1 : Int), col := (ps.2 : Int) } ∧
      dd.endNode = some { row := (pe.1 : Int), col := (pe.2 : Int) } := by
  have hflag : ∀ q : Pos, ∀ n, lookup2 g.nodes q.1 q.2 = some n →
      (n.isStart = true ↔ q = ps) ∧ (n.isEnd = true ↔ q = pe) ∧
      n.row = q.1 ∧ n.col = q.2 := by
    intro q n hn
    obtain ⟨hb1, hb2⟩ :=
      lookup2_bounds_of_shape g.nodes R C (WFgrid_shape g R C hWF) q n hn
    have hcd : cellD g.nodes (q.1, q.2) = n := by
      unfold cellD
      rw [hn]
      rfl
    have h1 := RolesOk_lookup g R C ps pe hWF hroles q n hn
    have h2 := hWF.2.2.2.2.2.2 q.1 hb1 q.2 hb2
    rw [hcd] at h2
    exact ⟨h1.1, h1.2, h2.2.1, h2.2.2⟩
  obtain ⟨dd, hdd, e1, e2, e3, e4, e5⟩ :=
    getGridDataGo_spec g ps pe hflag (cellsIdx g)
      { rows := g.rows, cols := g.cols, walls := some [], startNode := none,
        endNode := none }
      (WFgrid_cells_exist g R C hWF)
  have hpsmem : ps ∈ cellsIdx g := by
    rw [cellsIdx_mem, hWF.1, hWF.2.1]
    simp only [natDim, Int.toNat_natCast]
    exact ⟨hroles.2.2.2.1, hroles.2.2.2.2.1⟩
  have hpemem : pe ∈ cellsIdx g := by
    rw [cellsIdx_mem, hWF.1, hWF.2.1]
    simp only [natDim, Int.toNat_natCast]
    exact ⟨hroles.2.2.2.2.2.1, hroles.2.2.2.2.2.2.1⟩
  rw [if_pos hpsmem] at e3
  rw [if_pos hpemem] at e4
  refine ⟨dd, hdd, e1, e2, ?_, e3, e4⟩
  rw [e5]
  simp

theorem wallEntries_mem (g : Grid) (w : WallData) (idxs : List Pos) :
    w ∈ wallEntries g idxs ↔ ∃ p ∈ idxs, ∃ m,
      lookup2 g.nodes p.1 p.2 = some m ∧ m.isWall = true ∧
      w = { row := (m.row : Int), col := (m.col : Int),
            type := some (exportType m.wallType) } := by
  unfold wallEntries
  rw [List.mem_filterMap]
  constructor
  · intro ⟨p, hp, hfp⟩
    cases hl : lookup2 g.nodes p.1 p.2 with
    | none =>
      rw [hl] at hfp
      have hfp2 : (none : Option WallData) = some w := hfp
      exact Option.noConfusion hfp2
    | some m =>
      rw [hl] at hfp
      have hfp2 : (if m.isWall then
          some ({ row := (m.row : Int), col := (m.col : Int),
                  type := some (exportType m.wallType) } : WallData)
        else none) = some w := hfp
      by_cases hw : m.isWall = true
      · rw [if_pos hw] at hfp2
        exact ⟨p, hp, m, hl, hw, (Option.some.inj hfp2).symm⟩
      · rw [if_neg hw] at hfp2
        exact Option.noConfusion hfp2
  · intro ⟨p, hp, m, hl, hw, hweq⟩
    refine ⟨p, hp, ?_⟩
    show (match lookup2 g.nodes p.1 p.2 with
          | none => none
          | some n0 =>
            if n0.isWall then
              some ({ row := (n0.row : Int), col := (n0.col : Int),
                      type := some (exportType n0.wallType) } : WallData)
            else none) = some w
    rw [hl]
    show (if m.isWall then
        some ({ row := (m.row : Int), col := (m.col : Int),
                type := some (exportType m.wallType) } : WallData)
      else none) = some w
    rw [if_pos hw, hweq]

theorem wallEntries_hits (g : Grid) (R C : Nat) (ps pe : Pos)
    (hWF : WFgrid g R C) (hroles : RolesOk g R C ps pe)
    (dd : GridData)
    (hs : dd.startNode = some { row := (ps.1 : Int), col := (ps.2 : Int) })
    (he : dd.endNode = some { row := (pe.1 : Int), col := (pe.2 : Int) })
    (q : Pos) (n : Node) (hn : lookup2 g.nodes q.1 q.2 = some n) :
    (∃ w ∈ wallEntries g (cellsIdx g), wallHits dd w q) ↔ n.isWall = true := by
  obtain ⟨hb1, hb2⟩ :=
    lookup2_bounds_of_shape g.nodes R C (WFgrid_shape g R C hWF) q n hn
  have hcoord : ∀ p : Pos, ∀ m : Node, lookup2 g.nodes p.1 p.2 = some m →
      m.row = p.1 ∧ m.col = p.2 := by
    intro p m hm
    obtain ⟨hpb1, hpb2⟩ :=
      lookup2_bounds_of_shape g.nodes R C (WFgrid_shape g R C hWF) p m hm
    have hcd : cellD g.nodes (p.1, p.2) = m := by
      unfold cellD
      rw [hm]
      rfl
    have h2 := hWF.2.2.2.2.2.2 p.1 hpb1 p.2 hpb2
    rw [hcd] at h2
    exact ⟨h2.2.1, h2.2.2⟩
  constructor
  · intro ⟨w, hwmem, hhit⟩
    obtain ⟨p, hpmem, m, hl, hw, hweq⟩ := (wallEntries_mem g w _).mp hwmem
    obtain ⟨hr1, hr2, _, _⟩ := hhit
    obtain ⟨hmr, hmc⟩ := hcoord p m hl
    rw [hweq] at hr1 hr2
    have e1 : (m.row : Int) = (q.1 : Int) := hr1
    have e2 : (m.col : Int) = (q.2 : Int) := hr2
    have hpq : p = q := by
      have e1' : m.row = q.1 := Nat.cast_injective e1
      have e2' : m.col = q.2 := Nat.cast_injective e2
      exact Prod.ext (hmr.symm.trans e1') (hmc.symm.trans e2')
    rw [hpq, hn] at hl
    cases Option.some.inj hl
    exact hw
  · intro hw
    obtain ⟨hmr, hmc⟩ := hcoord q n hn
    have hqps : q ≠ ps := by
      intro hcon
      have hceq : cellD g.nodes ps = n := by
        rw [← hcon]
        unfold cellD
        rw [hn]
        rfl
      have hwallps := hroles.2.2.2.2.2.2.2.2.1
      rw [hceq, hw] at hwallps
      exact Bool.noConfusion hwallps
    have hqpe : q ≠ pe := by
      intro hcon
      have hceq : cellD g.nodes pe = n := by
        rw [← hcon]
        unfold cellD
        rw [hn]
        rfl
      have hwallpe := hroles.2.2.2.2.2.2.2.2.2
      rw [hceq, hw] at hwallpe
      exact Bool.noConfusion hwallpe
    refine ⟨{ row := (n.row : Int), col := (n.col : Int),
              type := some (exportType n.wallType) }, ?_, ?_, ?_, ?_, ?_⟩
    · apply (wallEntries_mem g _ _).mpr
      refine ⟨q, ?_, n, hn, hw, rfl⟩
      rw [cellsIdx_mem, hWF.1, hWF.2.1]
      simp only [natDim, Int.toNat_natCast]
      exact ⟨hb1, hb2⟩
    · show (n.row : Int) = (q.1 : Int)
      rw [hmr]
    · show (n.col : Int) = (q.2 : Int)
      rw [hmc]
    · unfold posMatches
      rw [hs]
      simp only [Bool.and_eq_false_iff, decide_eq_false_iff_not]
      by_cases h1 : (ps.1 : Int) = (n.row : Int)
      · right
        intro h2
        apply hqps
        have e1 : ps.1 = n.row := Nat.cast_injective h1
        have e2 : ps.2 = n.col := Nat.cast_injective h2
        exact Prod.ext (hmr.symm.trans e1.symm) (hmc.symm.trans e2.symm)
      · left
        exact h1
    · unfold posMatches
      rw [he]
      simp only [Bool.and_eq_false_iff, decide_eq_false_iff_not]
      by_cases h1 : (pe.1 : Int) = (n.row : Int)
      · right
        intro h2
        apply hqpe
        have e1 : pe.1 = n.row := Nat.cast_injective h1
        have e2 : pe.2 = n.col := Nat.cast_injective h2
        exact Prod.ext (hmr.symm.trans e1.symm) (hmc.symm.trans e2.symm)
      · left
        exact h1

/-- The cell fields `getGridData` reads (everything except search scratch). -/
def exportView (n : Node) : Nat × Nat × Bool × Bool × Bool × Option Nat :=
  (n.row, n.col, n.isWall, n.isStart, n.isEnd, n.wallType)

theorem exportStep_view (acc : GridData) (n m : Node)
    (h : exportView n = exportView m) : exportStep acc n = exportStep acc m := by
  unfold exportView at h
  simp only [Prod.mk.injEq] at h
  obtain ⟨h1, h2, h3, h4, h5, h6⟩ := h
  unfold exportStep
  rw [h1, h2, h3, h4, h5, h6]

theorem getGridDataGo_congr (g2 g : Grid)
    (hmap : ∀ q : Pos, (lookup2 g2.nodes q.1 q.2).map exportView =
      (lookup2 g.nodes q.1 q.2).map exportView) :
    ∀ (idxs : List Pos) (acc : GridData),
      getGridDataGo g2 idxs acc = getGridDataGo g idxs acc := by
  intro idxs
  induction idxs with
  | nil => intro acc; rfl
  | cons p rest ih =>
    intro acc
    have h := hmap p
    show (match g2.cellAt p with
          | none => none
          | some n => getGridDataGo g2 rest (exportStep acc n)) =
        (match g.cellAt p with
          | none => none
          | some n => getGridDataGo g rest (exportStep acc n))
    cases h1 : lookup2 g.nodes p.1 p.2 with
    | none =>
      rw [h1] at h
      have h2 : lookup2 g2.nodes p.1 p.2 = none := by
        cases hx : lookup2 g2.nodes p.1 p.2 with
        | none => rfl
        | some m =>
          rw [hx] at h
          exact Option.noConfusion h
      have hc1 : g.cellAt p = none := h1
      have hc2 : g2.cellAt p = none := h2
      rw [hc1, hc2]
    | some n =>
      rw [h1] at h
      cases h2 : lookup2 g2.nodes p.1 p.2 with
      | none =>
        rw [h2] at h
        exact Option.noConfusion h
      | some m =>
        rw [h2] at h
        simp only [Option.map_some'] at h
        have hc1 : g.cellAt p = some n := h1
        have hc2 : g2.cellAt p = some m := h2
        rw [hc1, hc2]
        show getGridDataGo g2 rest (exportStep acc m) =
          getGridDataGo g rest (exportStep acc n)
        rw [exportStep_view acc m n (Option.some.inj h)]
        exact ih (exportStep acc n)

theorem getGridData_congr (g2 g : Grid) (hr : g2.rows = g.rows)
    (hc : g2.cols = g.cols)
    (hmap : ∀ q : Pos, (lookup2 g2.nodes q.1 q.2).map exportView =
      (lookup2 g.nodes q.1 q.2).map exportView) :
    g2.getGridData = g.getGridData := by
  unfold Grid.getGridData
  rw [cellsIdx_congr g2 g hr hc, hr, hc]
  exact getGridDataGo_congr g2 g hmap (cellsIdx g) _

/-- C2: for every well-formed grid satisfying the start/goal invariant,
exporting with `getGridData` and re-importing the result with
`loadGridData` succeeds and yields a grid with the same dimensions, the
same start and goal references, and pointwise identical
obstacle/start/goal flags on every cell; moreover the serialized state
depends only on each cell's coordinates and wall/start/goal data, never on
the search-scratch fields (any grid agreeing on `exportView` — row, col,
`isWall`, `isStart`, `isEnd`, `wallType` — serializes identically). -/
theorem claim_C2_export_import_roundtrip (g : Grid) (R C : Nat) (ps pe : Pos)
    (hWF : WFgrid g R C) (hroles : RolesOk g R C ps pe) (rnd : Nat) :
    (∃ dd g4, g.getGridData = some dd ∧
      g.loadGridData (some dd) rnd = (true, g4) ∧
      g4.rows = g.rows ∧ g4.cols = g.cols ∧
      g4.startNode = g.startNode ∧ g4.endNode = g.endNode ∧
      shape g4.nodes R C ∧
      (∀ q : Pos, ∀ n n', lookup2 g.nodes q.1 q.2 = some n →
        lookup2 g4.nodes q.1 q.2 = some n' →
        n'.isWall = n.isWall ∧ n'.isStart = n.isStart ∧
        n'.isEnd = n.isEnd)) ∧
    (∀ g2 : Grid, g2.rows = g.rows → g2.cols = g.cols →
      (∀ q : Pos, (lookup2 g2.nodes q.1 q.2).map exportView =
        (lookup2 g.nodes q.1 q.2).map exportView) →
      g2.getGridData = g.getGridData) := by
  refine ⟨?_, fun g2 hr hc hm => getGridData_congr g2 g hr hc hm⟩
  obtain ⟨dd, hdd, er, ec, ew, es, ee⟩ := getGridData_spec g R C ps pe hWF hroles
  have hgood : GoodPayload dd R C ps pe (wallEntries g (cellsIdx g)) :=
    ⟨er.trans hWF.1, ec.trans hWF.2.1, hWF.2.2.1, hWF.2.2.2.1, es, ee,
     hroles.2.2.2.1, hroles.2.2.2.2.1, hroles.2.2.2.2.2.1,
     hroles.2.2.2.2.2.2.1, hroles.2.2.1, ew⟩
  obtain ⟨g4, hload, h4r, h4c, h4s, h4e, h4sh, h4cells⟩ :=
    loadGridData_good g R C ps pe hWF hroles dd R C ps pe
      (wallEntries g (cellsIdx g)) hgood rnd
  refine ⟨dd, g4, hdd, hload, h4r.trans hWF.1.symm, h4c.trans hWF.2.1.symm,
    h4s.trans hroles.1.symm, h4e.trans hroles.2.1.symm, h4sh, ?_⟩
  intro q n n' hn hn'
  obtain ⟨c1, c2, c3⟩ := h4cells q n' hn'
  have hiffS := (RolesOk_lookup g R C ps pe hWF hroles q n hn).1
  have hiffE := (RolesOk_lookup g R C ps pe hWF hroles q n hn).2
  have hwiff := wallEntries_hits g R C ps pe hWF hroles dd es ee q n hn
  have hqps : n.isWall = true → q ≠ ps := by
    intro hw hcon
    have hceq : cellD g.nodes ps = n := by
      rw [← hcon]
      unfold cellD
      rw [hn]
      rfl
    have h9 := hroles.2.2.2.2.2.2.2.2.1
    rw [hceq, hw] at h9
    exact Bool.noConfusion h9
  have hqpe : n.isWall = true → q ≠ pe := by
    intro hw hcon
    have hceq : cellD g.nodes pe = n := by
      rw [← hcon]
      unfold cellD
      rw [hn]
      rfl
    have h9 := hroles.2.2.2.2.2.2.2.2.2
    rw [hceq, hw] at h9
    exact Bool.noConfusion h9
  have boolEq : ∀ (a b : Bool) (P : Prop), (a = true ↔ P) →
      (b = true ↔ P) → a = b := by
    intro a b P h1 h2
    cases a with
    | true => exact (h2.mpr (h1.mp rfl)).symm
    | false =>
      cases b with
      | true => exact absurd (h1.mpr (h2.mp rfl)) (by simp)
      | false => rfl
  have hnWall : n.isWall = true ↔
      ((∃ w ∈ wallEntries g (cellsIdx g), wallHits dd w q) ∧
        q ≠ ps ∧ q ≠ pe) :=
    ⟨fun hw => ⟨hwiff.mpr hw, hqps hw, hqpe hw⟩, fun h => hwiff.mp h.1⟩
  exact ⟨boolEq _ _ _ c3 hnWall, boolEq _ _ _ c1 hiffS, boolEq _ _ _ c2 hiffE⟩

/-- Witness for C2 at the concrete 3×3 grid with one wall. -/
theorem claim_C2_export_import_roundtrip_witness :
    WFgrid sampleGrid3Wall 3 3 ∧ RolesOk sampleGrid3Wall 3 3 (0, 0) (2, 2) ∧
    ((∃ dd g4, sampleGrid3Wall.getGridData = some dd ∧
      sampleGrid3Wall.loadGridData (some dd) 1 = (true, g4) ∧
      g4.rows = sampleGrid3Wall.rows ∧ g4.cols = sampleGrid3Wall.cols ∧
      g4.startNode = sampleGrid3Wall.startNode ∧
      g4.endNode = sampleGrid3Wall.endNode ∧
      shape g4.nodes 3 3 ∧
      (∀ q : Pos, ∀ n n', lookup2 sampleGrid3Wall.nodes q.1 q.2 = some n →
        lookup2 g4.nodes q.1 q.2 = some n' →
        n'.isWall = n.isWall ∧ n'.isStart = n.isStart ∧
        n'.isEnd = n.isEnd)) ∧
    (∀ g2 : Grid, g2.rows = sampleGrid3Wall.rows →
      g2.cols = sampleGrid3Wall.cols →
      (∀ q : Pos, (lookup2 g2.nodes q.1 q.2).map exportView =
        (lookup2 sampleGrid3Wall.nodes q.1 q.2).map exportView) →
      g2.getGridData = sampleGrid3Wall.getGridData)) :=
  ⟨by decide, by decide,
    claim_C2_export_import_roundtrip sampleGrid3Wall 3 3 (0, 0) (2, 2)
      (by decide) (by decide) 1⟩

/-! ## Preservation of the start/goal invariant (C4) -/

theorem RolesOk_of_lookup (g : Grid) (R C : Nat) (ps pe : Pos)
    (hsh : shape g.nodes R C)
    (hs : g.startNode = some ps) (he : g.endNode = some pe)
    (hne : ps ≠ pe) (hb1 : ps.1 < R) (hb2 : ps.2 < C)
    (hb3 : pe.1 < R) (hb4 : pe.2 < C)
    (hcells : ∀ q : Pos, ∀ n, lookup2 g.nodes q.1 q.2 = some n →
      (n.isStart = true ↔ q = ps) ∧ (n.isEnd = true ↔ q = pe) ∧
      (q = ps → n.isWall = false) ∧ (q = pe → n.isWall = false)) :
    RolesOk g R C ps pe := by
  refine ⟨hs, he, hne, hb1, hb2, hb3, hb4, ?_, ?_, ?_⟩
  · intro r hr c hc
    obtain ⟨n, hn⟩ := Option.isSome_iff_exists.mp
      ((lookup2_isSome_of_shape g.nodes R C hsh r c).mpr ⟨hr, hc⟩)
    have hcd : cellD g.nodes (r, c) = n := by
      unfold cellD
      rw [hn]
      rfl
    rw [hcd]
    exact ⟨(hcells (r, c) n hn).1, (hcells (r, c) n hn).2.1⟩
  · obtain ⟨n, hn⟩ := Option.isSome_iff_exists.mp
      ((lookup2_isSome_of_shape g.nodes R C hsh ps.1 ps.2).mpr ⟨hb1, hb2⟩)
    have hcd : cellD g.nodes ps = n := by
      unfold cellD
      rw [hn]
      rfl
    rw [hcd]
    exact (hcells ps n hn).2.2.1 rfl
  · obtain ⟨n, hn⟩ := Option.isSome_iff_exists.mp
      ((lookup2_isSome_of_shape g.nodes R C hsh pe.1 pe.2).mpr ⟨hb3, hb4⟩)
    have hcd : cellD g.nodes pe = n := by
      unfold cellD
      rw [hn]
      rfl
    rw [hcd]
    exact (hcells pe n hn).2.2.2 rfl

theorem startUpdated_roles (g : Grid) (R C : Nat) (ps pe : Pos)
    (hWF : WFgrid g R C) (hroles : RolesOk g R C ps pe)
    (s : Pos) (hs1 : s.1 < R) (hs2 : s.2 < C) (hne : s ≠ pe) :
    g.setStartNode (some (s.1 : Int)) (some (s.2 : Int)) =
      .ok (startUpdated g s) ∧ RolesOk (startUpdated g s) R C s pe := by
  have hsh := WFgrid_shape g R C hWF
  have hok := setStartNode_ok g R C hsh (s.1 : Int) (s.2 : Int)
    (by positivity) (by exact_mod_cast hs1) (by positivity)
    (by exact_mod_cast hs2)
  rw [Int.toNat_natCast, Int.toNat_natCast] at hok
  have hsPair : ((s.1 : Nat), (s.2 : Nat)) = s := rfl
  rw [hsPair] at hok
  refine ⟨hok, ?_⟩
  have hlook : ∀ q : Pos, lookup2 (startUpdated g s).nodes q.1 q.2 =
      if q = s then
        ((if q = ps then
            (lookup2 g.nodes q.1 q.2).map (fun n => { n with isStart := false })
          else lookup2 g.nodes q.1 q.2)).map Node.setAsStart
      else
        (if q = ps then
            (lookup2 g.nodes q.1 q.2).map (fun n => { n with isStart := false })
          else lookup2 g.nodes q.1 q.2) := by
    intro q
    show lookup2 (setCell (clearStartFlag g).nodes s Node.setAsStart) q.1 q.2 = _
    rw [lookup2_setCell _ s Node.setAsStart q,
      clearStartFlag_lookup g ps hroles.1 q]
  refine RolesOk_of_lookup _ R C s pe
    (shape_setCell _ R C _ _ (clearStartFlag_shape g R C hsh)) rfl
    (((clearStartFlag_fields g).2.2.2).trans hroles.2.1) hne hs1 hs2
    hroles.2.2.2.2.2.1 hroles.2.2.2.2.2.2.1 ?_
  intro q n hn
  rw [hlook q] at hn
  have hgiff := RolesOk_lookup g R C ps pe hWF hroles
  by_cases hqs : q = s
  · rw [if_pos hqs] at hn
    have hflags : n.isStart = true ∧ n.isEnd = false ∧ n.isWall = false := by
      by_cases hqp : q = ps
      · rw [if_pos hqp] at hn
        cases hl : lookup2 g.nodes q.1 q.2 with
        | none =>
          rw [hl] at hn
          exact Option.noConfusion hn
        | some m =>
          rw [hl] at hn
          simp only [Option.map_some'] at hn
          cases Option.some.inj hn
          exact ⟨rfl, rfl, rfl⟩
      · rw [if_neg hqp] at hn
        cases hl : lookup2 g.nodes q.1 q.2 with
        | none =>
          rw [hl] at hn
          exact Option.noConfusion hn
        | some m =>
          rw [hl] at hn
          simp only [Option.map_some'] at hn
          cases Option.some.inj hn
          exact ⟨rfl, rfl, rfl⟩
    refine ⟨?_, ?_, ?_, ?_⟩
    · constructor
      · intro _
        exact hqs
      · intro _
        exact hflags.1
    · constructor
      · intro hcon
        rw [hflags.2.1] at hcon
        exact Bool.noConfusion hcon
      · intro hqpe
        exact absurd (hqs.symm.trans hqpe) hne
    · intro _
      exact hflags.2.2
    · intro _
      exact hflags.2.2
  · rw [if_neg hqs] at hn
    by_cases hqp : q = ps
    · rw [if_pos hqp] at hn
      cases hl : lookup2 g.nodes q.1 q.2 with
      | none =>
        rw [hl] at hn
        exact Option.noConfusion hn
      | some m =>
        rw [hl] at hn
        simp only [Option.map_some'] at hn
        cases Option.some.inj hn
        obtain ⟨f1, f2⟩ := hgiff q m hl
        refine ⟨?_, ?_, ?_, ?_⟩
        · constructor
          · intro hcon
            exact absurd hcon (by simp)
          · intro hcon
            exact absurd hcon hqs
        · exact f2
        · intro hcon
          exact absurd hcon hqs
        · intro hqpe
          show m.isWall = false
          have hpspe : ps = pe := hqp.symm.trans hqpe
          have hcd : cellD g.nodes ps = m := by
            unfold cellD
            rw [← hqp, hl]
            rfl
          have h9 := hroles.2.2.2.2.2.2.2.2.1
          rw [hcd] at h9
          exact h9
    · rw [if_neg hqp] at hn
      obtain ⟨f1, f2⟩ := hgiff q n hn
      refine ⟨?_, ?_, ?_, ?_⟩
      · constructor
        · intro hcon
          exact absurd (f1.mp hcon) hqp
        · intro hcon
          exact absurd hcon hqs
      · exact f2
      · intro hcon
        exact absurd hcon hqs
      · intro hqpe
        have hcd : cellD g.nodes pe = n := by
          unfold cellD
          rw [← hqpe, hn]
          rfl
        have h9 := hroles.2.2.2.2.2.2.2.2.2
        rw [hcd] at h9
        exact h9

theorem endUpdated_roles (g : Grid) (R C : Nat) (ps pe : Pos)
    (hWF : WFgrid g R C) (hroles : RolesOk g R C ps pe)
    (e : Pos) (he1 : e.1 < R) (he2 : e.2 < C) (hne : e ≠ ps) :
    g.setEndNode (some (e.1 : Int)) (some (e.2 : Int)) =
      .ok (endUpdated g e) ∧ RolesOk (endUpdated g e) R C ps e := by
  have hsh := WFgrid_shape g R C hWF
  have hok := setEndNode_ok g R C hsh (e.1 : Int) (e.2 : Int)
    (by positivity) (by exact_mod_cast he1) (by positivity)
    (by exact_mod_cast he2)
  rw [Int.toNat_natCast, Int.toNat_natCast] at hok
  have hePair : ((e.1 : Nat), (e.2 : Nat)) = e := rfl
  rw [hePair] at hok
  refine ⟨hok, ?_⟩
  have hlook : ∀ q : Pos, lookup2 (endUpdated g e).nodes q.1 q.2 =
      if q = e then
        ((if q = pe then
            (lookup2 g.nodes q.1 q.2).map (fun n => { n with isEnd := false })
          else lookup2 g.nodes q.1 q.2)).map Node.setAsEnd
      else
        (if q = pe then
            (lookup2 g.nodes q.1 q.2).map (fun n => { n with isEnd := false })
          else lookup2 g.nodes q.1 q.2) := by
    intro q
    show lookup2 (setCell (clearEndFlag g).nodes e Node.setAsEnd) q.1 q.2 = _
    rw [lookup2_setCell _ e Node.setAsEnd q,
      clearEndFlag_lookup g pe hroles.2.1 q]
  refine RolesOk_of_lookup _ R C ps e
    (shape_setCell _ R C _ _ (clearEndFlag_shape g R C hsh))
    (((clearEndFlag_fields g).2.2.1).trans hroles.1) rfl
    (fun h => hne h.symm) hroles.2.2.2.1 hroles.2.2.2.2.1 he1 he2 ?_
  intro q n hn
  rw [hlook q] at hn
  have hgiff := RolesOk_lookup g R C ps pe hWF hroles
  by_cases hqe : q = e
  · rw [if_pos hqe] at hn
    have hflags : n.isEnd = true ∧ n.isStart = false ∧ n.isWall = false := by
      by_cases hqp : q = pe
      · rw [if_pos hqp] at hn
        cases hl : lookup2 g.nodes q.1 q.2 with
        | none =>
          rw [hl] at hn
          exact Option.noConfusion hn
        | some m =>
          rw [hl] at hn
          simp only [Option.map_some'] at hn
          cases Option.some.inj hn
          exact ⟨rfl, rfl, rfl⟩
      · rw [if_neg hqp] at hn
        cases hl : lookup2 g.nodes q.1 q.2 with
        | none =>
          rw [hl] at hn
          exact Option.noConfusion hn
        | some m =>
          rw [hl] at hn
          simp only [Option.map_some'] at hn
          cases Option.some.inj hn
          exact ⟨rfl, rfl, rfl⟩
    refine ⟨?_, ?_, ?_, ?_⟩
    · constructor
      · intro hcon
        rw [hflags.2.1] at hcon
        exact Bool.noConfusion hcon
      · intro hqps
        exact absurd (hqe.symm.trans hqps) hne
    · constructor
      · intro _
        exact hqe
      · intro _
        exact hflags.1
    · intro _
      exact hflags.2.2
    · intro _
      exact hflags.2.2
  · rw [if_neg hqe] at hn
    by_cases hqp : q = pe
    · rw [if_pos hqp] at hn
      cases hl : lookup2 g.nodes q.1 q.2 with
      | none =>
        rw [hl] at hn
        exact Option.noConfusion hn
      | some m =>
        rw [hl] at hn
        simp only [Option.map_some'] at hn
        cases Option.some.inj hn
        obtain ⟨f1, f2⟩ := hgiff q m hl
        refine ⟨?_, ?_, ?_, ?_⟩
        · exact f1
        · constructor
          · intro hcon
            exact absurd hcon (by simp)
          · intro hcon
            exact absurd hcon hqe
        · intro hqps
          show m.isWall = false
          have hcd : cellD g.nodes ps = m := by
            unfold cellD
            rw [← hqps, hl]
            rfl
          have h9 := hroles.2.2.2.2.2.2.2.2.1
          rw [hcd] at h9
          exact h9
        · intro hcon
          exact absurd hcon hqe
    · rw [if_neg hqp] at hn
      obtain ⟨f1, f2⟩ := hgiff q n hn
      refine ⟨?_, ?_, ?_, ?_⟩
      · exact f1
      · constructor
        · intro hcon
          exact absurd (f2.mp hcon) hqp
        · intro hcon
          exact absurd hcon hqe
      · intro hqps
        have hcd : cellD g.nodes ps = n := by
          unfold cellD
          rw [← hqps, hn]
          rfl
        have h9 := hroles.2.2.2.2.2.2.2.2.1
        rw [hcd] at h9
        exact h9
      · intro hcon
        exact absurd hcon hqe

theorem toggleWall_keeps_roles (n : Node) :
    (Node.toggleWall n).isStart = n.isStart ∧
    (Node.toggleWall n).isEnd = n.isEnd ∧
    (n.isStart = true ∨ n.isEnd = true → Node.toggleWall n = n) := by
  unfold Node.toggleWall
  by_cases h : n.isStart = false ∧ n.isEnd = false
  · rw [if_pos h]
    refine ⟨rfl, rfl, ?_⟩
    intro hc
    rcases hc with hc | hc
    · rw [hc] at h
      exact absurd h.1 (by simp)
    · rw [hc] at h
      exact absurd h.2 (by simp)
  · rw [if_neg h]
    exact ⟨rfl, rfl, fun _ => rfl⟩

theorem toggleWallAt_roles (g : Grid) (R C : Nat) (ps pe : Pos)
    (hWF : WFgrid g R C) (hroles : RolesOk g R C ps pe) (r c : Nat) :
    RolesOk (g.toggleWallAt r c) R C ps pe := by
  have hgiff := RolesOk_lookup g R C ps pe hWF hroles
  refine RolesOk_of_lookup _ R C ps pe
    (shape_setCell g.nodes R C (r, c) _ (WFgrid_shape g R C hWF))
    hroles.1 hroles.2.1 hroles.2.2.1 hroles.2.2.2.1 hroles.2.2.2.2.1
    hroles.2.2.2.2.2.1 hroles.2.2.2.2.2.2.1 ?_
  intro q n hn
  have hlk : lookup2 (g.toggleWallAt r c).nodes q.1 q.2 =
      if q = (r, c) then (lookup2 g.nodes q.1 q.2).map Node.toggleWall
      else lookup2 g.nodes q.1 q.2 := by
    show lookup2 (setCell g.nodes (r, c) Node.toggleWall) q.1 q.2 = _
    exact lookup2_setCell g.nodes (r, c) _ q
  rw [hlk] at hn
  by_cases hq : q = (r, c)
  · rw [if_pos hq] at hn
    cases hl : lookup2 g.nodes q.1 q.2 with
    | none =>
      rw [hl] at hn
      exact Option.noConfusion hn
    | some m =>
      rw [hl] at hn
      simp only [Option.map_some'] at hn
      cases Option.some.inj hn
      obtain ⟨f1, f2⟩ := hgiff q m hl
      obtain ⟨t1, t2, t3⟩ := toggleWall_keeps_roles m
      refine ⟨by rw [t1]; exact f1, by rw [t2]; exact f2, ?_, ?_⟩
      · intro hqps
        have hms : m.isStart = true := f1.mpr hqps
        rw [t3 (Or.inl hms)]
        have hcd : cellD g.nodes ps = m := by
          unfold cellD
          rw [← hqps, hl]
          rfl
        have h9 := hroles.2.2.2.2.2.2.2.2.1
        rw [hcd] at h9
        exact h9
      · intro hqpe
        have hme : m.isEnd = true := f2.mpr hqpe
        rw [t3 (Or.inr hme)]
        have hcd : cellD g.nodes pe = m := by
          unfold cellD
          rw [← hqpe, hl]
          rfl
        have h9 := hroles.2.2.2.2.2.2.2.2.2
        rw [hcd] at h9
        exact h9
  · rw [if_neg hq] at hn
    obtain ⟨f1, f2⟩ := hgiff q n hn
    refine ⟨f1, f2, ?_, ?_⟩
    · intro hqps
      have hcd : cellD g.nodes ps = n := by
        unfold cellD
        rw [← hqps, hn]
        rfl
      have h9 := hroles.2.2.2.2.2.2.2.2.1
      rw [hcd] at h9
      exact h9
    · intro hqpe
      have hcd : cellD g.nodes pe = n := by
        unfold cellD
        rw [← hqpe, hn]
        rfl
      have h9 := hroles.2.2.2.2.2.2.2.2.2
      rw [hcd] at h9
      exact h9

theorem clearWalls_roles (g : Grid) (R C : Nat) (ps pe : Pos)
    (hWF : WFgrid g R C) (hroles : RolesOk g R C ps pe) :
    ∃ g2, g.clearWalls = .ok g2 ∧ RolesOk g2 R C ps pe := by
  obtain ⟨g2, hrun, hr, hc, hs, he, hsh2, hl⟩ :=
    applyCells_uniform clearWallFn g R C hWF
  have hgiff := RolesOk_lookup g R C ps pe hWF hroles
  refine ⟨g2, hrun, RolesOk_of_lookup g2 R C ps pe hsh2
    (hs.trans hroles.1) (he.trans hroles.2.1) hroles.2.2.1
    hroles.2.2.2.1 hroles.2.2.2.2.1 hroles.2.2.2.2.2.1
    hroles.2.2.2.2.2.2.1 ?_⟩
  intro q n hn
  rw [hl q] at hn
  cases hlg : lookup2 g.nodes q.1 q.2 with
  | none =>
    rw [hlg] at hn
    exact Option.noConfusion hn
  | some m =>
    rw [hlg] at hn
    simp only [Option.map_some'] at hn
    cases Option.some.inj hn
    obtain ⟨f1, f2⟩ := hgiff q m hlg
    obtain ⟨w1, w2, w3⟩ := clearWallFn_flags m
    exact ⟨by rw [w2]; exact f1, by rw [w3]; exact f2,
      fun _ => w1, fun _ => w1⟩

theorem loadGridData_roles (g : Grid) (R C : Nat) (ps pe : Pos)
    (hWF : WFgrid g R C) (hroles : RolesOk g R C ps pe)
    (d : GridData) (R2 C2 : Nat) (s e : Pos) (ws : List WallData)
    (hgood : GoodPayload d R2 C2 s e ws) (rnd : Nat) :
    ∃ g4, g.loadGridData (some d) rnd = (true, g4) ∧
      RolesOk g4 R2 C2 s e := by
  obtain ⟨g4, hload, h4r, h4c, h4s, h4e, h4sh, h4cells⟩ :=
    loadGridData_good g R C ps pe hWF hroles d R2 C2 s e ws hgood rnd
  obtain ⟨_, _, _, _, _, _, hsb1, hsb2, heb1, heb2, hsne, _⟩ := hgood
  refine ⟨g4, hload, RolesOk_of_lookup g4 R2 C2 s e h4sh h4s h4e hsne
    hsb1 hsb2 heb1 heb2 ?_⟩
  intro q n hn
  obtain ⟨c1, c2, c3⟩ := h4cells q n hn
  refine ⟨c1, c2, ?_, ?_⟩
  · intro hqs
    cases hw : n.isWall with
    | false => rfl
    | true => exact absurd hqs (c3.mp hw).2.1
  · intro hqe
    cases hw : n.isWall with
    | false => rfl
    | true => exact absurd hqe (c3.mp hw).2.2

/-- C4 (amended): the start/goal invariant `RolesOk` (exactly one start
cell, exactly one goal cell, start ≠ goal, neither carrying a wall, walls
only elsewhere) is established by the constructor and by `resize` whenever
the target dimensions are not `1×1`, is preserved by `toggleWall` (at any
cell) and by `clearWalls`, is preserved by `setStartNode`/`setEndNode`
when the target is in bounds and differs from the opposite role holder,
and is established by importing a well-formed payload. (Unconditionally
the claim fails: `setStartNode` at the current goal erases the goal flag,
see the recorded counterexample.) -/
theorem claim_C4_invariant_preservation :
    (∀ R C : Nat, 1 ≤ R → 1 ≤ C → ¬(R = 1 ∧ C = 1) →
      Grid.create (R : Int) (C : Int) =
        .ok (defaultGrid (some (R : Int)) (some (C : Int)) R C) ∧
      RolesOk (defaultGrid (some (R : Int)) (some (C : Int)) R C) R C
        ((R / 4 : Nat), (C / 4 : Nat))
        ((3 * R / 4 : Nat), (3 * C / 4 : Nat))) ∧
    (∀ g : Grid, ∀ R2 C2 : Nat, 1 ≤ R2 → 1 ≤ C2 → ¬(R2 = 1 ∧ C2 = 1) →
      g.resize (some (R2 : Int)) (some (C2 : Int)) =
        .ok (defaultGrid (some (R2 : Int)) (some (C2 : Int)) R2 C2) ∧
      RolesOk (defaultGrid (some (R2 : Int)) (some (C2 : Int)) R2 C2) R2 C2
        ((R2 / 4 : Nat), (C2 / 4 : Nat))
        ((3 * R2 / 4 : Nat), (3 * C2 / 4 : Nat))) ∧
    (∀ (g : Grid) (R C : Nat) (ps pe : Pos), WFgrid g R C →
      RolesOk g R C ps pe → ∀ r c : Nat,
      RolesOk (g.toggleWallAt r c) R C ps pe) ∧
    (∀ (g : Grid) (R C : Nat) (ps pe : Pos), WFgrid g R C →
      RolesOk g R C ps pe →
      ∃ g2, g.clearWalls = .ok g2 ∧ RolesOk g2 R C ps pe) ∧
    (∀ (g : Grid) (R C : Nat) (ps pe s : Pos), WFgrid g R C →
      RolesOk g R C ps pe → s.1 < R → s.2 < C → s ≠ pe →
      g.setStartNode (some (s.1 : Int)) (some (s.2 : Int)) =
        .ok (startUpdated g s) ∧
      RolesOk (startUpdated g s) R C s pe) ∧
    (∀ (g : Grid) (R C : Nat) (ps pe e : Pos), WFgrid g R C →
      RolesOk g R C ps pe → e.1 < R → e.2 < C → e ≠ ps →
      g.setEndNode (some (e.1 : Int)) (some (e.2 : Int)) =
        .ok (endUpdated g e) ∧
      RolesOk (endUpdated g e) R C ps e) ∧
    (∀ (g : Grid) (R C : Nat) (ps pe : Pos) (d : GridData)
      (R2 C2 : Nat) (s e : Pos) (ws : List WallData) (rnd : Nat),
      WFgrid g R C → RolesOk g R C ps pe → GoodPayload d R2 C2 s e ws →
      ∃ g4, g.loadGridData (some d) rnd = (true, g4) ∧
        RolesOk g4 R2 C2 s e) := by
  refine ⟨?_, ?_, ?_, ?_, ?_, ?_, ?_⟩
  · intro R C hR hC hne
    exact ⟨create_ok R C hR hC, defaultGrid_roles _ _ R C hR hC hne⟩
  · intro g R2 C2 hR hC hne
    exact ⟨resize_ok g R2 C2 hR hC, defaultGrid_roles _ _ R2 C2 hR hC hne⟩
  · intro g R C ps pe hWF hroles r c
    exact toggleWallAt_roles g R C ps pe hWF hroles r c
  · intro g R C ps pe hWF hroles
    exact clearWalls_roles g R C ps pe hWF hroles
  · intro g R C ps pe s hWF hroles h1 h2 h3
    exact startUpdated_roles g R C ps pe hWF hroles s h1 h2 h3
  · intro g R C ps pe e hWF hroles h1 h2 h3
    exact endUpdated_roles g R C ps pe hWF hroles e h1 h2 h3
  · intro g R C ps pe d R2 C2 s e ws rnd hWF hroles hgood
    exact loadGridData_roles g R C ps pe hWF hroles d R2 C2 s e ws hgood rnd

/-- Witness for C4 at concrete inputs: a fresh 3×3 grid and a start move
to `(1, 2)`. -/
theorem claim_C4_invariant_preservation_witness :
    (1 ≤ 3 ∧ 1 ≤ 3 ∧ ¬((3 : Nat) = 1 ∧ (3 : Nat) = 1) ∧
      WFgrid sampleGrid3 3 3 ∧ RolesOk sampleGrid3 3 3 (0, 0) (2, 2) ∧
      (1 : Nat) < 3 ∧ (2 : Nat) < 3 ∧ ((1, 2) : Pos) ≠ (2, 2)) ∧
    (Grid.create ((3 : Nat) : Int) ((3 : Nat) : Int) =
      .ok (defaultGrid (some ((3 : Nat) : Int)) (some ((3 : Nat) : Int)) 3 3) ∧
      RolesOk (defaultGrid (some ((3 : Nat) : Int)) (some ((3 : Nat) : Int)) 3 3)
        3 3 ((3 / 4 : Nat), (3 / 4 : Nat))
        ((3 * 3 / 4 : Nat), (3 * 3 / 4 : Nat))) ∧
    (sampleGrid3.setStartNode (some ((1 : Nat) : Int)) (some ((2 : Nat) : Int)) =
      .ok (startUpdated sampleGrid3 (1, 2)) ∧
      RolesOk (startUpdated sampleGrid3 (1, 2)) 3 3 (1, 2) (2, 2)) :=
  ⟨⟨by decide, by decide, by decide, by decide, by decide, by decide,
    by decide, by decide⟩,
   claim_C4_invariant_preservation.1 3 3 (by decide) (by decide) (by decide),
   claim_C4_invariant_preservation.2.2.2.2.1 sampleGrid3 3 3 (0, 0) (2, 2)
     (1, 2) (by decide) (by decide) (by decide) (by decide) (by decide)⟩

/-! ## Malformed imports (C3) -/

theorem loadGridData_oobStart (g : Grid) (R C : Nat) (ps pe : Pos)
    (hWF : WFgrid g R C) (hroles : RolesOk g R C ps pe)
    (d : GridData) (ws : List WallData) (rnd : Nat)
    (hdr : d.rows = g.rows) (hdc : d.cols = g.cols) (hdw : d.walls = some ws)
    (srec : PosData) (hds : d.startNode = some srec)
    (hbad : ¬ (0 ≤ srec.row ∧ srec.row < (R : Int) ∧ 0 ≤ srec.col ∧
      srec.col < (C : Int))) :
    ∃ gE, g.loadGridData (some d) rnd = (false, gE) := by
  obtain ⟨g1, gD, hcw, hsd, hp1⟩ := sameDims_phase1 g R C ps pe hWF hroles
  obtain ⟨hDr, hDc, hDs, hDe, hDsh, _⟩ := hp1
  have hbr : loadStage1 g d = .ok gD := by
    unfold loadStage1
    rw [if_neg (by push_neg; exact ⟨hdr, hdc⟩), hcw]
    exact hsd
  obtain ⟨hWr, hWc, hWs, hWe, hWsh, _⟩ :=
    restoreWallsGo_spec d rnd ws gD R C hDr hDc hDsh
  set gW : Grid := ws.foldl (restoreStep d rnd) gD with hgW
  have hrwEq : restoreWalls d rnd gD = gW := by
    unfold restoreWalls
    rw [hdw]
  obtain ⟨gE, herr, _, _, _, _⟩ :=
    setStartNode_err gW R C hWsh srec.row srec.col hbad
  refine ⟨gE, ?_⟩
  have hload : loadBody g d rnd = .error gE := by
    unfold loadBody
    rw [hbr]
    simp only [exBind_ok]
    rw [hrwEq]
    have hstart1 : loadSetStart gW d = .error gE := by
      unfold loadSetStart
      rw [hds]
      exact herr
    rw [hstart1]
    rfl
  show (match loadBody g d rnd with
        | .ok g2 => (true, g2)
        | .error g2 => (false, g2)) = (false, gE)
  rw [hload]

/-- A payload with matching dimensions but an out-of-bounds start. -/
def badPayload3 : GridData :=
  { rows := some 3, cols := some 3, walls := some [],
    startNode := some { row := 5, col := 0 },
    endNode := some { row := 2, col := 2 } }

/-- C3 counterexample: importing `badPayload3` into the 3×3 grid with a
wall at `(1, 1)` reports `false`, but the grid is not left in its pre-call
state — the wall at `(1, 1)` has been cleared by the time the
out-of-bounds start coordinate throws. -/
theorem claim_C3_counterexample :
    (sampleGrid3Wall.loadGridData (some badPayload3) 1).1 = false ∧
    (cellD sampleGrid3Wall.nodes (1, 1)).isWall = true ∧
    (cellD ((sampleGrid3Wall.loadGridData (some badPayload3) 1).2).nodes
      (1, 1)).isWall = false := by
  decide

/-- C3 (corrected): a missing payload is reported as `(false, g)` with the
grid untouched; a payload with matching dimensions and an out-of-bounds
start coordinate is reported as `false` (the thrown `TypeError` is caught,
never escaping to the caller) — but the grid is NOT left in its pre-call
state (see the recorded counterexample: walls and role flags have already
been rewritten when the throw occurs). -/
theorem claim_C3_malformed_import :
    (∀ (g : Grid) (rnd : Nat), g.loadGridData none rnd = (false, g)) ∧
    (∀ (g : Grid) (R C : Nat) (ps pe : Pos), WFgrid g R C →
      RolesOk g R C ps pe →
      ∀ (d : GridData) (ws : List WallData) (rnd : Nat),
      d.rows = g.rows → d.cols = g.cols → d.walls = some ws →
      ∀ srec : PosData, d.startNode = some srec →
      ¬ (0 ≤ srec.row ∧ srec.row < (R : Int) ∧ 0 ≤ srec.col ∧
        srec.col < (C : Int)) →
      ∃ gE, g.loadGridData (some d) rnd = (false, gE)) := by
  constructor
  · intro g rnd
    rfl
  · intro g R C ps pe hWF hroles d ws rnd hdr hdc hdw srec hds hbad
    exact loadGridData_oobStart g R C ps pe hWF hroles d ws rnd hdr hdc hdw
      srec hds hbad

/-- Witness for C3 at the 3×3 sample grid and `badPayload3`. -/
theorem claim_C3_malformed_import_witness :
    (WFgrid sampleGrid3 3 3 ∧ RolesOk sampleGrid3 3 3 (0, 0) (2, 2) ∧
      badPayload3.rows = sampleGrid3.rows ∧
      badPayload3.cols = sampleGrid3.cols ∧
      badPayload3.walls = some [] ∧
      badPayload3.startNode = some { row := 5, col := 0 } ∧
      ¬ (0 ≤ (5 : Int) ∧ (5 : Int) < ((3 : Nat) : Int) ∧ 0 ≤ (0 : Int) ∧
        (0 : Int) < ((3 : Nat) : Int))) ∧
    sampleGrid3.loadGridData none 0 = (false, sampleGrid3) ∧
    (∃ gE, sampleGrid3.loadGridData (some badPayload3) 1 = (false, gE)) :=
  ⟨⟨by decide, by decide, by decide, by decide, by decide, by decide,
    by decide⟩,
   claim_C3_malformed_import.1 sampleGrid3 0,
   claim_C3_malformed_import.2 sampleGrid3 3 3 (0, 0) (2, 2) (by decide)
     (by decide) badPayload3 [] 1 (by decide) (by decide) (by decide)
     { row := 5, col := 0 } (by decide) (by decide)⟩

/-! ## Walks: basic lemmas -/

theorem adjacentB_cases (p q : Pos) : adjacentB p q = true ↔
    ((p.1 = q.1 + 1 ∧ p.2 = q.2) ∨ (q.1 = p.1 + 1 ∧ p.2 = q.2) ∨
     (p.1 = q.1 ∧ p.2 = q.2 + 1) ∨ (p.1 = q.1 ∧ q.2 = p.2 + 1)) := by
  unfold adjacentB
  rw [decide_eq_true_eq]
  unfold Nat.dist
  omega

theorem adjacentB_symm (p q : Pos) (h : adjacentB p q = true) :
    adjacentB q p = true := by
  rw [adjacentB_cases] at h ⊢
  omega

theorem adjacentB_ne (p q : Pos) (h : adjacentB p q = true) : p ≠ q := by
  rw [adjacentB_cases] at h
  intro hcon
  rw [hcon] at h
  omega

theorem walk_ok_left (g : Grid) (R C : Nat) (a b : Pos) (n : Nat)
    (h : Walk g R C a b n) : okCell g R C a = true := by
  cases h with
  | nil _ hp => exact hp
  | cons _ _ _ _ _ hok _ => exact hok

theorem walk_ok_right (g : Grid) (R C : Nat) (a b : Pos) (n : Nat)
    (h : Walk g R C a b n) : okCell g R C b = true := by
  induction h with
  | nil p hp => exact hp
  | cons p q r m hadj hok hw ih => exact ih

theorem walk_zero_inv (g : Grid) (R C : Nat) (a b : Pos)
    (h : Walk g R C a b 0) : a = b := by
  cases h
  rfl

theorem walk_snoc (g : Grid) (R C : Nat) (n : Nat) : ∀ a b c : Pos,
    Walk g R C a b n → adjacentB b c = true → okCell g R C c = true →
    Walk g R C a c (n + 1) := by
  induction n with
  | zero =>
    intro a b c h hadj hok
    have hab : a = b := walk_zero_inv g R C a b h
    subst hab
    exact Walk.cons a c c 0 hadj (walk_ok_left g R C a a 0 h) (Walk.nil c hok)
  | succ k ih =>
    intro a b c h hadj hok
    cases h with
    | cons _ q _ _ ha ho hw =>
      exact Walk.cons a q c (k + 1) ha ho (ih q b c hw hadj hok)

theorem walk_append (g : Grid) (R C : Nat) (m : Nat) : ∀ (a b c : Pos) (n : Nat),
    Walk g R C a b m → Walk g R C b c n → Walk g R C a c (m + n) := by
  induction m with
  | zero =>
    intro a b c n h1 h2
    have hab : a = b := walk_zero_inv g R C a b h1
    subst hab
    rw [Nat.zero_add]
    exact h2
  | succ k ih =>
    intro a b c n h1 h2
    cases h1 with
    | cons _ q _ _ ha ho hw =>
      have h3 : k + 1 + n = k + n + 1 := by omega
      rw [h3]
      exact Walk.cons a q c (k + n) ha ho (ih q b c n hw h2)

theorem walk_unsnoc (g : Grid) (R C : Nat) (n : Nat) : ∀ a b : Pos,
    Walk g R C a b (n + 1) → ∃ y, Walk g R C a y n ∧
      adjacentB y b = true ∧ okCell g R C b = true := by
  induction n with
  | zero =>
    intro a b h
    cases h with
    | cons _ q _ _ hadj hok hw =>
      have hqb : q = b := walk_zero_inv g R C q b hw
      subst hqb
      exact ⟨a, Walk.nil a hok, hadj, walk_ok_left g R C q q 0 hw⟩
  | succ k ih =>
    intro a b h
    cases h with
    | cons _ q _ _ hadj hok hw =>
      obtain ⟨y, hy, hadj2, hokb⟩ := ih q b hw
      exact ⟨y, Walk.cons a q y k hadj hok hy, hadj2, hokb⟩

theorem walk_split (g : Grid) (R C : Nat) (n : Nat) : ∀ a b : Pos,
    Walk g R C a b n → ∀ i, i ≤ n →
    ∃ x, Walk g R C a x i ∧ Walk g R C x b (n - i) := by
  induction n with
  | zero =>
    intro a b h i hi
    have hz : i = 0 := Nat.le_zero.mp hi
    have hab : a = b := walk_zero_inv g R C a b h
    subst hz
    subst hab
    exact ⟨a, Walk.nil a (walk_ok_left g R C a a 0 h), h⟩
  | succ m ih =>
    intro a b h i hi
    cases i with
    | zero => exact ⟨a, Walk.nil a (walk_ok_left g R C a b (m + 1) h), h⟩
    | succ j =>
      cases h with
      | cons _ q _ _ hadj hok hw =>
        obtain ⟨x, h1, h2⟩ := ih q b hw j (by omega)
        refine ⟨x, Walk.cons a q x j hadj hok h1, ?_⟩
        have h3 : m + 1 - (j + 1) = m - j := by omega
        rw [h3]
        exact h2

theorem least_unique (g : Grid) (R C : Nat) (a b : Pos) (m n : Nat)
    (h1 : IsLeastWalk g R C a b m) (h2 : IsLeastWalk g R C a b n) : m = n :=
  Nat.le_antisymm (h1.2 n h2.1) (h2.2 m h1.1)

theorem walk_exists_least (g : Grid) (R C : Nat) (a b : Pos)
    (h : ∃ n, Walk g R C a b n) : ∃ k, IsLeastWalk g R C a b k := by
  classical
  exact ⟨Nat.find h, Nat.find_spec h, fun m hm => Nat.find_le hm⟩

theorem least_prefix (g : Grid) (R C : Nat) (a b : Pos) (k : Nat)
    (hk : IsLeastWalk g R C a b k) (i : Nat) (x : Pos) (hi : i ≤ k)
    (h1 : Walk g R C a x i) (h2 : Walk g R C x b (k - i)) :
    IsLeastWalk g R C a x i := by
  refine ⟨h1, ?_⟩
  intro m hm
  by_contra hlt
  push_neg at hlt
  have h3 := walk_append g R C m a x b (k - i) hm h2
  have h4 := hk.2 _ h3
  omega

/-- Manhattan distance to a fixed target, in the order the code sums it. -/
def manh (p q : Pos) : Nat := Nat.dist p.2 q.2 + Nat.dist p.1 q.1

theorem manh_adj (p q pe : Pos) (h : adjacentB p q = true) :
    manh p pe ≤ manh q pe + 1 := by
  unfold adjacentB at h
  rw [decide_eq_true_eq] at h
  unfold Nat.dist at h
  unfold manh Nat.dist
  omega

theorem manh_walk (g : Grid) (R C : Nat) (a b : Pos) (n : Nat)
    (h : Walk g R C a b n) (pe : Pos) : manh a pe ≤ n + manh b pe := by
  induction h with
  | nil p hp => omega
  | cons p q r m hadj hok hw ih =>
    have h1 := manh_adj p q pe hadj
    omega

theorem mem_nbrsPos (p q : Pos) : q ∈ nbrsPos p ↔ adjacentB p q = true := by
  unfold nbrsPos adjacentB
  rw [decide_eq_true_eq]
  unfold Nat.dist
  by_cases h1 : 0 < p.1 <;> by_cases h2 : 0 < p.2 <;>
    simp [h1, h2, List.mem_append, Prod.ext_iff] <;> omega

/-! ## The BFS oracle is correct -/

theorem contains_iff (l : List Pos) (a : Pos) : l.contains a = true ↔ a ∈ l := by
  simp

theorem okCell_bounds (g : Grid) (R C : Nat) (q : Pos)
    (h : okCell g R C q = true) : q.1 < R ∧ q.2 < C := by
  unfold okCell inBoundsB at h
  rw [Bool.and_eq_true, Bool.and_eq_true] at h
  exact ⟨of_decide_eq_true h.1.1, of_decide_eq_true h.1.2⟩

theorem nodup_bounds_length (l : List Pos) (R C : Nat) (hnd : l.Nodup)
    (hb : ∀ q ∈ l, q.1 < R ∧ q.2 < C) : l.length ≤ R * C := by
  classical
  have h1 : l.length = l.toFinset.card := (List.toFinset_card_of_nodup hnd).symm
  have h2 : l.toFinset ⊆ Finset.range R ×ˢ Finset.range C := by
    intro q hq
    rw [List.mem_toFinset] at hq
    rw [Finset.mem_product, Finset.mem_range, Finset.mem_range]
    exact hb q hq
  have h3 := Finset.card_le_card h2
  rw [Finset.card_product, Finset.card_range, Finset.card_range] at h3
  omega

theorem bfs_next_spec (g : Grid) (R C : Nat) (ps : Pos) (d : Nat)
    (vis frontier : List Pos)
    (hfr : ∀ q : Pos, q ∈ frontier ↔ IsLeastWalk g R C ps q d)
    (hvis : ∀ q : Pos, q ∈ vis ↔ ∃ j, j ≤ d ∧ IsLeastWalk g R C ps q j) :
    ∀ q : Pos, q ∈ ((frontier.flatMap nbrsPos).filter
        (fun q => okCell g R C q && !vis.contains q)).dedup ↔
      IsLeastWalk g R C ps q (d + 1) := by
  intro q
  rw [List.mem_dedup, List.mem_filter, List.mem_flatMap]
  constructor
  · intro ⟨⟨y, hy, hq⟩, hcond⟩
    rw [Bool.and_eq_true] at hcond
    have hok : okCell g R C q = true := hcond.1
    have hnvis : q ∉ vis := by
      intro hmem
      have h2 := hcond.2
      rw [Bool.not_eq_true'] at h2
      rw [← contains_iff vis q] at hmem
      rw [h2] at hmem
      exact Bool.noConfusion hmem
    have hadj : adjacentB y q = true := (mem_nbrsPos y q).mp hq
    have hyl : IsLeastWalk g R C ps y d := (hfr y).mp hy
    have hw : Walk g R C ps q (d + 1) := walk_snoc g R C d ps y q hyl.1 hadj hok
    obtain ⟨k, hk⟩ := walk_exists_least g R C ps q ⟨d + 1, hw⟩
    have hk1 : k ≤ d + 1 := hk.2 _ hw
    have hk2 : ¬ k ≤ d := fun hle => hnvis ((hvis q).mpr ⟨k, hle, hk⟩)
    have hkd : k = d + 1 := by omega
    rw [← hkd]
    exact hk
  · intro hq
    obtain ⟨y, hy, hadj, hok⟩ := walk_unsnoc g R C d ps q hq.1
    have hyleast : IsLeastWalk g R C ps y d := by
      obtain ⟨j, hj⟩ := walk_exists_least g R C ps y ⟨d, hy⟩
      have hj1 : j ≤ d := hj.2 _ hy
      have hw2 : Walk g R C ps q (j + 1) := walk_snoc g R C j ps y q hj.1 hadj hok
      have h4 := hq.2 _ hw2
      have hjd : j = d := by omega
      rw [← hjd]
      exact hj
    refine ⟨⟨y, (hfr y).mpr hyleast, (mem_nbrsPos y q).mpr hadj⟩, ?_⟩
    rw [Bool.and_eq_true]
    refine ⟨hok, ?_⟩
    rw [Bool.not_eq_true']
    have hnvis : q ∉ vis := by
      intro hmem
      obtain ⟨j, hj1, hj2⟩ := (hvis q).mp hmem
      have := least_unique g R C ps q j (d + 1) hj2 hq
      omega
    rw [← contains_iff vis q] at hnvis
    cases hcq : vis.contains q with
    | false => rfl
    | true => exact absurd hcq hnvis

theorem bfsAux_sound (g : Grid) (R C : Nat) (pe ps : Pos) :
    ∀ (fuel : Nat) (vis frontier : List Pos) (d : Nat),
    (∀ q : Pos, q ∈ frontier ↔ IsLeastWalk g R C ps q d) →
    (∀ q : Pos, q ∈ vis ↔ ∃ j, j ≤ d ∧ IsLeastWalk g R C ps q j) →
    ∀ x, bfsAux g R C pe fuel vis frontier d = some x →
    IsLeastWalk g R C ps pe x := by
  intro fuel
  induction fuel with
  | zero =>
    intro vis frontier d hfr hvis x hx
    exact Option.noConfusion hx
  | succ f ih =>
    intro vis frontier d hfr hvis x hx
    simp only [bfsAux] at hx
    by_cases hc : frontier.contains pe = true
    · rw [if_pos hc] at hx
      have hx2 : d = x := Option.some.inj hx
      rw [← hx2]
      exact (hfr pe).mp ((contains_iff frontier pe).mp hc)
    · rw [if_neg hc] at hx
      by_cases hemp : ((frontier.flatMap nbrsPos).filter
          (fun q => okCell g R C q && !vis.contains q)).dedup.isEmpty = true
      · rw [if_pos hemp] at hx
        exact Option.noConfusion hx
      · rw [if_neg hemp] at hx
        have hnext := bfs_next_spec g R C ps d vis frontier hfr hvis
        refine ih (vis ++ ((frontier.flatMap nbrsPos).filter
            (fun q => okCell g R C q && !vis.contains q)).dedup)
          (((frontier.flatMap nbrsPos).filter
            (fun q => okCell g R C q && !vis.contains q)).dedup)
          (d + 1) hnext ?_ x hx
        intro q
        rw [List.mem_append, hnext q, hvis q]
        constructor
        · intro h
          rcases h with ⟨j, hj1, hj2⟩ | h
          · exact ⟨j, by omega, hj2⟩
          · exact ⟨d + 1, le_refl _, h⟩
        · intro ⟨j, hj1, hj2⟩
          by_cases hjd : j ≤ d
          · exact Or.inl ⟨j, hjd, hj2⟩
          · have : j = d + 1 := by omega
            rw [this] at hj2
            exact Or.inr hj2

theorem bfsAux_complete (g : Grid) (R C : Nat) (pe ps : Pos) (k : Nat)
    (hk : IsLeastWalk g R C ps pe k) :
    ∀ (fuel : Nat) (vis frontier : List Pos) (d : Nat), d ≤ k →
    (∀ q : Pos, q ∈ frontier ↔ IsLeastWalk g R C ps q d) →
    (∀ q : Pos, q ∈ vis ↔ ∃ j, j ≤ d ∧ IsLeastWalk g R C ps q j) →
    vis.Nodup → R * C + 2 ≤ fuel + vis.length →
    bfsAux g R C pe fuel vis frontier d = some k := by
  intro fuel
  induction fuel with
  | zero =>
    intro vis frontier d hd hfr hvis hnd hfuel
    exfalso
    have hb : ∀ q ∈ vis, q.1 < R ∧ q.2 < C := by
      intro q hq
      obtain ⟨j, _, hj⟩ := (hvis q).mp hq
      exact okCell_bounds g R C q (walk_ok_right g R C ps q j hj.1)
    have := nodup_bounds_length vis R C hnd hb
    omega
  | succ f ih =>
    intro vis frontier d hd hfr hvis hnd hfuel
    simp only [bfsAux]
    by_cases hdk : d = k
    · have hpe : pe ∈ frontier := (hfr pe).mpr (by rw [hdk]; exact hk)
      rw [if_pos ((contains_iff frontier pe).mpr hpe), hdk]
    · have hdlt : d < k := by omega
      have hpe : frontier.contains pe = false := by
        cases hcp : frontier.contains pe with
        | false => rfl
        | true =>
          have := least_unique g R C ps pe d k
            ((hfr pe).mp ((contains_iff frontier pe).mp hcp)) hk
          omega
      rw [if_neg (by rw [hpe]; exact Bool.noConfusion)]
      have hnext := bfs_next_spec g R C ps d vis frontier hfr hvis
      have hxex : ∃ x, IsLeastWalk g R C ps x (d + 1) := by
        obtain ⟨x, h1, h2⟩ := walk_split g R C k ps pe hk.1 (d + 1) (by omega)
        exact ⟨x, least_prefix g R C ps pe k hk (d + 1) x (by omega) h1 h2⟩
      obtain ⟨x0, hx0⟩ := hxex
      have hx0mem : x0 ∈ ((frontier.flatMap nbrsPos).filter
          (fun q => okCell g R C q && !vis.contains q)).dedup :=
        (hnext x0).mpr hx0
      have hemp : (((frontier.flatMap nbrsPos).filter
          (fun q => okCell g R C q && !vis.contains q)).dedup).isEmpty = false := by
        cases he : (((frontier.flatMap nbrsPos).filter
            (fun q => okCell g R C q && !vis.contains q)).dedup).isEmpty with
        | false => rfl
        | true =>
          rw [List.isEmpty_iff] at he
          rw [he] at hx0mem
          exact absurd hx0mem (List.not_mem_nil x0)
      rw [if_neg (by rw [hemp]; exact Bool.noConfusion)]
      have hdisj : vis.Disjoint (((frontier.flatMap nbrsPos).filter
          (fun q => okCell g R C q && !vis.contains q)).dedup) := by
        intro q hq1 hq2
        obtain ⟨j, hj1, hj2⟩ := (hvis q).mp hq1
        have := least_unique g R C ps q j (d + 1) hj2 ((hnext q).mp hq2)
        omega
      have hlen1 : 1 ≤ (((frontier.flatMap nbrsPos).filter
          (fun q => okCell g R C q && !vis.contains q)).dedup).length := by
        cases hl : ((frontier.flatMap nbrsPos).filter
            (fun q => okCell g R C q && !vis.contains q)).dedup with
        | nil =>
          rw [hl] at hx0mem
          exact absurd hx0mem (List.not_mem_nil x0)
        | cons a l => simp
      refine ih (vis ++ ((frontier.flatMap nbrsPos).filter
          (fun q => okCell g R C q && !vis.contains q)).dedup)
        (((frontier.flatMap nbrsPos).filter
          (fun q => okCell g R C q && !vis.contains q)).dedup)
        (d + 1) (by omega) hnext ?_
        (hnd.append (List.nodup_dedup _) hdisj) ?_
      · intro q
        rw [List.mem_append, hnext q, hvis q]
        constructor
        · intro h
          rcases h with ⟨j, hj1, hj2⟩ | h
          · exact ⟨j, by omega, hj2⟩
          · exact ⟨d + 1, le_refl _, h⟩
        · intro ⟨j, hj1, hj2⟩
          by_cases hjd : j ≤ d
          · exact Or.inl ⟨j, hjd, hj2⟩
          · have hjeq : j = d + 1 := by omega
            rw [hjeq] at hj2
            exact Or.inr hj2
      · rw [List.length_append]
        omega

theorem natDim_some (R : Nat) : natDim (some ((R : Nat) : Int)) = R := by
  simp [natDim]

theorem bfs_init_frontier (g : Grid) (R C : Nat) (ps : Pos)
    (hok : okCell g R C ps = true) :
    ∀ q : Pos, q ∈ [ps] ↔ IsLeastWalk g R C ps q 0 := by
  intro q
  constructor
  · intro hq
    have hq2 : q = ps := by simpa using hq
    rw [hq2]
    exact ⟨Walk.nil ps hok, fun m _ => Nat.zero_le m⟩
  · intro hq
    have := walk_zero_inv g R C ps q hq.1
    simp [← this]

theorem bfs_init_vis (g : Grid) (R C : Nat) (ps : Pos)
    (hok : okCell g R C ps = true) :
    ∀ q : Pos, q ∈ [ps] ↔ ∃ j, j ≤ 0 ∧ IsLeastWalk g R C ps q j := by
  intro q
  rw [bfs_init_frontier g R C ps hok q]
  constructor
  · intro h
    exact ⟨0, le_refl 0, h⟩
  · intro ⟨j, hj1, hj2⟩
    have hj0 : j = 0 := Nat.le_zero.mp hj1
    rw [hj0] at hj2
    exact hj2

theorem bfsOracle_sound (g : Grid) (R C : Nat) (ps pe : Pos)
    (hr : g.rows = some (R : Int)) (hc : g.cols = some (C : Int))
    (hs : g.startNode = some ps) (he : g.endNode = some pe)
    (x : Nat) (hx : bfsOracle g = some x) : IsLeastWalk g R C ps pe x := by
  unfold bfsOracle at hx
  rw [hs, he, hr, hc] at hx
  have hx2 : (if okCell g R C ps = true then
      bfsAux g R C pe (R * C + 1) [ps] [ps] 0 else none) = some x := hx
  by_cases hok : okCell g R C ps = true
  · rw [if_pos hok] at hx2
    exact bfsAux_sound g R C pe ps (R * C + 1) [ps] [ps] 0
      (bfs_init_frontier g R C ps hok) (bfs_init_vis g R C ps hok) x hx2
  · rw [if_neg hok] at hx2
    exact Option.noConfusion hx2

theorem bfsOracle_complete (g : Grid) (R C : Nat) (ps pe : Pos) (k : Nat)
    (hr : g.rows = some (R : Int)) (hc : g.cols = some (C : Int))
    (hs : g.startNode = some ps) (he : g.endNode = some pe)
    (hk : IsLeastWalk g R C ps pe k) : bfsOracle g = some k := by
  have hok : okCell g R C ps = true := walk_ok_left g R C ps pe k hk.1
  unfold bfsOracle
  rw [hs, he, hr, hc]
  show (if okCell g R C ps = true then
      bfsAux g R C pe (R * C + 1) [ps] [ps] 0 else none) = some k
  rw [if_pos hok]
  exact bfsAux_complete g R C pe ps k hk (R * C + 1) [ps] [ps] 0
    (Nat.zero_le k) (bfs_init_frontier g R C ps hok)
    (bfs_init_vis g R C ps hok) (List.nodup_singleton ps) (by simp)

/-! ## The A* invariant -/

/-- The cell fields the search never modifies. -/
def layoutView (n : Node) : Nat × Nat × Bool × Nat :=
  (n.row, n.col, n.isWall, n.weight)

/-- The cell fields the invariant tracks (layout plus scores and parent). -/
def searchView (n : Node) :
    Option Nat × Nat × Option Nat × Option Pos × Nat × Nat × Bool × Nat :=
  (n.g, n.h, n.f, n.parent, n.row, n.col, n.isWall, n.weight)

theorem cellD_view_eq {α : Type} (f : Node → α)
    (nodes1 nodes2 : List (List Node)) (q : Pos)
    (h : (lookup2 nodes1 q.1 q.2).map f = (lookup2 nodes2 q.1 q.2).map f) :
    f (cellD nodes1 q) = f (cellD nodes2 q) := by
  unfold cellD
  cases h1 : lookup2 nodes1 q.1 q.2 with
  | none =>
    cases h2 : lookup2 nodes2 q.1 q.2 with
    | none => rfl
    | some b =>
      rw [h1, h2] at h
      exact Option.noConfusion h
  | some a =>
    cases h2 : lookup2 nodes2 q.1 q.2 with
    | none =>
      rw [h1, h2] at h
      exact Option.noConfusion h
    | some b =>
      rw [h1, h2] at h
      simp only [Option.map_some'] at h
      exact Option.some.inj h

theorem layoutView_fields (m n : Node) (h : layoutView m = layoutView n) :
    m.row = n.row ∧ m.col = n.col ∧ m.isWall = n.isWall ∧
    m.weight = n.weight := by
  unfold layoutView at h
  simp only [Prod.mk.injEq] at h
  exact ⟨h.1, h.2.1, h.2.2.1, h.2.2.2⟩

theorem searchView_fields (m n : Node) (h : searchView m = searchView n) :
    m.g = n.g ∧ m.h = n.h ∧ m.f = n.f ∧ m.parent = n.parent ∧
    m.row = n.row ∧ m.col = n.col ∧ m.isWall = n.isWall ∧
    m.weight = n.weight := by
  unfold searchView at h
  simp only [Prod.mk.injEq] at h
  exact ⟨h.1, h.2.1, h.2.2.1, h.2.2.2.1, h.2.2.2.2.1, h.2.2.2.2.2.1,
    h.2.2.2.2.2.2.1, h.2.2.2.2.2.2.2⟩

theorem okCell_iff_nodes (g : Grid) (R C : Nat) (hsh : shape g.nodes R C)
    (q : Pos) : okCell g R C q = true ↔
      q.1 < R ∧ q.2 < C ∧ (cellD g.nodes q).isWall = false := by
  unfold okCell inBoundsB Grid.cellAt
  rw [Bool.and_eq_true, Bool.and_eq_true]
  constructor
  · intro ⟨⟨h1, h2⟩, h3⟩
    refine ⟨of_decide_eq_true h1, of_decide_eq_true h2, ?_⟩
    cases hl : lookup2 g.nodes q.1 q.2 with
    | none =>
      rw [hl] at h3
      exact Bool.noConfusion h3
    | some n =>
      rw [hl] at h3
      have h3b : (!n.isWall) = true := h3
      have hcd : cellD g.nodes q = n := by
        unfold cellD
        rw [hl]
        rfl
      rw [hcd]
      cases hw : n.isWall with
      | false => rfl
      | true =>
        rw [hw] at h3b
        exact Bool.noConfusion h3b
  · intro ⟨h1, h2, h3⟩
    refine ⟨⟨decide_eq_true h1, decide_eq_true h2⟩, ?_⟩
    obtain ⟨n, hl⟩ := Option.isSome_iff_exists.mp
      ((lookup2_isSome_of_shape g.nodes R C hsh q.1 q.2).mpr ⟨h1, h2⟩)
    rw [hl]
    have hcd : cellD g.nodes q = n := by
      unfold cellD
      rw [hl]
      rfl
    rw [hcd] at h3
    show (!n.isWall) = true
    rw [h3]
    rfl

theorem unitWeights_cellD (g : Grid) (R C : Nat) (hsh : shape g.nodes R C)
    (hu : unitWeights g) (q : Pos) (h1 : q.1 < R) (h2 : q.2 < C) :
    (cellD g.nodes q).weight = 1 := by
  obtain ⟨n, hl⟩ := Option.isSome_iff_exists.mp
    ((lookup2_isSome_of_shape g.nodes R C hsh q.1 q.2).mpr ⟨h1, h2⟩)
  have hcd : cellD g.nodes q = n := by
    unfold cellD
    rw [hl]
    rfl
  rw [hcd]
  unfold lookup2 at hl
  cases hr : g.nodes[q.1]? with
  | none =>
    rw [hr] at hl
    exact Option.noConfusion hl
  | some rw0 =>
    rw [hr] at hl
    obtain ⟨hlt, heq⟩ := List.getElem?_eq_some_iff.mp hr
    have hrmem : rw0 ∈ g.nodes := heq ▸ List.getElem_mem hlt
    obtain ⟨hlt2, heq2⟩ := List.getElem?_eq_some_iff.mp hl
    have hnmem : n ∈ rw0 := heq2 ▸ List.getElem_mem hlt2
    exact hu rw0 hrmem n hnmem

theorem isValidPosition_iff (nodes : List (List Node)) (R C : Nat)
    (hsh : shape nodes R C) (hR : 1 ≤ R) (ri ci : Int) :
    isValidPosition ri ci nodes = true ↔
      0 ≤ ri ∧ ri < (R : Int) ∧ 0 ≤ ci ∧ ci < (C : Int) ∧
      (cellD nodes (ri.toNat, ci.toNat)).isWall = false := by
  unfold isValidPosition
  have hlen : nodes.length = R := hsh.1
  have hhead : (nodes.headD []).length = C := by
    cases hn : nodes with
    | nil =>
      rw [hn] at hlen
      simp at hlen
      omega
    | cons a rest =>
      have hmem : a ∈ nodes := by
        rw [hn]
        exact List.mem_cons_self a rest
      show a.length = C
      exact hsh.2 a hmem
  rw [hlen, hhead]
  rw [Bool.and_eq_true, Bool.and_eq_true, Bool.and_eq_true, Bool.and_eq_true]
  constructor
  · intro ⟨⟨⟨⟨h1, h2⟩, h3⟩, h4⟩, h5⟩
    refine ⟨of_decide_eq_true h1, of_decide_eq_true h2, of_decide_eq_true h3,
      of_decide_eq_true h4, ?_⟩
    cases hl : lookup2 nodes ri.toNat ci.toNat with
    | none =>
      rw [hl] at h5
      exact Bool.noConfusion h5
    | some m =>
      rw [hl] at h5
      have h5b : (!m.isWall) = true := h5
      have hcd : cellD nodes (ri.toNat, ci.toNat) = m := by
        unfold cellD
        rw [hl]
        rfl
      rw [hcd]
      cases hwm : m.isWall with
      | false => rfl
      | true =>
        rw [hwm] at h5b
        exact Bool.noConfusion h5b
  · intro ⟨h1, h2, h3, h4, h5⟩
    refine ⟨⟨⟨⟨decide_eq_true h1, decide_eq_true h2⟩, decide_eq_true h3⟩,
      decide_eq_true h4⟩, ?_⟩
    have hb1 : ri.toNat < R := by omega
    have hb2 : ci.toNat < C := by omega
    obtain ⟨m, hl⟩ := Option.isSome_iff_exists.mp
      ((lookup2_isSome_of_shape nodes R C hsh _ _).mpr ⟨hb1, hb2⟩)
    rw [hl]
    have hcd : cellD nodes (ri.toNat, ci.toNat) = m := by
      unfold cellD
      rw [hl]
      rfl
    rw [hcd] at h5
    show (!m.isWall) = true
    rw [h5]
    rfl

theorem neighbor_entry (nodes : List (List Node)) (R C : Nat)
    (hsh : shape nodes R C) (hR : 1 ≤ R) (cur r : Pos) (a b : Int) :
    ((if isValidPosition ((cur.1 : Int) + a) ((cur.2 : Int) + b) nodes then
        some ((((cur.1 : Int) + a).toNat, ((cur.2 : Int) + b).toNat) : Pos)
      else none) = some r) ↔
      (0 ≤ (cur.1 : Int) + a ∧ (cur.1 : Int) + a < (R : Int) ∧
       0 ≤ (cur.2 : Int) + b ∧ (cur.2 : Int) + b < (C : Int) ∧
       (cellD nodes r).isWall = false ∧
       r = ((((cur.1 : Int) + a).toNat, ((cur.2 : Int) + b).toNat) : Pos)) := by
  by_cases hv : isValidPosition ((cur.1 : Int) + a) ((cur.2 : Int) + b) nodes = true
  · rw [if_pos hv]
    rw [isValidPosition_iff nodes R C hsh hR] at hv
    constructor
    · intro hsome
      have hr : r = ((((cur.1 : Int) + a).toNat,
          ((cur.2 : Int) + b).toNat) : Pos) := (Option.some.inj hsome).symm
      refine ⟨hv.1, hv.2.1, hv.2.2.1, hv.2.2.2.1, ?_, hr⟩
      rw [hr]
      exact hv.2.2.2.2
    · intro h
      rw [h.2.2.2.2.2]
  · rw [if_neg hv]
    constructor
    · intro h
      exact Option.noConfusion h
    · intro h
      exfalso
      apply hv
      rw [isValidPosition_iff nodes R C hsh hR]
      refine ⟨h.1, h.2.1, h.2.2.1, h.2.2.2.1, ?_⟩
      rw [← h.2.2.2.2.2]
      exact h.2.2.2.2.1

theorem mem_getNeighbors (nodes : List (List Node)) (R C : Nat)
    (hsh : shape nodes R C) (hR : 1 ≤ R) (cur : Pos)
    (hrow : (cellD nodes cur).row = cur.1)
    (hcol : (cellD nodes cur).col = cur.2) (r : Pos) :
    r ∈ Node.getNeighbors (cellD nodes cur) nodes ↔
      (adjacentB cur r = true ∧ r.1 < R ∧ r.2 < C ∧
       (cellD nodes r).isWall = false) := by
  have hmem : r ∈ Node.getNeighbors (cellD nodes cur) nodes ↔
      ∃ di : Int × Int,
        di ∈ ([(-1, 0), (0, 1), (1, 0), (0, -1)] : List (Int × Int)) ∧
        (if isValidPosition (((cellD nodes cur).row : Int) + di.1)
            (((cellD nodes cur).col : Int) + di.2) nodes then
          some ((((((cellD nodes cur).row : Int) + di.1)).toNat,
                (((((cellD nodes cur).col : Int) + di.2))).toNat) : Pos)
        else none) = some r := by
    unfold Node.getNeighbors
    exact List.mem_filterMap
  rw [hrow, hcol] at hmem
  rw [hmem]
  constructor
  · intro ⟨di, hdi, hif⟩
    have hif2 := (neighbor_entry nodes R C hsh hR cur r di.1 di.2).mp hif
    obtain ⟨hb1, hb2, hb3, hb4, hwl, hreq⟩ := hif2
    have hd4 : (di.1 = -1 ∧ di.2 = 0) ∨ (di.1 = 0 ∧ di.2 = 1) ∨
        (di.1 = 1 ∧ di.2 = 0) ∨ (di.1 = 0 ∧ di.2 = -1) := by
      simp only [List.mem_cons, List.not_mem_nil, or_false] at hdi
      rcases hdi with rfl | rfl | rfl | rfl
      · exact Or.inl ⟨rfl, rfl⟩
      · exact Or.inr (Or.inl ⟨rfl, rfl⟩)
      · exact Or.inr (Or.inr (Or.inl ⟨rfl, rfl⟩))
      · exact Or.inr (Or.inr (Or.inr ⟨rfl, rfl⟩))
    have hr1 : r.1 = ((cur.1 : Int) + di.1).toNat := by rw [hreq]
    have hr2 : r.2 = ((cur.2 : Int) + di.2).toNat := by rw [hreq]
    refine ⟨?_, by omega, by omega, hwl⟩
    rw [adjacentB_cases]
    omega
  · intro ⟨hadj, hb1, hb2, hwl⟩
    rw [adjacentB_cases] at hadj
    rcases hadj with ⟨ha1, ha2⟩ | ⟨ha1, ha2⟩ | ⟨ha1, ha2⟩ | ⟨ha1, ha2⟩
    · refine ⟨(-1, 0), by simp, (neighbor_entry nodes R C hsh hR cur r
        (-1) 0).mpr ⟨by omega, by omega, by omega, by omega, hwl,
        Prod.ext (by omega) (by omega)⟩⟩
    · refine ⟨(1, 0), by simp, (neighbor_entry nodes R C hsh hR cur r
        1 0).mpr ⟨by omega, by omega, by omega, by omega, hwl,
        Prod.ext (by omega) (by omega)⟩⟩
    · refine ⟨(0, -1), by simp, (neighbor_entry nodes R C hsh hR cur r
        0 (-1)).mpr ⟨by omega, by omega, by omega, by omega, hwl,
        Prod.ext (by omega) (by omega)⟩⟩
    · refine ⟨(0, 1), by simp, (neighbor_entry nodes R C hsh hR cur r
        0 1).mpr ⟨by omega, by omega, by omega, by omega, hwl,
        Prod.ext (by omega) (by omega)⟩⟩

/-- The loop invariant of `findPath`, relating the mutable search state to
the original grid `g`.  `g`-values of closed cells are settled (least walk
lengths); open cells carry realizable `g`-values with exact `h`/`f`
scores; the closed set's neighbourhood is covered; parents point one step
back into the closed set. -/
structure AInv (g : Grid) (R C : Nat) (ps pe : Pos) (st : AState) : Prop where
  hshape : shape st.nodes R C
  hlayout : ∀ q : Pos, (lookup2 st.nodes q.1 q.2).map layoutView =
      (lookup2 g.nodes q.1 q.2).map layoutView
  hndO : st.openSet.Nodup
  hndC : st.closedSet.Nodup
  hdisj : ∀ q ∈ st.openSet, q ∉ st.closedSet
  hokm : ∀ q : Pos, q ∈ st.openSet ∨ q ∈ st.closedSet → okCell g R C q = true
  hpsMem : ps ∈ st.openSet ∨ ps ∈ st.closedSet
  hpsG : (cellD st.nodes ps).g = some 0
  hpsPar : (cellD st.nodes ps).parent = none
  hreal : ∀ q : Pos, q ∈ st.openSet ∨ q ∈ st.closedSet →
      ∃ gv, (cellD st.nodes q).g = some gv ∧ Walk g R C ps q gv
  hsettled : ∀ q ∈ st.closedSet, ∀ m, Walk g R C ps q m →
      ∃ gv, (cellD st.nodes q).g = some gv ∧ gv ≤ m
  hfront : ∀ y ∈ st.closedSet, ∀ r : Pos, adjacentB y r = true →
      okCell g R C r = true →
      (r ∈ st.openSet ∨ r ∈ st.closedSet) ∧
      ∃ gy gr, (cellD st.nodes y).g = some gy ∧
        (cellD st.nodes r).g = some gr ∧ gr ≤ gy + 1
  hfh : ∀ q ∈ st.openSet, (cellD st.nodes q).h = manh q pe ∧
      (cellD st.nodes q).f = jsAdd (cellD st.nodes q).g (manh q pe)
  hpar : ∀ q : Pos, q ∈ st.openSet ∨ q ∈ st.closedSet → q ≠ ps →
      ∃ pq gq, (cellD st.nodes q).parent = some pq ∧ pq ∈ st.closedSet ∧
        adjacentB pq q = true ∧ (cellD st.nodes q).g = some (gq + 1) ∧
        (cellD st.nodes pq).g = some gq
  huntouched : ∀ q : Pos, ¬(q ∈ st.openSet ∨ q ∈ st.closedSet) →
      (cellD st.nodes q).g = none ∧ (cellD st.nodes q).parent = none
  hpeC : pe ∉ st.closedSet

/-- Transferring the invariant across a state change that keeps the open
and closed sets and every tracked cell field (used for the
`isVisited`-marking step). -/
theorem AInv_congr (g : Grid) (R C : Nat) (ps pe : Pos) (st st2 : AState)
    (hinv : AInv g R C ps pe st)
    (hO : st2.openSet = st.openSet) (hC : st2.closedSet = st.closedSet)
    (hsh2 : shape st2.nodes R C)
    (hsv : ∀ q : Pos, (lookup2 st2.nodes q.1 q.2).map searchView =
      (lookup2 st.nodes q.1 q.2).map searchView) :
    AInv g R C ps pe st2 := by
  have hf : ∀ q : Pos, (cellD st2.nodes q).g = (cellD st.nodes q).g ∧
      (cellD st2.nodes q).h = (cellD st.nodes q).h ∧
      (cellD st2.nodes q).f = (cellD st.nodes q).f ∧
      (cellD st2.nodes q).parent = (cellD st.nodes q).parent := by
    intro q
    have := searchView_fields _ _ (cellD_view_eq searchView _ _ q (hsv q))
    exact ⟨this.1, this.2.1, this.2.2.1, this.2.2.2.1⟩
  have hlay2 : ∀ q : Pos, (lookup2 st2.nodes q.1 q.2).map layoutView =
      (lookup2 g.nodes q.1 q.2).map layoutView := by
    intro q
    rw [← hinv.hlayout q]
    cases h1 : lookup2 st2.nodes q.1 q.2 with
    | none =>
      have h2 := hsv q
      rw [h1] at h2
      cases h3 : lookup2 st.nodes q.1 q.2 with
      | none => rfl
      | some m =>
        rw [h3] at h2
        exact Option.noConfusion h2
    | some m =>
      have h2 := hsv q
      rw [h1] at h2
      cases h3 : lookup2 st.nodes q.1 q.2 with
      | none =>
        rw [h3] at h2
        exact Option.noConfusion h2
      | some m2 =>
        rw [h3] at h2
        simp only [Option.map_some'] at h2 ⊢
        have := searchView_fields m m2 (Option.some.inj h2)
        unfold layoutView
        rw [this.2.2.2.2.1, this.2.2.2.2.2.1, this.2.2.2.2.2.2.1,
          this.2.2.2.2.2.2.2]
  refine ⟨hsh2, hlay2, hO ▸ hinv.hndO, hC ▸ hinv.hndC, ?_, ?_, ?_, ?_, ?_,
    ?_, ?_, ?_, ?_, ?_, ?_, ?_⟩
  · intro q hq
    rw [hO] at hq
    rw [hC]
    exact hinv.hdisj q hq
  · intro q hq
    rw [hO, hC] at hq
    exact hinv.hokm q hq
  · rw [hO, hC]
    exact hinv.hpsMem
  · rw [(hf ps).1]
    exact hinv.hpsG
  · rw [(hf ps).2.2.2]
    exact hinv.hpsPar
  · intro q hq
    rw [hO, hC] at hq
    rw [(hf q).1]
    exact hinv.hreal q hq
  · intro q hq m hm
    rw [hC] at hq
    rw [(hf q).1]
    exact hinv.hsettled q hq m hm
  · intro y hy r hadj hokr
    rw [hC] at hy
    rw [hO, hC, (hf y).1, (hf r).1]
    exact hinv.hfront y hy r hadj hokr
  · intro q hq
    rw [hO] at hq
    rw [(hf q).2.1, (hf q).2.2.1, (hf q).1]
    exact hinv.hfh q hq
  · intro q hq hqps
    rw [hO, hC] at hq
    rw [(hf q).2.2.2, (hf q).1, hC]
    obtain ⟨pq, gq, h1, h2, h3, h4, h5⟩ := hinv.hpar q hq hqps
    exact ⟨pq, gq, h1, h2, h3, h4, ((hf pq).1).trans h5⟩
  · intro q hq
    rw [hO, hC] at hq
    rw [(hf q).1, (hf q).2.2.2]
    exact hinv.huntouched q hq
  · rw [hC]
    exact hinv.hpeC

theorem keyLt_of_f_lt (x y : Option Nat × Nat) (a b : Nat)
    (hx : x.1 = some a) (hy : y.1 = some b) (h : a < b) : keyLt x y = true := by
  unfold keyLt
  rw [hx, hy]
  show (decide (a < b) || _) = true
  rw [decide_eq_true h]
  rfl

/-- Every walk from the start to a cell outside the closed set passes
through an open cell whose stored `g`-value is at most its position on the
walk. -/
theorem cover_lemma (g : Grid) (R C : Nat) (ps pe : Pos) (st : AState)
    (hinv : AInv g R C ps pe st) :
    ∀ n t, Walk g R C ps t n → t ∉ st.closedSet →
    ∃ r i, r ∈ st.openSet ∧ i ≤ n ∧
      (∃ gr, (cellD st.nodes r).g = some gr ∧ gr ≤ i) ∧
      Walk g R C r t (n - i) := by
  intro n
  induction n with
  | zero =>
    intro t hw hnc
    have hps : ps = t := walk_zero_inv g R C ps t hw
    have hpsO : ps ∈ st.openSet := by
      rcases hinv.hpsMem with h | h
      · exact h
      · rw [hps] at h
        exact absurd h hnc
    exact ⟨ps, 0, hpsO, le_refl 0, ⟨0, hinv.hpsG, le_refl 0⟩, hw⟩
  | succ m ih =>
    intro t hw hnc
    obtain ⟨y, hy, hadj, hokt⟩ := walk_unsnoc g R C m ps t hw
    by_cases hyc : y ∈ st.closedSet
    · obtain ⟨hmem, gy, gt, hgy, hgt, hle⟩ := hinv.hfront y hyc t hadj hokt
      have htO : t ∈ st.openSet := by
        rcases hmem with h | h
        · exact h
        · exact absurd h hnc
      obtain ⟨gy2, hgy2, hgy2le⟩ := hinv.hsettled y hyc m hy
      rw [hgy] at hgy2
      have hgyeq : gy = gy2 := Option.some.inj hgy2
      refine ⟨t, m + 1, htO, le_refl _, ⟨gt, hgt, by omega⟩, ?_⟩
      have h2 : m + 1 - (m + 1) = 0 := by omega
      rw [h2]
      exact Walk.nil t hokt
    · obtain ⟨r, i, hrO, hile, hgr, hwrt⟩ := ih y hy hyc
      refine ⟨r, i, hrO, by omega, hgr, ?_⟩
      have h2 : m + 1 - i = (m - i) + 1 := by omega
      rw [h2]
      exact walk_snoc g R C (m - i) r y t hwrt hadj hokt

/-- The popped cell carries the exact shortest-walk distance: the key
optimality consequence of the consistent Manhattan heuristic. -/
theorem pop_lemma (g : Grid) (R C : Nat) (ps pe : Pos) (st : AState)
    (o : Pos) (os : List Pos) (hinv : AInv g R C ps pe st)
    (hopen : st.openSet = o :: os) :
    pickMin (nodeKey st.nodes) o os ∈ st.openSet ∧
    ∃ k, IsLeastWalk g R C ps (pickMin (nodeKey st.nodes) o os) k ∧
      (cellD st.nodes (pickMin (nodeKey st.nodes) o os)).g = some k := by
  obtain ⟨i, hi, hpick, hmin, _⟩ := pickMin_spec (nodeKey st.nodes) o os
  have hcurO : pickMin (nodeKey st.nodes) o os ∈ st.openSet := by
    rw [hopen, hpick]
    exact List.get_mem _ _ _
  have hminMem : ∀ q ∈ st.openSet,
      keyLt (nodeKey st.nodes q) (nodeKey st.nodes
        (pickMin (nodeKey st.nodes) o os)) = false := by
    intro q hq
    rw [hopen] at hq
    obtain ⟨j, hj⟩ := List.mem_iff_get.mp hq
    rw [← hj]
    exact hmin j.1 j.2
  refine ⟨hcurO, ?_⟩
  obtain ⟨gv, hgv, hwv⟩ := hinv.hreal _ (Or.inl hcurO)
  obtain ⟨k, hk⟩ := walk_exists_least g R C ps _ ⟨gv, hwv⟩
  have hkgv : k ≤ gv := hk.2 _ hwv
  have hgvk : gv ≤ k := by
    by_contra hgt
    push_neg at hgt
    have hnc : pickMin (nodeKey st.nodes) o os ∉ st.closedSet :=
      hinv.hdisj _ hcurO
    obtain ⟨r, j, hrO, hjle, ⟨gr, hgr, hgrle⟩, hwrt⟩ :=
      cover_lemma g R C ps pe st hinv k _ hk.1 hnc
    have hmanh := manh_walk g R C r _ (k - j) hwrt pe
    obtain ⟨hhr, hfr⟩ := hinv.hfh r hrO
    obtain ⟨hhc, hfc⟩ := hinv.hfh _ hcurO
    have hfrv : (cellD st.nodes r).f = some (gr + manh r pe) := by
      rw [hfr, hgr]
      rfl
    have hfcv : (cellD st.nodes (pickMin (nodeKey st.nodes) o os)).f =
        some (gv + manh (pickMin (nodeKey st.nodes) o os) pe) := by
      rw [hfc, hgv]
      rfl
    have hlt : gr + manh r pe <
        gv + manh (pickMin (nodeKey st.nodes) o os) pe := by omega
    have hfrv2 : (nodeKey st.nodes r).1 = some (gr + manh r pe) := hfrv
    have hfcv2 : (nodeKey st.nodes (pickMin (nodeKey st.nodes) o os)).1 =
        some (gv + manh (pickMin (nodeKey st.nodes) o os) pe) := hfcv
    have hkey : keyLt (nodeKey st.nodes r)
        (nodeKey st.nodes (pickMin (nodeKey st.nodes) o os)) = true :=
      keyLt_of_f_lt _ _ _ _ hfrv2 hfcv2 hlt
    rw [hminMem r hrO] at hkey
    exact Bool.noConfusion hkey
  have hgveq : gv = k := by omega
  rw [hgveq] at hgv
  exact ⟨k, hk, hgv⟩

/-- The invariant during neighbour expansion: `AInv` with the frontier
clause exempting the just-closed cell `cur`, plus `cur`'s settled facts. -/
structure MidInv (g : Grid) (R C : Nat) (ps pe cur : Pos) (k : Nat)
    (st : AState) : Prop where
  hshape : shape st.nodes R C
  hlayout : ∀ q : Pos, (lookup2 st.nodes q.1 q.2).map layoutView =
      (lookup2 g.nodes q.1 q.2).map layoutView
  hndO : st.openSet.Nodup
  hndC : st.closedSet.Nodup
  hdisj : ∀ q ∈ st.openSet, q ∉ st.closedSet
  hokm : ∀ q : Pos, q ∈ st.openSet ∨ q ∈ st.closedSet → okCell g R C q = true
  hpsMem : ps ∈ st.openSet ∨ ps ∈ st.closedSet
  hpsG : (cellD st.nodes ps).g = some 0
  hpsPar : (cellD st.nodes ps).parent = none
  hreal : ∀ q : Pos, q ∈ st.openSet ∨ q ∈ st.closedSet →
      ∃ gv, (cellD st.nodes q).g = some gv ∧ Walk g R C ps q gv
  hsettled : ∀ q ∈ st.closedSet, ∀ m, Walk g R C ps q m →
      ∃ gv, (cellD st.nodes q).g = some gv ∧ gv ≤ m
  hfrontE : ∀ y ∈ st.closedSet, y ≠ cur → ∀ r : Pos, adjacentB y r = true →
      okCell g R C r = true →
      (r ∈ st.openSet ∨ r ∈ st.closedSet) ∧
      ∃ gy gr, (cellD st.nodes y).g = some gy ∧
        (cellD st.nodes r).g = some gr ∧ gr ≤ gy + 1
  hfh : ∀ q ∈ st.openSet, (cellD st.nodes q).h = manh q pe ∧
      (cellD st.nodes q).f = jsAdd (cellD st.nodes q).g (manh q pe)
  hpar : ∀ q : Pos, q ∈ st.openSet ∨ q ∈ st.closedSet → q ≠ ps →
      ∃ pq gq, (cellD st.nodes q).parent = some pq ∧ pq ∈ st.closedSet ∧
        adjacentB pq q = true ∧ (cellD st.nodes q).g = some (gq + 1) ∧
        (cellD st.nodes pq).g = some gq
  huntouched : ∀ q : Pos, ¬(q ∈ st.openSet ∨ q ∈ st.closedSet) →
      (cellD st.nodes q).g = none ∧ (cellD st.nodes q).parent = none
  hpeC : pe ∉ st.closedSet
  hcurC : cur ∈ st.closedSet
  hgcur : (cellD st.nodes cur).g = some k

/-- A neighbour of `cur` already accounted for by the expansion. -/
def Covered (g : Grid) (R C : Nat) (k : Nat) (st : AState) (r : Pos) : Prop :=
  okCell g R C r = true →
    (r ∈ st.openSet ∨ r ∈ st.closedSet) ∧
    ∃ gr, (cellD st.nodes r).g = some gr ∧ gr ≤ k + 1

theorem expandNeighbor_skip (cur : Pos) (endCell : Node) (s : AState)
    (np : Pos)
    (h : (s.closedSet.contains np || (cellD s.nodes np).isWall) = true) :
    expandNeighbor cur endCell s np = s := by
  unfold expandNeighbor
  rw [if_pos h]

theorem expandNeighbor_noimp (cur : Pos) (endCell : Node) (s : AState)
    (np : Pos)
    (h : (s.closedSet.contains np || (cellD s.nodes np).isWall) = false)
    (h2 : jsLt (jsAdd (cellD s.nodes cur).g (cellD s.nodes np).weight)
      (cellD s.nodes np).g = false) :
    expandNeighbor cur endCell s np = s := by
  unfold expandNeighbor
  rw [if_neg (by rw [h]; exact Bool.noConfusion)]
  rw [if_neg (by rw [h2]; exact Bool.noConfusion)]

theorem expandNeighbor_update (cur : Pos) (endCell : Node) (s : AState)
    (np : Pos)
    (h : (s.closedSet.contains np || (cellD s.nodes np).isWall) = false)
    (h2 : jsLt (jsAdd (cellD s.nodes cur).g (cellD s.nodes np).weight)
      (cellD s.nodes np).g = true) :
    expandNeighbor cur endCell s np =
      { s with
        nodes := setCell s.nodes np (fun n =>
          { n with parent := some cur,
                   g := jsAdd (cellD s.nodes cur).g (cellD s.nodes np).weight,
                   h := Node.calculateHeuristic (cellD s.nodes np) endCell,
                   f := jsAdd
                     (jsAdd (cellD s.nodes cur).g (cellD s.nodes np).weight)
                     (Node.calculateHeuristic (cellD s.nodes np) endCell) }),
        openSet := if s.openSet.contains np then s.openSet
                   else s.openSet ++ [np] } := by
  unfold expandNeighbor
  rw [if_neg (by rw [h]; exact Bool.noConfusion)]
  rw [if_pos h2]

theorem layout_bridge (nodes : List (List Node)) (g : Grid)
    (hlay : ∀ q : Pos, (lookup2 nodes q.1 q.2).map layoutView =
      (lookup2 g.nodes q.1 q.2).map layoutView) (q : Pos) :
    (cellD nodes q).row = (cellD g.nodes q).row ∧
    (cellD nodes q).col = (cellD g.nodes q).col ∧
    (cellD nodes q).isWall = (cellD g.nodes q).isWall ∧
    (cellD nodes q).weight = (cellD g.nodes q).weight :=
  layoutView_fields _ _ (cellD_view_eq layoutView _ _ q (hlay q))

theorem cellD_setCell_self (nodes : List (List Node)) (R C : Nat)
    (hsh : shape nodes R C) (p : Pos) (f : Node → Node)
    (h1 : p.1 < R) (h2 : p.2 < C) :
    cellD (setCell nodes p f) p = f (cellD nodes p) := by
  rw [cellD_setCell, if_pos rfl]
  obtain ⟨n, hl⟩ := Option.isSome_iff_exists.mp
    ((lookup2_isSome_of_shape nodes R C hsh p.1 p.2).mpr ⟨h1, h2⟩)
  rw [hl]
  have hcd : cellD nodes p = n := by
    unfold cellD
    rw [hl]
    rfl
  rw [hcd]

theorem cellD_setCell_other (nodes : List (List Node)) (p q : Pos)
    (f : Node → Node) (hne : q ≠ p) :
    cellD (setCell nodes p f) q = cellD nodes q := by
  rw [cellD_setCell, if_neg hne]

theorem map_layout_setCell (nodes : List (List Node)) (g : Grid) (p : Pos)
    (f : Node → Node) (hf : ∀ n, layoutView (f n) = layoutView n)
    (hlay : ∀ q : Pos, (lookup2 nodes q.1 q.2).map layoutView =
      (lookup2 g.nodes q.1 q.2).map layoutView) :
    ∀ q : Pos, (lookup2 (setCell nodes p f) q.1 q.2).map layoutView =
      (lookup2 g.nodes q.1 q.2).map layoutView := by
  intro q
  rw [lookup2_setCell _ p f q]
  by_cases hq : q = p
  · rw [if_pos hq, ← hlay q]
    cases hl : lookup2 nodes q.1 q.2 <;> simp [hf]
  · rw [if_neg hq]
    exact hlay q

theorem heuristic_eq (nodes : List (List Node)) (g : Grid) (pe : Pos)
    (hlay : ∀ q : Pos, (lookup2 nodes q.1 q.2).map layoutView =
      (lookup2 g.nodes q.1 q.2).map layoutView)
    (hcoords : ∀ q : Pos, q.1 < R → q.2 < C →
      (cellD g.nodes q).row = q.1 ∧ (cellD g.nodes q).col = q.2)
    (np : Pos) (hb1 : np.1 < R) (hb2 : np.2 < C) (endCell : Node)
    (hEr : endCell.row = pe.1) (hEc : endCell.col = pe.2) :
    Node.calculateHeuristic (cellD nodes np) endCell = manh np pe := by
  unfold Node.calculateHeuristic manh
  obtain ⟨hr, hc, _, _⟩ := layout_bridge nodes g hlay np
  obtain ⟨hgr, hgc⟩ := hcoords np hb1 hb2
  rw [hr, hc, hgr, hgc, hEr, hEc]

theorem okCell_wall (g : Grid) (R C : Nat) (q : Pos)
    (h : okCell g R C q = true) : (cellD g.nodes q).isWall = false := by
  unfold okCell Grid.cellAt at h
  rw [Bool.and_eq_true] at h
  have h2 := h.2
  cases hl : lookup2 g.nodes q.1 q.2 with
  | none =>
    rw [hl] at h2
    exact Bool.noConfusion h2
  | some n =>
    rw [hl] at h2
    have h3 : (!n.isWall) = true := h2
    have hcd : cellD g.nodes q = n := by
      unfold cellD
      rw [hl]
      rfl
    rw [hcd]
    cases hw : n.isWall with
    | false => rfl
    | true =>
      rw [hw] at h3
      exact Bool.noConfusion h3

theorem expand_step (g : Grid) (R C : Nat) (ps pe cur : Pos) (k : Nat)
    (endCell : Node) (hEr : endCell.row = pe.1) (hEc : endCell.col = pe.2)
    (hcoords : ∀ q : Pos, q.1 < R → q.2 < C →
      (cellD g.nodes q).row = q.1 ∧ (cellD g.nodes q).col = q.2)
    (hwts : ∀ q : Pos, q.1 < R → q.2 < C → (cellD g.nodes q).weight = 1)
    (hkleast : IsLeastWalk g R C ps cur k)
    (s : AState) (np : Pos) (hm : MidInv g R C ps pe cur k s)
    (hadj : adjacentB cur np = true) (hoknp : okCell g R C np = true) :
    MidInv g R C ps pe cur k (expandNeighbor cur endCell s np) ∧
    Covered g R C k (expandNeighbor cur endCell s np) np ∧
    (∀ r : Pos, Covered g R C k s r →
      Covered g R C k (expandNeighbor cur endCell s np) r) := by
  obtain ⟨hb1, hb2⟩ := okCell_bounds g R C np hoknp
  have hwallS : (cellD s.nodes np).isWall = false := by
    rw [(layout_bridge s.nodes g hm.hlayout np).2.2.1]
    exact okCell_wall g R C np hoknp
  by_cases hcls : s.closedSet.contains np = true
  · have hskip : (s.closedSet.contains np || (cellD s.nodes np).isWall)
        = true := by
      rw [hcls]
      rfl
    rw [expandNeighbor_skip cur endCell s np hskip]
    refine ⟨hm, ?_, fun r hr => hr⟩
    intro _
    have hnpc : np ∈ s.closedSet := (contains_iff _ _).mp hcls
    refine ⟨Or.inr hnpc, ?_⟩
    have hwnp : Walk g R C ps np (k + 1) :=
      walk_snoc g R C k ps cur np hkleast.1 hadj hoknp
    exact hm.hsettled np hnpc (k + 1) hwnp
  · have hclsF : s.closedSet.contains np = false := by
      cases hc2 : s.closedSet.contains np with
      | false => rfl
      | true => exact absurd hc2 hcls
    have hnpc : np ∉ s.closedSet := fun hmem =>
      hcls ((contains_iff _ _).mpr hmem)
    have hcond : (s.closedSet.contains np || (cellD s.nodes np).isWall)
        = false := by
      rw [hclsF, hwallS]
      rfl
    have hwnp1 : (cellD s.nodes np).weight = 1 := by
      rw [(layout_bridge s.nodes g hm.hlayout np).2.2.2]
      exact hwts np hb1 hb2
    have htent : jsAdd (cellD s.nodes cur).g (cellD s.nodes np).weight
        = some (k + 1) := by
      rw [hm.hgcur, hwnp1]
      rfl
    by_cases himp : jsLt (jsAdd (cellD s.nodes cur).g
        (cellD s.nodes np).weight) (cellD s.nodes np).g = true
    · have himp2 : jsLt (some (k + 1)) ((cellD s.nodes np).g) = true := by
        rw [← htent]
        exact himp
      have hnpps : np ≠ ps := by
        intro hcon
        rw [hcon, hm.hpsG] at himp2
        have h9 : ((k + 1 : Nat) < 0) := of_decide_eq_true himp2
        omega
      have hnpcur : np ≠ cur := fun h => hnpc (h ▸ hm.hcurC)
      have hcurnp : cur ≠ np := fun h => hnpcur h.symm
      have hH : Node.calculateHeuristic (cellD s.nodes np) endCell
          = manh np pe :=
        heuristic_eq s.nodes g pe hm.hlayout hcoords np hb1 hb2 endCell hEr hEc
      rw [expandNeighbor_update cur endCell s np hcond himp]
      set f0 : Node → Node := fun n =>
        { n with parent := some cur,
                 g := jsAdd (cellD s.nodes cur).g (cellD s.nodes np).weight,
                 h := Node.calculateHeuristic (cellD s.nodes np) endCell,
                 f := jsAdd
                   (jsAdd (cellD s.nodes cur).g (cellD s.nodes np).weight)
                   (Node.calculateHeuristic (cellD s.nodes np) endCell) }
        with hf0
      set O' : List Pos := if s.openSet.contains np then s.openSet
        else s.openSet ++ [np] with hO'
      have hlay0 : ∀ m : Node, layoutView (f0 m) = layoutView m :=
        fun m => rfl
      have hO'mem : ∀ x : Pos, x ∈ O' ↔ (x ∈ s.openSet ∨ x = np) := by
        intro x
        rw [hO']
        by_cases hc : s.openSet.contains np = true
        · rw [if_pos hc]
          have hnpo : np ∈ s.openSet := (contains_iff _ _).mp hc
          constructor
          · exact Or.inl
          · intro h
            rcases h with h | rfl
            · exact h
            · exact hnpo
        · rw [if_neg hc]
          rw [List.mem_append, List.mem_singleton]
      have hndO' : O'.Nodup := by
        rw [hO']
        by_cases hc : s.openSet.contains np = true
        · rw [if_pos hc]
          exact hm.hndO
        · rw [if_neg hc]
          refine hm.hndO.append (List.nodup_singleton np) ?_
          intro x hx hx2
          rw [List.mem_singleton] at hx2
          subst hx2
          exact hc ((contains_iff _ _).mpr hx)
      have hcdnp : cellD (setCell s.nodes np f0) np = f0 (cellD s.nodes np) :=
        cellD_setCell_self s.nodes R C hm.hshape np f0 hb1 hb2
      have hcdo : ∀ q : Pos, q ≠ np →
          cellD (setCell s.nodes np f0) q = cellD s.nodes q :=
        fun q h => cellD_setCell_other s.nodes np q f0 h
      have hgnew : (cellD (setCell s.nodes np f0) np).g = some (k + 1) := by
        rw [hcdnp]
        exact htent
      have hhnew : (cellD (setCell s.nodes np f0) np).h = manh np pe := by
        rw [hcdnp]
        exact hH
      have hfnew : (cellD (setCell s.nodes np f0) np).f
          = some ((k + 1) + manh np pe) := by
        rw [hcdnp]
        show jsAdd (jsAdd (cellD s.nodes cur).g (cellD s.nodes np).weight)
          (Node.calculateHeuristic (cellD s.nodes np) endCell) = _
        rw [htent, hH]
        rfl
      have hpnew : (cellD (setCell s.nodes np f0) np).parent = some cur := by
        rw [hcdnp]
      refine ⟨⟨?_, ?_, ?_, ?_, ?_, ?_, ?_, ?_, ?_, ?_, ?_, ?_, ?_, ?_, ?_,
        ?_, ?_, ?_⟩, ?_, ?_⟩
      · exact shape_setCell s.nodes R C np f0 hm.hshape
      · exact map_layout_setCell s.nodes g np f0 hlay0 hm.hlayout
      · exact hndO'
      · exact hm.hndC
      · intro q hq
        rcases (hO'mem q).mp hq with h | rfl
        · exact hm.hdisj q h
        · exact hnpc
      · intro q hq
        rcases hq with hq | hq
        · rcases (hO'mem q).mp hq with h | rfl
          · exact hm.hokm q (Or.inl h)
          · exact hoknp
        · exact hm.hokm q (Or.inr hq)
      · rcases hm.hpsMem with h | h
        · exact Or.inl ((hO'mem ps).mpr (Or.inl h))
        · exact Or.inr h
      · rw [hcdo ps (fun h => hnpps h.symm)]
        exact hm.hpsG
      · rw [hcdo ps (fun h => hnpps h.symm)]
        exact hm.hpsPar
      · intro q hq
        by_cases hqnp : q = np
        · subst hqnp
          exact ⟨k + 1, hgnew,
            walk_snoc g R C k ps cur q hkleast.1 hadj hoknp⟩
        · rw [hcdo q hqnp]
          refine hm.hreal q ?_
          rcases hq with hq | hq
          · rcases (hO'mem q).mp hq with h | h
            · exact Or.inl h
            · exact absurd h hqnp
          · exact Or.inr hq
      · intro q hq m hmw
        rw [hcdo q (fun h => hnpc (h ▸ hq))]
        exact hm.hsettled q hq m hmw
      · intro y hy hyne r hadjyr hokr
        have hynp : y ≠ np := fun h => hnpc (h ▸ hy)
        obtain ⟨hmem, gy, gr, hgy, hgr, hle⟩ :=
          hm.hfrontE y hy hyne r hadjyr hokr
        have hmem' : r ∈ O' ∨ r ∈ s.closedSet := by
          rcases hmem with h | h
          · exact Or.inl ((hO'mem r).mpr (Or.inl h))
          · exact Or.inr h
        by_cases hrnp : r = np
        · subst hrnp
          refine ⟨hmem', gy, k + 1, ?_, hgnew, ?_⟩
          · rw [hcdo y hynp]
            exact hgy
          · rw [hgr] at himp2
            have h9 : k + 1 < gr := of_decide_eq_true himp2
            omega
        · refine ⟨hmem', gy, gr, ?_, ?_, hle⟩
          · rw [hcdo y hynp]
            exact hgy
          · rw [hcdo r hrnp]
            exact hgr
      · intro q hq
        by_cases hqnp : q = np
        · subst hqnp
          refine ⟨hhnew, ?_⟩
          rw [hfnew, hgnew]
          rfl
        · rw [hcdo q hqnp]
          rcases (hO'mem q).mp hq with h | h
          · exact hm.hfh q h
          · exact absurd h hqnp
      · intro q hq hqps
        by_cases hqnp : q = np
        · subst hqnp
          refine ⟨cur, k, hpnew, hm.hcurC, hadj, hgnew, ?_⟩
          rw [hcdo cur hcurnp]
          exact hm.hgcur
        · have hq2 : q ∈ s.openSet ∨ q ∈ s.closedSet := by
            rcases hq with hq | hq
            · rcases (hO'mem q).mp hq with h | h
              · exact Or.inl h
              · exact absurd h hqnp
            · exact Or.inr hq
          obtain ⟨pq, gq, h1, h2, h3, h4, h5⟩ := hm.hpar q hq2 hqps
          refine ⟨pq, gq, ?_, h2, h3, ?_, ?_⟩
          · rw [hcdo q hqnp]
            exact h1
          · rw [hcdo q hqnp]
            exact h4
          · rw [hcdo pq (fun hc => hnpc (hc ▸ h2))]
            exact h5
      · intro q hq
        have hqnp : q ≠ np := by
          rintro rfl
          exact hq (Or.inl ((hO'mem q).mpr (Or.inr rfl)))
        have hq2 : ¬(q ∈ s.openSet ∨ q ∈ s.closedSet) := by
          intro h
          apply hq
          rcases h with h | h
          · exact Or.inl ((hO'mem q).mpr (Or.inl h))
          · exact Or.inr h
        rw [hcdo q hqnp]
        exact hm.huntouched q hq2
      · exact hm.hpeC
      · exact hm.hcurC
      · rw [hcdo cur hcurnp]
        exact hm.hgcur
      · intro _
        exact ⟨Or.inl ((hO'mem np).mpr (Or.inr rfl)), k + 1, hgnew,
          le_refl _⟩
      · intro r hr hokr
        obtain ⟨hmem, gr, hgr, hle⟩ := hr hokr
        have hmem' : r ∈ O' ∨ r ∈ s.closedSet := by
          rcases hmem with h | h
          · exact Or.inl ((hO'mem r).mpr (Or.inl h))
          · exact Or.inr h
        by_cases hrnp : r = np
        · subst hrnp
          exact ⟨hmem', k + 1, hgnew, le_refl _⟩
        · refine ⟨hmem', gr, ?_, hle⟩
          rw [hcdo r hrnp]
          exact hgr
    · have himpF : jsLt (jsAdd (cellD s.nodes cur).g
          (cellD s.nodes np).weight) (cellD s.nodes np).g = false := by
        cases hc2 : jsLt (jsAdd (cellD s.nodes cur).g
            (cellD s.nodes np).weight) (cellD s.nodes np).g with
        | false => rfl
        | true => exact absurd hc2 himp
      rw [expandNeighbor_noimp cur endCell s np hcond himpF]
      refine ⟨hm, ?_, fun r hr => hr⟩
      intro _
      have himpF2 : jsLt (some (k + 1)) ((cellD s.nodes np).g) = false := by
        rw [← htent]
        exact himpF
      cases hgnp : (cellD s.nodes np).g with
      | none =>
        rw [hgnp] at himpF2
        exact absurd himpF2 (by unfold jsLt; simp)
      | some v =>
        rw [hgnp] at himpF2
        have hvle : ¬ (k + 1 < v) := of_decide_eq_false himpF2
        have hmem : np ∈ s.openSet ∨ np ∈ s.closedSet := by
          by_contra hno
          have h9 := (hm.huntouched np hno).1
          rw [hgnp] at h9
          exact Option.noConfusion h9
        exact ⟨hmem, v, rfl, by omega⟩

theorem map_view_setCell {α : Type} (view : Node → α)
    (nodes : List (List Node)) (p : Pos) (f : Node → Node)
    (hf : ∀ n, view (f n) = view n) :
    ∀ q : Pos, (lookup2 (setCell nodes p f) q.1 q.2).map view =
      (lookup2 nodes q.1 q.2).map view := by
  intro q
  rw [lookup2_setCell _ p f q]
  by_cases hq : q = p
  · rw [if_pos hq]
    cases lookup2 nodes q.1 q.2 <;> simp [hf]
  · rw [if_neg hq]

theorem expandNeighbor_closed (cur : Pos) (endCell : Node) (s : AState)
    (np : Pos) :
    (expandNeighbor cur endCell s np).closedSet = s.closedSet := by
  by_cases h1 : (s.closedSet.contains np || (cellD s.nodes np).isWall) = true
  · rw [expandNeighbor_skip cur endCell s np h1]
  · have h1F : (s.closedSet.contains np || (cellD s.nodes np).isWall)
        = false := by
      cases hc : (s.closedSet.contains np || (cellD s.nodes np).isWall) with
      | false => rfl
      | true => exact absurd hc h1
    by_cases h2 : jsLt (jsAdd (cellD s.nodes cur).g
        (cellD s.nodes np).weight) (cellD s.nodes np).g = true
    · rw [expandNeighbor_update cur endCell s np h1F h2]
    · have h2F : jsLt (jsAdd (cellD s.nodes cur).g
          (cellD s.nodes np).weight) (cellD s.nodes np).g = false := by
        cases hc : jsLt (jsAdd (cellD s.nodes cur).g
            (cellD s.nodes np).weight) (cellD s.nodes np).g with
        | false => rfl
        | true => exact absurd hc h2
      rw [expandNeighbor_noimp cur endCell s np h1F h2F]

theorem foldl_expand_closed (cur : Pos) (endCell : Node) :
    ∀ (N : List Pos) (s : AState),
    (N.foldl (fun s q => expandNeighbor cur endCell s q) s).closedSet =
      s.closedSet := by
  intro N
  induction N with
  | nil => intro s; rfl
  | cons p rest ih =>
    intro s
    rw [List.foldl_cons, ih, expandNeighbor_closed]

theorem expand_fold (g : Grid) (R C : Nat) (ps pe cur : Pos) (k : Nat)
    (endCell : Node) (hEr : endCell.row = pe.1) (hEc : endCell.col = pe.2)
    (hcoords : ∀ q : Pos, q.1 < R → q.2 < C →
      (cellD g.nodes q).row = q.1 ∧ (cellD g.nodes q).col = q.2)
    (hwts : ∀ q : Pos, q.1 < R → q.2 < C → (cellD g.nodes q).weight = 1)
    (hkleast : IsLeastWalk g R C ps cur k) :
    ∀ (N : List Pos) (s : AState), MidInv g R C ps pe cur k s →
    (∀ r ∈ N, adjacentB cur r = true ∧ okCell g R C r = true) →
    MidInv g R C ps pe cur k
      (N.foldl (fun s q => expandNeighbor cur endCell s q) s) ∧
    (∀ r ∈ N, Covered g R C k
      (N.foldl (fun s q => expandNeighbor cur endCell s q) s) r) ∧
    (∀ r : Pos, Covered g R C k s r → Covered g R C k
      (N.foldl (fun s q => expandNeighbor cur endCell s q) s) r) := by
  intro N
  induction N with
  | nil =>
    intro s hm hN
    exact ⟨hm, fun r hr => absurd hr (List.not_mem_nil r), fun r h => h⟩
  | cons p rest ih =>
    intro s hm hN
    rw [List.foldl_cons]
    obtain ⟨h1, h2, h3⟩ := expand_step g R C ps pe cur k endCell hEr hEc
      hcoords hwts hkleast s p hm
      (hN p (List.mem_cons_self p rest)).1
      (hN p (List.mem_cons_self p rest)).2
    obtain ⟨k1, k2, k3⟩ := ih (expandNeighbor cur endCell s p) h1
      (fun r hr => hN r (List.mem_cons_of_mem p hr))
    refine ⟨k1, ?_, fun r hr => k3 r (h3 r hr)⟩
    intro r hr
    rcases List.mem_cons.mp hr with rfl | hr2
    · exact k3 r h2
    · exact k2 r hr2

theorem MidInv_congr (g : Grid) (R C : Nat) (ps pe cur : Pos) (k : Nat)
    (st st2 : AState) (hinv : MidInv g R C ps pe cur k st)
    (hO : st2.openSet = st.openSet) (hC : st2.closedSet = st.closedSet)
    (hsh2 : shape st2.nodes R C)
    (hsv : ∀ q : Pos, (lookup2 st2.nodes q.1 q.2).map searchView =
      (lookup2 st.nodes q.1 q.2).map searchView) :
    MidInv g R C ps pe cur k st2 := by
  have hf : ∀ q : Pos, (cellD st2.nodes q).g = (cellD st.nodes q).g ∧
      (cellD st2.nodes q).h = (cellD st.nodes q).h ∧
      (cellD st2.nodes q).f = (cellD st.nodes q).f ∧
      (cellD st2.nodes q).parent = (cellD st.nodes q).parent := by
    intro q
    have h9 := searchView_fields _ _ (cellD_view_eq searchView _ _ q (hsv q))
    exact ⟨h9.1, h9.2.1, h9.2.2.1, h9.2.2.2.1⟩
  have hlay2 : ∀ q : Pos, (lookup2 st2.nodes q.1 q.2).map layoutView =
      (lookup2 g.nodes q.1 q.2).map layoutView := by
    intro q
    rw [← hinv.hlayout q]
    cases h1 : lookup2 st2.nodes q.1 q.2 with
    | none =>
      have h2 := hsv q
      rw [h1] at h2
      cases h3 : lookup2 st.nodes q.1 q.2 with
      | none => rfl
      | some m =>
        rw [h3] at h2
        exact Option.noConfusion h2
    | some m =>
      have h2 := hsv q
      rw [h1] at h2
      cases h3 : lookup2 st.nodes q.1 q.2 with
      | none =>
        rw [h3] at h2
        exact Option.noConfusion h2
      | some m2 =>
        rw [h3] at h2
        simp only [Option.map_some'] at h2 ⊢
        have h9 := searchView_fields m m2 (Option.some.inj h2)
        unfold layoutView
        rw [h9.2.2.2.2.1, h9.2.2.2.2.2.1, h9.2.2.2.2.2.2.1,
          h9.2.2.2.2.2.2.2]
  refine ⟨hsh2, hlay2, hO ▸ hinv.hndO, hC ▸ hinv.hndC, ?_, ?_, ?_, ?_, ?_,
    ?_, ?_, ?_, ?_, ?_, ?_, ?_, ?_, ?_⟩
  · intro q hq
    rw [hO] at hq
    rw [hC]
    exact hinv.hdisj q hq
  · intro q hq
    rw [hO, hC] at hq
    exact hinv.hokm q hq
  · rw [hO, hC]
    exact hinv.hpsMem
  · rw [(hf ps).1]
    exact hinv.hpsG
  · rw [(hf ps).2.2.2]
    exact hinv.hpsPar
  · intro q hq
    rw [hO, hC] at hq
    rw [(hf q).1]
    exact hinv.hreal q hq
  · intro q hq m hm
    rw [hC] at hq
    rw [(hf q).1]
    exact hinv.hsettled q hq m hm
  · intro y hy hyne r hadj hokr
    rw [hC] at hy
    rw [hO, hC, (hf y).1, (hf r).1]
    exact hinv.hfrontE y hy hyne r hadj hokr
  · intro q hq
    rw [hO] at hq
    rw [(hf q).2.1, (hf q).2.2.1, (hf q).1]
    exact hinv.hfh q hq
  · intro q hq hqps
    rw [hO, hC] at hq
    rw [(hf q).2.2.2, (hf q).1, hC]
    obtain ⟨pq, gq, h1, h2, h3, h4, h5⟩ := hinv.hpar q hq hqps
    exact ⟨pq, gq, h1, h2, h3, h4, ((hf pq).1).trans h5⟩
  · intro q hq
    rw [hO, hC] at hq
    rw [(hf q).1, (hf q).2.2.2]
    exact hinv.huntouched q hq
  · rw [hC]
    exact hinv.hpeC
  · rw [hC]
    exact hinv.hcurC
  · rw [(hf cur).1]
    exact hinv.hgcur

theorem pop_to_mid (g : Grid) (R C : Nat) (ps pe : Pos) (st : AState)
    (cur : Pos) (k : Nat) (hinv : AInv g R C ps pe st)
    (hcurO : cur ∈ st.openSet) (hkleast : IsLeastWalk g R C ps cur k)
    (hgcur : (cellD st.nodes cur).g = some k) (hne : cur ≠ pe) :
    MidInv g R C ps pe cur k
      { st with openSet := st.openSet.erase cur,
                closedSet := st.closedSet ++ [cur] } := by
  have hOm : ∀ x : Pos, x ∈ st.openSet.erase cur ↔
      x ≠ cur ∧ x ∈ st.openSet := fun x => hinv.hndO.mem_erase_iff
  have hCm : ∀ x : Pos, x ∈ st.closedSet ++ [cur] ↔
      x ∈ st.closedSet ∨ x = cur := by
    intro x
    rw [List.mem_append, List.mem_singleton]
  have hmm : ∀ x : Pos, (x ∈ st.openSet.erase cur ∨
      x ∈ st.closedSet ++ [cur]) → (x ∈ st.openSet ∨ x ∈ st.closedSet) := by
    intro x hx
    rcases hx with hx | hx
    · exact Or.inl ((hOm x).mp hx).2
    · rcases (hCm x).mp hx with h | rfl
      · exact Or.inr h
      · exact Or.inl hcurO
  refine ⟨hinv.hshape, hinv.hlayout, hinv.hndO.erase cur, ?_, ?_, ?_, ?_,
    hinv.hpsG, hinv.hpsPar, ?_, ?_, ?_, ?_, ?_, ?_, ?_, ?_, hgcur⟩
  · show (st.closedSet ++ [cur]).Nodup
    refine hinv.hndC.append (List.nodup_singleton cur) ?_
    intro x hx hx2
    rw [List.mem_singleton] at hx2
    subst hx2
    exact hinv.hdisj x hcurO hx
  · intro q hq
    have hq2 := (hOm q).mp hq
    intro hc
    rcases (hCm q).mp hc with h | h
    · exact hinv.hdisj q hq2.2 h
    · exact hq2.1 h
  · intro q hq
    exact hinv.hokm q (hmm q hq)
  · show ps ∈ st.openSet.erase cur ∨ ps ∈ st.closedSet ++ [cur]
    rcases hinv.hpsMem with h | h
    · by_cases hpc : ps = cur
      · exact Or.inr ((hCm ps).mpr (Or.inr hpc))
      · exact Or.inl ((hOm ps).mpr ⟨hpc, h⟩)
    · exact Or.inr ((hCm ps).mpr (Or.inl h))
  · intro q hq
    exact hinv.hreal q (hmm q hq)
  · intro q hq m hm
    have hq2 := (hCm q).mp hq
    rcases hq2 with h | rfl
    · exact hinv.hsettled q h m hm
    · exact ⟨k, hgcur, hkleast.2 m hm⟩
  · intro y hy hyne r hadjyr hokr
    have hy2 : y ∈ st.closedSet := by
      rcases (hCm y).mp hy with h | h
      · exact h
      · exact absurd h hyne
    obtain ⟨hmem, gy, gr, hgy, hgr, hle⟩ := hinv.hfront y hy2 r hadjyr hokr
    refine ⟨?_, gy, gr, hgy, hgr, hle⟩
    rcases hmem with h | h
    · by_cases hrc : r = cur
      · exact Or.inr ((hCm r).mpr (Or.inr hrc))
      · exact Or.inl ((hOm r).mpr ⟨hrc, h⟩)
    · exact Or.inr ((hCm r).mpr (Or.inl h))
  · intro q hq
    exact hinv.hfh q ((hOm q).mp hq).2
  · intro q hq hqps
    obtain ⟨pq, gq, h1, h2, h3, h4, h5⟩ := hinv.hpar q (hmm q hq) hqps
    exact ⟨pq, gq, h1, (hCm pq).mpr (Or.inl h2), h3, h4, h5⟩
  · intro q hq
    apply hinv.huntouched
    intro hc
    apply hq
    rcases hc with h | h
    · by_cases hqc : q = cur
      · exact Or.inr ((hCm q).mpr (Or.inr hqc))
      · exact Or.inl ((hOm q).mpr ⟨hqc, h⟩)
    · exact Or.inr ((hCm q).mpr (Or.inl h))
  · show pe ∉ st.closedSet ++ [cur]
    intro hc
    rcases (hCm pe).mp hc with h | h
    · exact hinv.hpeC h
    · exact hne h.symm
  · exact (hCm cur).mpr (Or.inr rfl)

theorem popNext_inv (g : Grid) (R C : Nat) (ps pe : Pos)
    (hR : 1 ≤ R) (hshg : shape g.nodes R C)
    (hcoords : ∀ q : Pos, q.1 < R → q.2 < C →
      (cellD g.nodes q).row = q.1 ∧ (cellD g.nodes q).col = q.2)
    (hwts : ∀ q : Pos, q.1 < R → q.2 < C → (cellD g.nodes q).weight = 1)
    (endCell : Node) (hEr : endCell.row = pe.1) (hEc : endCell.col = pe.2)
    (st : AState) (cur : Pos) (k : Nat)
    (hinv : AInv g R C ps pe st) (hcurO : cur ∈ st.openSet)
    (hkleast : IsLeastWalk g R C ps cur k)
    (hgcur : (cellD st.nodes cur).g = some k) (hne : cur ≠ pe) :
    AInv g R C ps pe (popNext endCell st cur) ∧
    (popNext endCell st cur).closedSet = st.closedSet ++ [cur] := by
  have hm1 := pop_to_mid g R C ps pe st cur k hinv hcurO hkleast hgcur hne
  set st1 : AState := { st with openSet := st.openSet.erase cur,
                                closedSet := st.closedSet ++ [cur] } with hst1
  set st2 : AState :=
    if !(cellD st1.nodes cur).isStart && !(cellD st1.nodes cur).isEnd then
      { st1 with
        nodes := setCell st1.nodes cur (fun n => { n with isVisited := true }),
        visitedNodes := st1.visitedNodes ++ [cur],
        nodesExplored := st1.nodesExplored + 1 }
    else st1
    with hst2
  have hO2 : st2.openSet = st1.openSet := by
    rw [hst2]
    by_cases hv : (!(cellD st1.nodes cur).isStart &&
        !(cellD st1.nodes cur).isEnd) = true
    · rw [if_pos hv]
    · rw [if_neg hv]
  have hC2 : st2.closedSet = st1.closedSet := by
    rw [hst2]
    by_cases hv : (!(cellD st1.nodes cur).isStart &&
        !(cellD st1.nodes cur).isEnd) = true
    · rw [if_pos hv]
    · rw [if_neg hv]
  have hsv2 : ∀ q : Pos, (lookup2 st2.nodes q.1 q.2).map searchView =
      (lookup2 st1.nodes q.1 q.2).map searchView := by
    rw [hst2]
    by_cases hv : (!(cellD st1.nodes cur).isStart &&
        !(cellD st1.nodes cur).isEnd) = true
    · rw [if_pos hv]
      exact map_view_setCell searchView st1.nodes cur _ (fun n => rfl)
    · rw [if_neg hv]
      intro q
      rfl
  have hsh2 : shape st2.nodes R C := by
    rw [hst2]
    by_cases hv : (!(cellD st1.nodes cur).isStart &&
        !(cellD st1.nodes cur).isEnd) = true
    · rw [if_pos hv]
      exact shape_setCell st1.nodes R C cur _ hm1.hshape
    · rw [if_neg hv]
      exact hm1.hshape
  have hm2 : MidInv g R C ps pe cur k st2 :=
    MidInv_congr g R C ps pe cur k st1 st2 hm1 hO2 hC2 hsh2 hsv2
  have hcurb := okCell_bounds g R C cur (hinv.hokm cur (Or.inl hcurO))
  have hcurco : (cellD st2.nodes cur).row = cur.1 ∧
      (cellD st2.nodes cur).col = cur.2 := by
    obtain ⟨h1, h2, _, _⟩ := layout_bridge st2.nodes g hm2.hlayout cur
    obtain ⟨h3, h4⟩ := hcoords cur hcurb.1 hcurb.2
    exact ⟨h1.trans h3, h2.trans h4⟩
  have hN : ∀ r ∈ Node.getNeighbors (cellD st2.nodes cur) st2.nodes,
      adjacentB cur r = true ∧ okCell g R C r = true := by
    intro r hr
    rw [mem_getNeighbors st2.nodes R C hm2.hshape hR cur hcurco.1
      hcurco.2 r] at hr
    refine ⟨hr.1, ?_⟩
    rw [okCell_iff_nodes g R C hshg r]
    refine ⟨hr.2.1, hr.2.2.1, ?_⟩
    rw [← (layout_bridge st2.nodes g hm2.hlayout r).2.2.1]
    exact hr.2.2.2
  obtain ⟨hmF, hcov, _⟩ := expand_fold g R C ps pe cur k endCell hEr hEc
    hcoords hwts hkleast
    (Node.getNeighbors (cellD st2.nodes cur) st2.nodes) st2 hm2 hN
  have hpn : popNext endCell st cur =
      (Node.getNeighbors (cellD st2.nodes cur) st2.nodes).foldl
        (fun s q => expandNeighbor cur endCell s q) st2 := by
    rw [hst2, hst1]
    rfl
  rw [hpn]
  have hclosedF : ((Node.getNeighbors (cellD st2.nodes cur) st2.nodes).foldl
      (fun s q => expandNeighbor cur endCell s q) st2).closedSet =
      st.closedSet ++ [cur] := by
    rw [foldl_expand_closed, hC2]
  refine ⟨?_, hclosedF⟩
  refine ⟨hmF.hshape, hmF.hlayout, hmF.hndO, hmF.hndC, hmF.hdisj, hmF.hokm,
    hmF.hpsMem, hmF.hpsG, hmF.hpsPar, hmF.hreal, hmF.hsettled, ?_, hmF.hfh,
    hmF.hpar, hmF.huntouched, hmF.hpeC⟩
  intro y hy r hadjyr hokr
  by_cases hyc : y = cur
  · subst hyc
    have hrb := okCell_bounds g R C r hokr
    have hrN : r ∈ Node.getNeighbors (cellD st2.nodes y) st2.nodes := by
      rw [mem_getNeighbors st2.nodes R C hm2.hshape hR y hcurco.1
        hcurco.2 r]
      refine ⟨hadjyr, hrb.1, hrb.2, ?_⟩
      rw [(layout_bridge st2.nodes g hm2.hlayout r).2.2.1]
      exact okCell_wall g R C r hokr
    obtain ⟨hmem, gr, hgr, hle⟩ := hcov r hrN hokr
    exact ⟨hmem, k, gr, hmF.hgcur, hgr, hle⟩
  · exact hmF.hfrontE y hy hyc r hadjyr hokr

theorem countCells_eq (nodes : List (List Node)) (R C : Nat)
    (hsh : shape nodes R C) : countCells nodes = R * C := by
  unfold countCells
  have hrep : nodes.map List.length = List.replicate R C := by
    rw [List.eq_replicate_iff]
    refine ⟨by rw [List.length_map]; exact hsh.1, ?_⟩
    intro b hb
    obtain ⟨rw0, hrw, hlen⟩ := List.mem_map.mp hb
    rw [← hlen]
    exact hsh.2 rw0 hrw
  rw [hrep, List.sum_replicate, smul_eq_mul]

/-- A well-formed simple path for the grid walk semantics. -/
def validPath (g : Grid) (R C : Nat) (ps pe : Pos) (path : List Pos) : Prop :=
  path.head? = some ps ∧ path.getLast? = some pe ∧ path.Nodup ∧
  (∀ p ∈ path, okCell g R C p = true) ∧
  (∀ i, ∀ hi : i + 1 < path.length, adjacentB path[i] path[i + 1] = true)

theorem chain_nodup (nodes : List (List Node)) (cells : List Pos)
    (hidx : ∀ i, ∀ hi : i < cells.length,
      (cellD nodes cells[i]).g = some i) : cells.Nodup := by
  rw [List.nodup_iff_injective_get]
  intro a b hab
  have h3 : (cellD nodes (cells.get a)).g = some a.1 := hidx a.1 a.2
  have h4 : (cellD nodes (cells.get b)).g = some b.1 := hidx b.1 b.2
  rw [hab] at h3
  rw [h4] at h3
  exact Fin.ext (Option.some.inj h3).symm

theorem path_walk (g : Grid) (R C : Nat) :
    ∀ (cells : List Pos) (a b : Pos), cells.head? = some a →
    cells.getLast? = some b →
    (∀ p ∈ cells, okCell g R C p = true) →
    (∀ i, ∀ hi : i + 1 < cells.length,
      adjacentB cells[i] cells[i + 1] = true) →
    Walk g R C a b (cells.length - 1) := by
  intro cells
  induction cells with
  | nil =>
    intro a b h
    exact absurd h (by simp)
  | cons x rest ih =>
    intro a b hhead hlast hok hadj
    have hax : x = a := by simpa using hhead
    subst hax
    cases rest with
    | nil =>
      have hxb : x = b := by simpa using hlast
      subst hxb
      exact Walk.nil x (hok x (List.mem_cons_self x []))
    | cons y rest2 =>
      have hlast2 : (y :: rest2).getLast? = some b := by
        rw [← hlast]
        rfl
      have hok2 : ∀ p ∈ y :: rest2, okCell g R C p = true :=
        fun p hp => hok p (List.mem_cons_of_mem x hp)
      have hadj2 : ∀ i, ∀ hi : i + 1 < (y :: rest2).length,
          adjacentB (y :: rest2)[i] (y :: rest2)[i + 1] = true := by
        intro i hi
        have hi2 : (i + 1) + 1 < (x :: y :: rest2).length := by
          simp at hi ⊢
          omega
        have := hadj (i + 1) hi2
        simpa using this
      have hw := ih y b rfl hlast2 hok2 hadj2
      have hxy : adjacentB x y = true := by
        have h0 : 0 + 1 < (x :: y :: rest2).length := by simp
        have := hadj 0 h0
        simpa using this
      have hwc := Walk.cons x y b ((y :: rest2).length - 1) hxy
        (hok x (List.mem_cons_self x (y :: rest2))) hw
      have hlen : (y :: rest2).length - 1 + 1 =
          (x :: y :: rest2).length - 1 := by
        simp
      rw [hlen] at hwc
      exact hwc

theorem reconstruct_spec (g : Grid) (R C : Nat) (nodes : List (List Node))
    (ps : Pos) (Q : Pos → Prop)
    (hps0 : (cellD nodes ps).g = some 0)
    (hpsPar : (cellD nodes ps).parent = none)
    (hQok : ∀ q : Pos, Q q → okCell g R C q = true)
    (hstep : ∀ q : Pos, Q q → q ≠ ps →
      ∃ pq gq, (cellD nodes q).parent = some pq ∧ Q pq ∧
        adjacentB pq q = true ∧ (cellD nodes q).g = some (gq + 1) ∧
        (cellD nodes pq).g = some gq) :
    ∀ k : Nat, ∀ q : Pos, ∀ (acc : List Pos) (fuel : Nat), Q q →
    (cellD nodes q).g = some k → k ≤ fuel →
    ∃ cells : List Pos,
      AStar.reconstructPath nodes fuel q acc = cells ++ acc ∧
      cells.length = k + 1 ∧ cells.head? = some ps ∧
      cells.getLast? = some q ∧
      (∀ i, ∀ hi : i < cells.length,
        (cellD nodes cells[i]).g = some i ∧
        okCell g R C cells[i] = true) ∧
      (∀ i, ∀ hi : i + 1 < cells.length,
        adjacentB cells[i] cells[i + 1] = true) := by
  intro k
  induction k with
  | zero =>
    intro q acc fuel hQ hg _
    have hqps : q = ps := by
      by_contra hne
      obtain ⟨pq, gq, _, _, _, h4, _⟩ := hstep q hQ hne
      rw [hg] at h4
      have := Option.some.inj h4
      omega
    subst hqps
    have hout : AStar.reconstructPath nodes fuel q acc = [q] ++ acc := by
      cases fuel with
      | zero => rfl
      | succ f =>
        show (match (cellD nodes q).parent with
              | none => q :: acc
              | some p2 => AStar.reconstructPath nodes f p2 (q :: acc)) = _
        rw [hpsPar]
        rfl
    refine ⟨[q], hout, rfl, rfl, rfl, ?_, ?_⟩
    · intro i hi
      have hi0 : i = 0 := by
        simp at hi
        omega
      subst hi0
      exact ⟨hg, hQok q hQ⟩
    · intro i hi
      simp at hi
  | succ k ih =>
    intro q acc fuel hQ hg hfuel
    have hqps : q ≠ ps := by
      intro hcon
      rw [hcon, hps0] at hg
      have := Option.some.inj hg
      omega
    obtain ⟨pq, gq, hpar1, hQpq, hadjpq, hg1, hg2⟩ := hstep q hQ hqps
    have hgqk : k = gq := by
      rw [hg] at hg1
      have := Option.some.inj hg1
      omega
    subst hgqk
    cases fuel with
    | zero => omega
    | succ f =>
      have hout : AStar.reconstructPath nodes (f + 1) q acc =
          AStar.reconstructPath nodes f pq (q :: acc) := by
        show (match (cellD nodes q).parent with
              | none => q :: acc
              | some p2 => AStar.reconstructPath nodes f p2 (q :: acc)) = _
        rw [hpar1]
      obtain ⟨cells0, hrec, hlen, hhead, hlast, hidx, hadj⟩ :=
        ih pq (q :: acc) f hQpq hg2 (by omega)
      have hne0 : cells0 ≠ [] := by
        intro hcon
        rw [hcon] at hlen
        simp at hlen
      refine ⟨cells0 ++ [q], ?_, ?_, ?_, List.getLast?_concat cells0, ?_, ?_⟩
      · rw [hout, hrec, List.append_assoc]
        rfl
      · rw [List.length_append, hlen]
        rfl
      · cases hc : cells0 with
        | nil => exact absurd hc hne0
        | cons a t =>
          rw [hc] at hhead
          exact hhead
      · intro i hi
        rw [List.length_append, hlen] at hi
        by_cases hik : i < k + 1
        · have hik2 : i < cells0.length := by omega
          rw [List.getElem_append_left hik2]
          exact hidx i hik2
        · have hieq : i = k + 1 := by
            simp at hi
            omega
          have hieq2 : i = cells0.length := by omega
          rw [List.getElem_concat_length cells0 q i hieq2]
          exact ⟨by rw [hieq]; exact hg, hQok q hQ⟩
      · intro i hi
        rw [List.length_append, hlen] at hi
        by_cases hik : i + 1 < k + 1
        · have h1 : i + 1 < cells0.length := by omega
          have h2 : i < cells0.length := by omega
          rw [List.getElem_append_left h2, List.getElem_append_left h1]
          exact hadj i h1
        · have hieq : i = k := by
            simp at hi
            omega
          have h2 : i < cells0.length := by omega
          rw [List.getElem_append_left h2]
          have hieq2 : i + 1 = cells0.length := by omega
          rw [List.getElem_concat_length cells0 q (i + 1) hieq2]
          have hlastg : cells0[i] = pq := by
            have h9 := List.getLast?_eq_getElem? cells0
            rw [hlast] at h9
            have h10 : cells0.length - 1 = i := by omega
            rw [h10] at h9
            rw [List.getElem?_eq_getElem h2] at h9
            exact (Option.some.inj h9).symm
          rw [hlastg]
          exact hadjpq

theorem aloop_none_eq (pe : Pos) (endCell : Node) (fuel : Nat) (st : AState)
    (hopen : st.openSet = []) :
    aloop pe endCell (fuel + 1) st = (none, st) := by
  show (match st.openSet with
        | [] => (none, st)
        | _ :: _ =>
          match AStar.getLowestFNode st.nodes st.openSet with
          | none => (none, st)
          | some cur =>
            if cur = pe then (some (mkResult st cur), st)
            else aloop pe endCell fuel (popNext endCell st cur)) = (none, st)
  rw [hopen]

theorem aloop_goal_eq (pe : Pos) (endCell : Node) (fuel : Nat) (st : AState)
    (o : Pos) (os : List Pos) (hopen : st.openSet = o :: os)
    (hcur : pickMin (nodeKey st.nodes) o os = pe) :
    aloop pe endCell (fuel + 1) st = (some (mkResult st pe), st) := by
  show (match st.openSet with
        | [] => (none, st)
        | _ :: _ =>
          match AStar.getLowestFNode st.nodes st.openSet with
          | none => (none, st)
          | some cur =>
            if cur = pe then (some (mkResult st cur), st)
            else aloop pe endCell fuel (popNext endCell st cur)) = _
  rw [hopen]
  show (match AStar.getLowestFNode st.nodes (o :: os) with
        | none => (none, st)
        | some cur =>
          if cur = pe then (some (mkResult st cur), st)
          else aloop pe endCell fuel (popNext endCell st cur)) = _
  rw [getLowestFNode_eq_pickMin, hcur]
  show (if pe = pe then (some (mkResult st pe), st)
        else aloop pe endCell fuel (popNext endCell st pe)) = _
  rw [if_pos rfl]

theorem aloop_cont_eq (pe : Pos) (endCell : Node) (fuel : Nat) (st : AState)
    (o : Pos) (os : List Pos) (cur : Pos) (hopen : st.openSet = o :: os)
    (hcur : pickMin (nodeKey st.nodes) o os = cur) (hne : cur ≠ pe) :
    aloop pe endCell (fuel + 1) st =
      aloop pe endCell fuel (popNext endCell st cur) := by
  show (match st.openSet with
        | [] => (none, st)
        | _ :: _ =>
          match AStar.getLowestFNode st.nodes st.openSet with
          | none => (none, st)
          | some cur =>
            if cur = pe then (some (mkResult st cur), st)
            else aloop pe endCell fuel (popNext endCell st cur)) = _
  rw [hopen]
  show (match AStar.getLowestFNode st.nodes (o :: os) with
        | none => (none, st)
        | some cur2 =>
          if cur2 = pe then (some (mkResult st cur2), st)
          else aloop pe endCell fuel (popNext endCell st cur2)) = _
  rw [getLowestFNode_eq_pickMin, hcur]
  show (if cur = pe then (some (mkResult st cur), st)
        else aloop pe endCell fuel (popNext endCell st cur)) = _
  rw [if_neg hne]

theorem aloop_sound (g : Grid) (R C : Nat) (ps pe : Pos)
    (hR : 1 ≤ R) (hshg : shape g.nodes R C)
    (hcoords : ∀ q : Pos, q.1 < R → q.2 < C →
      (cellD g.nodes q).row = q.1 ∧ (cellD g.nodes q).col = q.2)
    (hwts : ∀ q : Pos, q.1 < R → q.2 < C → (cellD g.nodes q).weight = 1)
    (endCell : Node) (hEr : endCell.row = pe.1) (hEc : endCell.col = pe.2) :
    ∀ (fuel : Nat) (st : AState), AInv g R C ps pe st →
    ∀ (res : AResult) (st2 : AState),
    aloop pe endCell fuel st = (some res, st2) →
    ∃ k, IsLeastWalk g R C ps pe k ∧ validPath g R C ps pe res.path ∧
      res.path.length = k + 1 ∧ res.pathLength = res.path.length := by
  intro fuel
  induction fuel with
  | zero =>
    intro st hinv res st2 hrun
    exact absurd hrun (by simp [aloop])
  | succ f ih =>
    intro st hinv res st2 hrun
    cases hopen : st.openSet with
    | nil =>
      rw [aloop_none_eq pe endCell f st hopen] at hrun
      simp at hrun
    | cons o os =>
      obtain ⟨hcurO, k, hkleast, hgcur⟩ := pop_lemma g R C ps pe st o os
        hinv hopen
      by_cases hcur : pickMin (nodeKey st.nodes) o os = pe
      · rw [aloop_goal_eq pe endCell f st o os hopen hcur] at hrun
        have hres : res = mkResult st pe := by
          have h9 := congrArg Prod.fst hrun
          exact (Option.some.inj h9).symm
        rw [hcur] at hcurO hkleast hgcur
        have hstep : ∀ q : Pos, (q ∈ st.openSet ∨ q ∈ st.closedSet) →
            q ≠ ps → ∃ pq gq, (cellD st.nodes q).parent = some pq ∧
            (pq ∈ st.openSet ∨ pq ∈ st.closedSet) ∧
            adjacentB pq q = true ∧ (cellD st.nodes q).g = some (gq + 1) ∧
            (cellD st.nodes pq).g = some gq := by
          intro q hq hqps
          obtain ⟨pq, gq, h1, h2, h3, h4, h5⟩ := hinv.hpar q hq hqps
          exact ⟨pq, gq, h1, Or.inr h2, h3, h4, h5⟩
        obtain ⟨cellsB, _, hlenB, _, _, hidxB, _⟩ :=
          reconstruct_spec g R C st.nodes ps
            (fun q => q ∈ st.openSet ∨ q ∈ st.closedSet)
            hinv.hpsG hinv.hpsPar hinv.hokm hstep k pe [] k
            (Or.inl hcurO) hgcur (le_refl k)
        have hndB : cellsB.Nodup :=
          chain_nodup st.nodes cellsB (fun i hi => (hidxB i hi).1)
        have hbB : ∀ q ∈ cellsB, q.1 < R ∧ q.2 < C := by
          intro q hq
          obtain ⟨i, hi, hqi⟩ := List.mem_iff_getElem.mp hq
          rw [← hqi]
          exact okCell_bounds g R C _ (hidxB i hi).2
        have hkb : k + 1 ≤ R * C := by
          have := nodup_bounds_length cellsB R C hndB hbB
          omega
        have hcc : countCells st.nodes = R * C :=
          countCells_eq st.nodes R C hinv.hshape
        obtain ⟨cells, hrec, hlen, hhead, hlast, hidx, hadj⟩ :=
          reconstruct_spec g R C st.nodes ps
            (fun q => q ∈ st.openSet ∨ q ∈ st.closedSet)
            hinv.hpsG hinv.hpsPar hinv.hokm hstep k pe []
            (countCells st.nodes + 1) (Or.inl hcurO) hgcur (by omega)
        have hpath : res.path = cells := by
          rw [hres]
          show AStar.reconstructPath st.nodes (countCells st.nodes + 1)
            pe [] = cells
          rw [hrec, List.append_nil]
        refine ⟨k, hkleast, ?_, ?_, ?_⟩
        · rw [hpath]
          refine ⟨hhead, hlast, chain_nodup st.nodes cells
            (fun i hi => (hidx i hi).1), ?_, hadj⟩
          intro p hp
          obtain ⟨i, hi, hpi⟩ := List.mem_iff_getElem.mp hp
          rw [← hpi]
          exact (hidx i hi).2
        · rw [hpath, hlen]
        · rw [hres]
          rfl
      · rw [aloop_cont_eq pe endCell f st o os _ hopen rfl hcur] at hrun
        obtain ⟨hinv2, _⟩ := popNext_inv g R C ps pe hR hshg hcoords hwts
          endCell hEr hEc st _ k hinv hcurO hkleast hgcur hcur
        exact ih (popNext endCell st _) hinv2 res st2 hrun

theorem aloop_complete (g : Grid) (R C : Nat) (ps pe : Pos)
    (hR : 1 ≤ R) (hshg : shape g.nodes R C)
    (hcoords : ∀ q : Pos, q.1 < R → q.2 < C →
      (cellD g.nodes q).row = q.1 ∧ (cellD g.nodes q).col = q.2)
    (hwts : ∀ q : Pos, q.1 < R → q.2 < C → (cellD g.nodes q).weight = 1)
    (endCell : Node) (hEr : endCell.row = pe.1) (hEc : endCell.col = pe.2)
    (kpe : Nat) (hkpe : IsLeastWalk g R C ps pe kpe) :
    ∀ (fuel : Nat) (st : AState), AInv g R C ps pe st →
    R * C + 1 ≤ fuel + st.closedSet.length →
    ∃ res st2, aloop pe endCell fuel st = (some res, st2) := by
  intro fuel
  induction fuel with
  | zero =>
    intro st hinv hfuel
    exfalso
    have hb : ∀ q ∈ st.closedSet, q.1 < R ∧ q.2 < C := by
      intro q hq
      exact okCell_bounds g R C q (hinv.hokm q (Or.inr hq))
    have := nodup_bounds_length st.closedSet R C hinv.hndC hb
    omega
  | succ f ih =>
    intro st hinv hfuel
    cases hopen : st.openSet with
    | nil =>
      exfalso
      obtain ⟨r, i, hrO, _, _, _⟩ := cover_lemma g R C ps pe st hinv kpe pe
        hkpe.1 hinv.hpeC
      rw [hopen] at hrO
      exact List.not_mem_nil r hrO
    | cons o os =>
      obtain ⟨hcurO, k, hkleast, hgcur⟩ := pop_lemma g R C ps pe st o os
        hinv hopen
      by_cases hcur : pickMin (nodeKey st.nodes) o os = pe
      · exact ⟨mkResult st pe, st,
          aloop_goal_eq pe endCell f st o os hopen hcur⟩
      · rw [aloop_cont_eq pe endCell f st o os _ hopen rfl hcur]
        obtain ⟨hinv2, hclosed2⟩ := popNext_inv g R C ps pe hR hshg hcoords
          hwts endCell hEr hEc st _ k hinv hcurO hkleast hgcur hcur
        refine ih (popNext endCell st _) hinv2 ?_
        rw [hclosed2, List.length_append]
        simp
        omega

theorem initState_inv (g : Grid) (R C : Nat) (ps pe : Pos)
    (hWF : WFgrid g R C) (hroles : RolesOk g R C ps pe)
    (g1 : Grid) (hsh1 : shape g1.nodes R C)
    (hg1nodes : ∀ q : Pos, lookup2 g1.nodes q.1 q.2 =
      (lookup2 g.nodes q.1 q.2).map Node.reset) :
    AInv g R C ps pe (initState g1 ps pe) := by
  have hshg := WFgrid_shape g R C hWF
  have hcoords : ∀ q : Pos, q.1 < R → q.2 < C →
      (cellD g.nodes q).row = q.1 ∧ (cellD g.nodes q).col = q.2 := by
    intro q h1 h2
    have h9 := hWF.2.2.2.2.2.2 q.1 h1 q.2 h2
    exact ⟨h9.2.1, h9.2.2⟩
  have hpsb1 : ps.1 < R := hroles.2.2.2.1
  have hpsb2 : ps.2 < C := hroles.2.2.2.2.1
  have hpeb1 : pe.1 < R := hroles.2.2.2.2.2.1
  have hpeb2 : pe.2 < C := hroles.2.2.2.2.2.2.1
  have hokps : okCell g R C ps = true := by
    rw [okCell_iff_nodes g R C hshg ps]
    exact ⟨hpsb1, hpsb2, hroles.2.2.2.2.2.2.2.2.1⟩
  have hlay1 : ∀ q : Pos, (lookup2 g1.nodes q.1 q.2).map layoutView =
      (lookup2 g.nodes q.1 q.2).map layoutView := by
    intro q
    rw [hg1nodes q]
    cases hl : lookup2 g.nodes q.1 q.2 <;> rfl
  have hcdg1 : ∀ q : Pos, cellD g1.nodes q = Node.reset (cellD g.nodes q) := by
    intro q
    unfold cellD
    rw [hg1nodes q]
    cases hl : lookup2 g.nodes q.1 q.2 <;> rfl
  have hEr : (cellD g1.nodes pe).row = pe.1 := by
    rw [hcdg1 pe]
    show (cellD g.nodes pe).row = pe.1
    exact (hcoords pe hpeb1 hpeb2).1
  have hEc : (cellD g1.nodes pe).col = pe.2 := by
    rw [hcdg1 pe]
    show (cellD g.nodes pe).col = pe.2
    exact (hcoords pe hpeb1 hpeb2).2
  have hH : Node.calculateHeuristic (cellD g1.nodes ps) (cellD g1.nodes pe)
      = manh ps pe :=
    heuristic_eq g1.nodes g pe hlay1 hcoords ps hpsb1 hpsb2
      (cellD g1.nodes pe) hEr hEc
  have hcdst : ∀ q : Pos, cellD (initState g1 ps pe).nodes q =
      (if q = ps then (fun n => { n with
        g := some 0,
        h := Node.calculateHeuristic (cellD g1.nodes ps) (cellD g1.nodes pe),
        f := some (Node.calculateHeuristic (cellD g1.nodes ps)
          (cellD g1.nodes pe)) }) (cellD g1.nodes q)
      else cellD g1.nodes q) := by
    intro q
    by_cases hq : q = ps
    · subst hq
      rw [if_pos rfl]
      exact cellD_setCell_self g1.nodes R C hsh1 q _ hpsb1 hpsb2
    · rw [if_neg hq]
      exact cellD_setCell_other g1.nodes ps q _ hq
  have hmemO : ∀ q : Pos, q ∈ (initState g1 ps pe).openSet ↔ q = ps := by
    intro q
    show q ∈ [ps] ↔ q = ps
    rw [List.mem_singleton]
  have hmemC : ∀ q : Pos, q ∉ (initState g1 ps pe).closedSet := by
    intro q
    exact List.not_mem_nil q
  refine ⟨?_, ?_, ?_, ?_, ?_, ?_, ?_, ?_, ?_, ?_, ?_, ?_, ?_, ?_, ?_, ?_⟩
  · exact shape_setCell g1.nodes R C ps _ hsh1
  · intro q
    exact (map_view_setCell layoutView g1.nodes ps
      (fun n => { n with
        g := some 0,
        h := Node.calculateHeuristic (cellD g1.nodes ps) (cellD g1.nodes pe),
        f := some (Node.calculateHeuristic (cellD g1.nodes ps)
          (cellD g1.nodes pe)) }) (fun n => rfl) q).trans (hlay1 q)
  · exact List.nodup_singleton ps
  · exact List.nodup_nil
  · intro q hq
    exact hmemC q
  · intro q hq
    rcases hq with hq | hq
    · rw [(hmemO q).mp hq]
      exact hokps
    · exact absurd hq (hmemC q)
  · exact Or.inl ((hmemO ps).mpr rfl)
  · rw [hcdst ps, if_pos rfl]
  · rw [hcdst ps, if_pos rfl]
    show (cellD g1.nodes ps).parent = none
    rw [hcdg1 ps]
    rfl
  · intro q hq
    have hqps : q = ps := by
      rcases hq with hq | hq
      · exact (hmemO q).mp hq
      · exact absurd hq (hmemC q)
    subst hqps
    refine ⟨0, ?_, Walk.nil q hokps⟩
    rw [hcdst q, if_pos rfl]
  · intro q hq
    exact absurd hq (hmemC q)
  · intro y hy
    exact absurd hy (hmemC y)
  · intro q hq
    have hqps : q = ps := (hmemO q).mp hq
    subst hqps
    constructor
    · rw [hcdst q, if_pos rfl]
      show Node.calculateHeuristic (cellD g1.nodes q) (cellD g1.nodes pe)
        = manh q pe
      exact hH
    · rw [hcdst q, if_pos rfl]
      show some (Node.calculateHeuristic (cellD g1.nodes q)
        (cellD g1.nodes pe)) = jsAdd (some 0) (manh q pe)
      rw [hH]
      show some (manh q pe) = some (0 + manh q pe)
      rw [Nat.zero_add]
  · intro q hq hqps
    have hq2 : q = ps := by
      rcases hq with hq | hq
      · exact (hmemO q).mp hq
      · exact absurd hq (hmemC q)
    exact absurd hq2 hqps
  · intro q hq
    have hqps : q ≠ ps := by
      intro hcon
      exact hq (Or.inl ((hmemO q).mpr hcon))
    rw [hcdst q, if_neg hqps, hcdg1 q]
    exact ⟨rfl, rfl⟩
  · exact hmemC pe

theorem findPath_spec (g : Grid) (R C : Nat) (ps pe : Pos)
    (hWF : WFgrid g R C) (hunit : unitWeights g)
    (hroles : RolesOk g R C ps pe) :
    ∃ (o : Option AResult) (g2 : Grid),
      AStar.findPath g = Except.ok (o, g2) ∧
      (∀ res : AResult, o = some res →
        ∃ k, IsLeastWalk g R C ps pe k ∧ validPath g R C ps pe res.path ∧
          res.path.length = k + 1 ∧ res.pathLength = res.path.length) ∧
      ((∃ n, Walk g R C ps pe n) → o.isSome = true) := by
  obtain ⟨g1, hrun0, hr1, hc1, hs1, he1, hsh1, hl1⟩ :=
    applyCells_uniform Node.reset g R C hWF
  have hresetEq : g.resetPathfinding = Except.ok g1 := hrun0
  have hR1 : 1 ≤ R := hWF.2.2.1
  have hshg := WFgrid_shape g R C hWF
  have hcoords : ∀ q : Pos, q.1 < R → q.2 < C →
      (cellD g.nodes q).row = q.1 ∧ (cellD g.nodes q).col = q.2 := by
    intro q h1 h2
    have h9 := hWF.2.2.2.2.2.2 q.1 h1 q.2 h2
    exact ⟨h9.2.1, h9.2.2⟩
  have hwts : ∀ q : Pos, q.1 < R → q.2 < C → (cellD g.nodes q).weight = 1 :=
    fun q h1 h2 => unitWeights_cellD g R C hshg hunit q h1 h2
  have hcdg1 : ∀ q : Pos, cellD g1.nodes q = Node.reset (cellD g.nodes q) := by
    intro q
    unfold cellD
    rw [hl1 q]
    cases hl : lookup2 g.nodes q.1 q.2 <;> rfl
  have hEr : (cellD g1.nodes pe).row = pe.1 := by
    rw [hcdg1 pe]
    show (cellD g.nodes pe).row = pe.1
    exact (hcoords pe hroles.2.2.2.2.2.1 hroles.2.2.2.2.2.2.1).1
  have hEc : (cellD g1.nodes pe).col = pe.2 := by
    rw [hcdg1 pe]
    show (cellD g.nodes pe).col = pe.2
    exact (hcoords pe hroles.2.2.2.2.2.1 hroles.2.2.2.2.2.2.1).2
  have hinv := initState_inv g R C ps pe hWF hroles g1 hsh1 hl1
  have hfuel : natDim g1.rows * natDim g1.cols + 1 = R * C + 1 := by
    rw [hr1, hc1, hWF.1, hWF.2.1, natDim_some, natDim_some]
  have hfp : AStar.findPath g = Except.ok
      ((aloop pe (cellD g1.nodes pe) (natDim g1.rows * natDim g1.cols + 1)
        (initState g1 ps pe)).1,
       { g1 with nodes := (aloop pe (cellD g1.nodes pe)
         (natDim g1.rows * natDim g1.cols + 1)
         (initState g1 ps pe)).2.nodes }) := by
    unfold AStar.findPath
    rw [hroles.1, hroles.2.1]
    show (match g.resetPathfinding with
      | Except.error gE => Except.error gE
      | Except.ok g1 =>
        let endCell := cellD g1.nodes pe
        let fuel := natDim g1.rows * natDim g1.cols + 1
        let res := aloop pe endCell fuel (initState g1 ps pe)
        Except.ok (res.1, { g1 with nodes := res.2.nodes })) = _
    rw [hresetEq]
  refine ⟨(aloop pe (cellD g1.nodes pe)
      (natDim g1.rows * natDim g1.cols + 1) (initState g1 ps pe)).1,
    { g1 with nodes := (aloop pe (cellD g1.nodes pe)
      (natDim g1.rows * natDim g1.cols + 1)
      (initState g1 ps pe)).2.nodes }, hfp, ?_, ?_⟩
  · intro res hres
    have hrunA : aloop pe (cellD g1.nodes pe)
        (natDim g1.rows * natDim g1.cols + 1) (initState g1 ps pe) =
        (some res, (aloop pe (cellD g1.nodes pe)
          (natDim g1.rows * natDim g1.cols + 1) (initState g1 ps pe)).2) := by
      rw [← hres]
    exact aloop_sound g R C ps pe hR1 hshg hcoords hwts
      (cellD g1.nodes pe) hEr hEc _ _ hinv res _ hrunA
  · rintro ⟨n, hw⟩
    obtain ⟨kpe, hkpe⟩ := walk_exists_least g R C ps pe ⟨n, hw⟩
    have hb : R * C + 1 ≤ (natDim g1.rows * natDim g1.cols + 1) +
        (initState g1 ps pe).closedSet.length := by
      show R * C + 1 ≤ natDim g1.rows * natDim g1.cols + 1 + 0
      rw [hfuel]
    obtain ⟨res, st2, hrunA⟩ := aloop_complete g R C ps pe hR1 hshg
      hcoords hwts (cellD g1.nodes pe) hEr hEc kpe hkpe _ _ hinv hb
    rw [hrunA]
    rfl

/-- C1: on any well-formed grid with unit weights and coherent start/goal
roles, whenever the independent breadth-first-search oracle reports a
shortest obstacle-free orthogonal walk of `k` steps from start to goal,
`AStar.findPath` returns (as an ordinary success) a genuine start-to-goal
path whose cell count — both as the list length and as the reported
`pathLength` — is `k + 1`, i.e. exactly the length of a BFS shortest path. -/
theorem claim_C1_astar_bfs_length (g : Grid) (R C : Nat) (ps pe : Pos)
    (hWF : WFgrid g R C) (hunit : unitWeights g)
    (hroles : RolesOk g R C ps pe) (k : Nat)
    (hbfs : bfsOracle g = some k) :
    ∃ (res : AResult) (g2 : Grid),
      AStar.findPath g = Except.ok (some res, g2) ∧
      validPath g R C ps pe res.path ∧
      res.path.length = k + 1 ∧ res.pathLength = k + 1 := by
  have hleast : IsLeastWalk g R C ps pe k :=
    bfsOracle_sound g R C ps pe hWF.1 hWF.2.1 hroles.1 hroles.2.1 k hbfs
  obtain ⟨o, g2, hfp, hsound, hcomp⟩ := findPath_spec g R C ps pe hWF hunit hroles
  have hsome : o.isSome = true := hcomp ⟨k, hleast.1⟩
  obtain ⟨res, hres⟩ := Option.isSome_iff_exists.mp hsome
  obtain ⟨k2, hk2, hvalid, hlen, hpl⟩ := hsound res hres
  have hkk : k2 = k := least_unique g R C ps pe k2 k hk2 hleast
  refine ⟨res, g2, ?_, hvalid, ?_, ?_⟩
  · rw [← hres]
    exact hfp
  · rw [hlen, hkk]
  · rw [hpl, hlen, hkk]

theorem claim_C1_astar_bfs_length_witness :
    WFgrid sampleGrid3 3 3 ∧ unitWeights sampleGrid3 ∧
    RolesOk sampleGrid3 3 3 (0, 0) (2, 2) ∧
    bfsOracle sampleGrid3 = some 4 ∧
    ∃ (res : AResult) (g2 : Grid),
      AStar.findPath sampleGrid3 = Except.ok (some res, g2) ∧
      validPath sampleGrid3 3 3 (0, 0) (2, 2) res.path ∧
      res.path.length = 4 + 1 ∧ res.pathLength = 4 + 1 :=
  ⟨by decide, by decide, by decide, by decide,
   claim_C1_astar_bfs_length sampleGrid3 3 3 (0, 0) (2, 2) (by decide)
     (by decide) (by decide) 4 (by decide)⟩

/-- The outcome variant of a `findPath` run: `none` when the call threw,
`some o` when it returned the value `o` normally (`o = none` is JavaScript
`null`). -/
def fpOpt (e : Except Grid (Option AResult × Grid)) : Option (Option AResult) :=
  match e with
  | Except.ok (o, _) => some o
  | Except.error _ => none

/-- C6 counterexample: on the 3x3 sample grid whose goal corner is sealed
off by walls, `findPath` terminates normally and returns `null` (embedded:
the ordinary value `none`) — not a result record with `found = false` and an
empty `path`. Indeed no such record exists: the success record `AResult` has
no `found` field at all, and callers distinguish the no-path outcome purely
by a null-check. The BFS oracle confirms the grid has no start-to-goal
walk. -/
theorem claim_C6_counterexample :
    fpOpt (AStar.findPath sampleGrid3Blocked) = some none ∧
    bfsOracle sampleGrid3Blocked = none := by decide

/-- C6 (amended): on any well-formed unit-weight grid with coherent
start/goal roles on which the BFS oracle finds no walk (equivalently, no
obstacle-free orthogonal path exists), `findPath` terminates — the open set
empties — and returns `null` as an ordinary success value (`Except.ok` with
payload `none`), never an exception. -/
theorem claim_C6_no_path (g : Grid) (R C : Nat) (ps pe : Pos)
    (hWF : WFgrid g R C) (hunit : unitWeights g)
    (hroles : RolesOk g R C ps pe)
    (hnone : bfsOracle g = none) :
    ∃ g2, AStar.findPath g = Except.ok (none, g2) := by
  obtain ⟨o, g2, hfp, hsound, hcomp⟩ := findPath_spec g R C ps pe hWF hunit hroles
  refine ⟨g2, ?_⟩
  cases ho : o with
  | none =>
    rw [ho] at hfp
    exact hfp
  | some res =>
    obtain ⟨k, hk, hv, hl, hp⟩ := hsound res ho
    have hc : bfsOracle g = some k :=
      bfsOracle_complete g R C ps pe k hWF.1 hWF.2.1 hroles.1 hroles.2.1 hk
    rw [hnone] at hc
    exact Option.noConfusion hc

theorem claim_C6_no_path_witness :
    WFgrid sampleGrid3Blocked 3 3 ∧ unitWeights sampleGrid3Blocked ∧
    RolesOk sampleGrid3Blocked 3 3 (0, 0) (2, 2) ∧
    bfsOracle sampleGrid3Blocked = none ∧
    ∃ g2, AStar.findPath sampleGrid3Blocked = Except.ok (none, g2) :=
  ⟨by decide, by decide, by decide, by decide,
   claim_C6_no_path sampleGrid3Blocked 3 3 (0, 0) (2, 2) (by decide)
     (by decide) (by decide) (by decide)⟩

/-- C10: whenever `findPath` succeeds on a well-formed unit-weight grid with
coherent start/goal roles, the returned `path` is a genuine simple path:
its head is the start, its last cell is the goal, every cell is in bounds
and not a wall, consecutive cells are orthogonal neighbors, no cell repeats,
and the reported `pathLength` is the path's cell count. -/
theorem claim_C10_valid_path (g : Grid) (R C : Nat) (ps pe : Pos)
    (hWF : WFgrid g R C) (hunit : unitWeights g)
    (hroles : RolesOk g R C ps pe) (res : AResult) (g2 : Grid)
    (hrun : AStar.findPath g = Except.ok (some res, g2)) :
    validPath g R C ps pe res.path ∧ res.pathLength = res.path.length := by
  obtain ⟨o, g2x, hfp, hsound, hcomp⟩ := findPath_spec g R C ps pe hWF hunit hroles
  rw [hfp] at hrun
  have hpair : (o, g2x) = ((some res : Option AResult), g2) := by
    injection hrun
  have ho : o = some res := congrArg Prod.fst hpair
  obtain ⟨k, hk, hvalid, hlen, hpl⟩ := hsound res ho
  exact ⟨hvalid, hpl⟩

/-- The result record of the successful sample run (bottom-left sample:
`findPath` on the unobstructed 3x3 grid). -/
def res3 : AResult :=
  match AStar.findPath sampleGrid3 with
  | Except.ok (some r, _) => r
  | _ => { path := [], visitedNodes := [], pathLength := 0, nodesExplored := 0 }

/-- The grid state returned alongside `res3`. -/
def grid3After : Grid :=
  match AStar.findPath sampleGrid3 with
  | Except.ok (_, g2) => g2
  | Except.error g2 => g2

theorem claim_C10_valid_path_witness :
    AStar.findPath sampleGrid3 = Except.ok (some res3, grid3After) ∧
    (validPath sampleGrid3 3 3 (0, 0) (2, 2) res3.path ∧
      res3.pathLength = res3.path.length) :=
  ⟨by rfl,
   claim_C10_valid_path sampleGrid3 3 3 (0, 0) (2, 2) (by decide) (by decide)
     (by decide) res3 grid3After (by rfl)⟩
